import Mathlib

/-!
Dense matrix inversion dispatch (`op_inv_gen_meat.hpp`).

A shallow embedding of `op_inv_gen::apply_tiny_noalias`, `op_inv_gen::apply_diagmat`,
`op_inv_gen::apply_direct`, `op_inv_spd::apply_direct` and the four top-level wrappers
`apply`, over an arbitrary linearly ordered field `K` (exact arithmetic), together with
theorems about them.

Conventions of the embedding:
* a `Mat` is its two dimensions and its element storage, a column-major map from
  cell index to element (`memptr()[i]`); the elements of the matrix are the cells
  below `n_rows * n_cols`;
* `std::numeric_limits<T>::epsilon()` is the parameter `eps`, `is_float<T>::value`
  the parameter `is_float`;
* fatal checks (`arma_debug_check`) are results `Except.error`;
* what lies outside the file (machine constants, build options, the external backends)
  is a field of the record `Env`;
* an `Outcome` records, besides the status and `out`, the paths and backends entered.
-/

namespace Arma

/-- Dense matrix `Mat<eT>`: dimensions and column-major element storage. -/
structure Mat (K : Type) where
  n_rows : Nat
  n_cols : Nat
  mem : Nat → K

variable {K : Type}

/-- Number of elements, `n_elem`. -/
def Mat.n_elem (M : Mat K) : Nat := M.n_rows * M.n_cols

/-- Element access `M.at(r,c)`, column-major. -/
def Mat.at_rc (M : Mat K) (r c : Nat) : K := M.mem (r + c * M.n_rows)

/-- Call `M.is_square()`. -/
def Mat.is_square (M : Mat K) : Bool := M.n_rows == M.n_cols

/-- Call `M.set_size(r,c)`: the dimensions change, no element is assigned. -/
def Mat.set_size (M : Mat K) (r c : Nat) : Mat K := { M with n_rows := r, n_cols := c }

/-- Assignment `m[i] = v` on element storage. -/
def write (m : Nat → K) (i : Nat) (v : K) : Nat → K := fun j => if j = i then v else m j

/-- Modelled from the spec: the compile-time index `pos<r,c>::n2` of `(r,c)` in a
column-major 2x2 matrix (its declaration is not in this file of the repository). -/
def pos_n2 (r c : Nat) : Nat := r + c * 2

/-- Modelled from the spec: the compile-time index `pos<r,c>::n3`. -/
def pos_n3 (r c : Nat) : Nat := r + c * 3

/-- Modelled from the spec: the compile-time index `pos<r,c>::n4 = r + 4c`. -/
def pos_n4 (r c : Nat) : Nat := r + c * 4

/-- Determinant of three rows by cofactor expansion along the first row. -/
def det3 [Ring K] (a b c d e f g h i : K) : K :=
  a * (e * i - f * h) - b * (d * i - f * g) + c * (d * h - e * g)

/-- Modelled from the spec: the tiny-determinant primitive `op_det::apply_tiny`
(an external collaborator, not in this file of the repository), the determinant by
direct cofactor expansion along the first row for sizes up to 4. -/
def op_det_apply_tiny [Ring K] (X : Mat K) : K :=
  let N := X.n_rows
  let Xm := X.mem
  if N = 0 then 1
  else if N = 1 then Xm 0
  else if N = 2 then Xm (pos_n2 0 0) * Xm (pos_n2 1 1) - Xm (pos_n2 0 1) * Xm (pos_n2 1 0)
  else if N = 3 then
    det3 (Xm (pos_n3 0 0)) (Xm (pos_n3 0 1)) (Xm (pos_n3 0 2))
         (Xm (pos_n3 1 0)) (Xm (pos_n3 1 1)) (Xm (pos_n3 1 2))
         (Xm (pos_n3 2 0)) (Xm (pos_n3 2 1)) (Xm (pos_n3 2 2))
  else if N = 4 then
      Xm (pos_n4 0 0) * det3 (Xm (pos_n4 1 1)) (Xm (pos_n4 1 2)) (Xm (pos_n4 1 3))
                             (Xm (pos_n4 2 1)) (Xm (pos_n4 2 2)) (Xm (pos_n4 2 3))
                             (Xm (pos_n4 3 1)) (Xm (pos_n4 3 2)) (Xm (pos_n4 3 3))
    - Xm (pos_n4 0 1) * det3 (Xm (pos_n4 1 0)) (Xm (pos_n4 1 2)) (Xm (pos_n4 1 3))
                             (Xm (pos_n4 2 0)) (Xm (pos_n4 2 2)) (Xm (pos_n4 2 3))
                             (Xm (pos_n4 3 0)) (Xm (pos_n4 3 2)) (Xm (pos_n4 3 3))
    + Xm (pos_n4 0 2) * det3 (Xm (pos_n4 1 0)) (Xm (pos_n4 1 1)) (Xm (pos_n4 1 3))
                             (Xm (pos_n4 2 0)) (Xm (pos_n4 2 1)) (Xm (pos_n4 2 3))
                             (Xm (pos_n4 3 0)) (Xm (pos_n4 3 1)) (Xm (pos_n4 3 3))
    - Xm (pos_n4 0 3) * det3 (Xm (pos_n4 1 0)) (Xm (pos_n4 1 1)) (Xm (pos_n4 1 2))
                             (Xm (pos_n4 2 0)) (Xm (pos_n4 2 1)) (Xm (pos_n4 2 2))
                             (Xm (pos_n4 3 0)) (Xm (pos_n4 3 1)) (Xm (pos_n4 3 2))
  else 0

/-- The self-verification tolerance `max_diff` of the 3x3 and 4x4 branches:
`(is_float<T>::value) ? T(1e-4) : T(1e-10)`. -/
def max_diff [LinearOrderedField K] (is_float : Bool) : K :=
  if is_float then 1 / 10000 else 1 / 10000000000

/-- The 4 assignments of the `N == 2` branch of `apply_tiny_noalias` (lines 261-264), in
source order, on the element storage `outm` of `out`. -/
def tiny_n2_assign [Field K] (outm : Nat → K) (a b c d det_val : K) : Nat → K :=
  let outm := write outm (pos_n2 0 0) (d / det_val)
  let outm := write outm (pos_n2 0 1) ((-b) / det_val)
  let outm := write outm (pos_n2 1 0) ((-c) / det_val)
  let outm := write outm (pos_n2 1 1) (a / det_val)
  outm

/-- The 9 assignments of the `N == 3` branch of `apply_tiny_noalias` (lines 276-286),
in source order, on the element storage `outm` of `out`. -/
def tiny_n3_assign [Field K] (Xm outm : Nat → K) (det_val : K) : Nat → K :=
  let outm := write outm (pos_n3 0 0) ((Xm (pos_n3 2 2)*Xm (pos_n3 1 1) - Xm (pos_n3 2 1)*Xm (pos_n3 1 2)) / det_val)
  let outm := write outm (pos_n3 1 0) ((-(Xm (pos_n3 2 2)*Xm (pos_n3 1 0) - Xm (pos_n3 2 0)*Xm (pos_n3 1 2))) / det_val)
  let outm := write outm (pos_n3 2 0) ((Xm (pos_n3 2 1)*Xm (pos_n3 1 0) - Xm (pos_n3 2 0)*Xm (pos_n3 1 1)) / det_val)
  let outm := write outm (pos_n3 0 1) ((-(Xm (pos_n3 2 2)*Xm (pos_n3 0 1) - Xm (pos_n3 2 1)*Xm (pos_n3 0 2))) / det_val)
  let outm := write outm (pos_n3 1 1) ((Xm (pos_n3 2 2)*Xm (pos_n3 0 0) - Xm (pos_n3 2 0)*Xm (pos_n3 0 2)) / det_val)
  let outm := write outm (pos_n3 2 1) ((-(Xm (pos_n3 2 1)*Xm (pos_n3 0 0) - Xm (pos_n3 2 0)*Xm (pos_n3 0 1))) / det_val)
  let outm := write outm (pos_n3 0 2) ((Xm (pos_n3 1 2)*Xm (pos_n3 0 1) - Xm (pos_n3 1 1)*Xm (pos_n3 0 2)) / det_val)
  let outm := write outm (pos_n3 1 2) ((-(Xm (pos_n3 1 2)*Xm (pos_n3 0 0) - Xm (pos_n3 1 0)*Xm (pos_n3 0 2))) / det_val)
  let outm := write outm (pos_n3 2 2) ((Xm (pos_n3 1 1)*Xm (pos_n3 0 0) - Xm (pos_n3 1 0)*Xm (pos_n3 0 1)) / det_val)
  outm

/-- The self-verification value `check_val` of the `N == 3` branch. -/
def tiny_n3_check_val [Field K] (Xm outm : Nat → K) : K :=
  Xm (pos_n3 0 0)*outm (pos_n3 0 0) + Xm (pos_n3 0 1)*outm (pos_n3 1 0) + Xm (pos_n3 0 2)*outm (pos_n3 2 0)

/-- The 16 assignments of the `N == 4` branch of `apply_tiny_noalias` (lines 304-322),
in source order, on the element storage `outm` of `out`. -/
def tiny_n4_assign [Field K] (Xm outm : Nat → K) (det_val : K) : Nat → K :=
  let outm := write outm (pos_n4 0 0) (( Xm (pos_n4 1 2)*Xm (pos_n4 2 3)*Xm (pos_n4 3 1) - Xm (pos_n4 1 3)*Xm (pos_n4 2 2)*Xm (pos_n4 3 1) + Xm (pos_n4 1 3)*Xm (pos_n4 2 1)*Xm (pos_n4 3 2) - Xm (pos_n4 1 1)*Xm (pos_n4 2 3)*Xm (pos_n4 3 2) - Xm (pos_n4 1 2)*Xm (pos_n4 2 1)*Xm (pos_n4 3 3) + Xm (pos_n4 1 1)*Xm (pos_n4 2 2)*Xm (pos_n4 3 3) ) / det_val)
  let outm := write outm (pos_n4 1 0) (( Xm (pos_n4 1 3)*Xm (pos_n4 2 2)*Xm (pos_n4 3 0) - Xm (pos_n4 1 2)*Xm (pos_n4 2 3)*Xm (pos_n4 3 0) - Xm (pos_n4 1 3)*Xm (pos_n4 2 0)*Xm (pos_n4 3 2) + Xm (pos_n4 1 0)*Xm (pos_n4 2 3)*Xm (pos_n4 3 2) + Xm (pos_n4 1 2)*Xm (pos_n4 2 0)*Xm (pos_n4 3 3) - Xm (pos_n4 1 0)*Xm (pos_n4 2 2)*Xm (pos_n4 3 3) ) / det_val)
  let outm := write outm (pos_n4 2 0) (( Xm (pos_n4 1 1)*Xm (pos_n4 2 3)*Xm (pos_n4 3 0) - Xm (pos_n4 1 3)*Xm (pos_n4 2 1)*Xm (pos_n4 3 0) + Xm (pos_n4 1 3)*Xm (pos_n4 2 0)*Xm (pos_n4 3 1) - Xm (pos_n4 1 0)*Xm (pos_n4 2 3)*Xm (pos_n4 3 1) - Xm (pos_n4 1 1)*Xm (pos_n4 2 0)*Xm (pos_n4 3 3) + Xm (pos_n4 1 0)*Xm (pos_n4 2 1)*Xm (pos_n4 3 3) ) / det_val)
  let outm := write outm (pos_n4 3 0) (( Xm (pos_n4 1 2)*Xm (pos_n4 2 1)*Xm (pos_n4 3 0) - Xm (pos_n4 1 1)*Xm (pos_n4 2 2)*Xm (pos_n4 3 0) - Xm (pos_n4 1 2)*Xm (pos_n4 2 0)*Xm (pos_n4 3 1) + Xm (pos_n4 1 0)*Xm (pos_n4 2 2)*Xm (pos_n4 3 1) + Xm (pos_n4 1 1)*Xm (pos_n4 2 0)*Xm (pos_n4 3 2) - Xm (pos_n4 1 0)*Xm (pos_n4 2 1)*Xm (pos_n4 3 2) ) / det_val)
  let outm := write outm (pos_n4 0 1) (( Xm (pos_n4 0 3)*Xm (pos_n4 2 2)*Xm (pos_n4 3 1) - Xm (pos_n4 0 2)*Xm (pos_n4 2 3)*Xm (pos_n4 3 1) - Xm (pos_n4 0 3)*Xm (pos_n4 2 1)*Xm (pos_n4 3 2) + Xm (pos_n4 0 1)*Xm (pos_n4 2 3)*Xm (pos_n4 3 2) + Xm (pos_n4 0 2)*Xm (pos_n4 2 1)*Xm (pos_n4 3 3) - Xm (pos_n4 0 1)*Xm (pos_n4 2 2)*Xm (pos_n4 3 3) ) / det_val)
  let outm := write outm (pos_n4 1 1) (( Xm (pos_n4 0 2)*Xm (pos_n4 2 3)*Xm (pos_n4 3 0) - Xm (pos_n4 0 3)*Xm (pos_n4 2 2)*Xm (pos_n4 3 0) + Xm (pos_n4 0 3)*Xm (pos_n4 2 0)*Xm (pos_n4 3 2) - Xm (pos_n4 0 0)*Xm (pos_n4 2 3)*Xm (pos_n4 3 2) - Xm (pos_n4 0 2)*Xm (pos_n4 2 0)*Xm (pos_n4 3 3) + Xm (pos_n4 0 0)*Xm (pos_n4 2 2)*Xm (pos_n4 3 3) ) / det_val)
  let outm := write outm (pos_n4 2 1) (( Xm (pos_n4 0 3)*Xm (pos_n4 2 1)*Xm (pos_n4 3 0) - Xm (pos_n4 0 1)*Xm (pos_n4 2 3)*Xm (pos_n4 3 0) - Xm (pos_n4 0 3)*Xm (pos_n4 2 0)*Xm (pos_n4 3 1) + Xm (pos_n4 0 0)*Xm (pos_n4 2 3)*Xm (pos_n4 3 1) + Xm (pos_n4 0 1)*Xm (pos_n4 2 0)*Xm (pos_n4 3 3) - Xm (pos_n4 0 0)*Xm (pos_n4 2 1)*Xm (pos_n4 3 3) ) / det_val)
  let outm := write outm (pos_n4 3 1) (( Xm (pos_n4 0 1)*Xm (pos_n4 2 2)*Xm (pos_n4 3 0) - Xm (pos_n4 0 2)*Xm (pos_n4 2 1)*Xm (pos_n4 3 0) + Xm (pos_n4 0 2)*Xm (pos_n4 2 0)*Xm (pos_n4 3 1) - Xm (pos_n4 0 0)*Xm (pos_n4 2 2)*Xm (pos_n4 3 1) - Xm (pos_n4 0 1)*Xm (pos_n4 2 0)*Xm (pos_n4 3 2) + Xm (pos_n4 0 0)*Xm (pos_n4 2 1)*Xm (pos_n4 3 2) ) / det_val)
  let outm := write outm (pos_n4 0 2) (( Xm (pos_n4 0 2)*Xm (pos_n4 1 3)*Xm (pos_n4 3 1) - Xm (pos_n4 0 3)*Xm (pos_n4 1 2)*Xm (pos_n4 3 1) + Xm (pos_n4 0 3)*Xm (pos_n4 1 1)*Xm (pos_n4 3 2) - Xm (pos_n4 0 1)*Xm (pos_n4 1 3)*Xm (pos_n4 3 2) - Xm (pos_n4 0 2)*Xm (pos_n4 1 1)*Xm (pos_n4 3 3) + Xm (pos_n4 0 1)*Xm (pos_n4 1 2)*Xm (pos_n4 3 3) ) / det_val)
  let outm := write outm (pos_n4 1 2) (( Xm (pos_n4 0 3)*Xm (pos_n4 1 2)*Xm (pos_n4 3 0) - Xm (pos_n4 0 2)*Xm (pos_n4 1 3)*Xm (pos_n4 3 0) - Xm (pos_n4 0 3)*Xm (pos_n4 1 0)*Xm (pos_n4 3 2) + Xm (pos_n4 0 0)*Xm (pos_n4 1 3)*Xm (pos_n4 3 2) + Xm (pos_n4 0 2)*Xm (pos_n4 1 0)*Xm (pos_n4 3 3) - Xm (pos_n4 0 0)*Xm (pos_n4 1 2)*Xm (pos_n4 3 3) ) / det_val)
  let outm := write outm (pos_n4 2 2) (( Xm (pos_n4 0 1)*Xm (pos_n4 1 3)*Xm (pos_n4 3 0) - Xm (pos_n4 0 3)*Xm (pos_n4 1 1)*Xm (pos_n4 3 0) + Xm (pos_n4 0 3)*Xm (pos_n4 1 0)*Xm (pos_n4 3 1) - Xm (pos_n4 0 0)*Xm (pos_n4 1 3)*Xm (pos_n4 3 1) - Xm (pos_n4 0 1)*Xm (pos_n4 1 0)*Xm (pos_n4 3 3) + Xm (pos_n4 0 0)*Xm (pos_n4 1 1)*Xm (pos_n4 3 3) ) / det_val)
  let outm := write outm (pos_n4 3 2) (( Xm (pos_n4 0 2)*Xm (pos_n4 1 1)*Xm (pos_n4 3 0) - Xm (pos_n4 0 1)*Xm (pos_n4 1 2)*Xm (pos_n4 3 0) - Xm (pos_n4 0 2)*Xm (pos_n4 1 0)*Xm (pos_n4 3 1) + Xm (pos_n4 0 0)*Xm (pos_n4 1 2)*Xm (pos_n4 3 1) + Xm (pos_n4 0 1)*Xm (pos_n4 1 0)*Xm (pos_n4 3 2) - Xm (pos_n4 0 0)*Xm (pos_n4 1 1)*Xm (pos_n4 3 2) ) / det_val)
  let outm := write outm (pos_n4 0 3) (( Xm (pos_n4 0 3)*Xm (pos_n4 1 2)*Xm (pos_n4 2 1) - Xm (pos_n4 0 2)*Xm (pos_n4 1 3)*Xm (pos_n4 2 1) - Xm (pos_n4 0 3)*Xm (pos_n4 1 1)*Xm (pos_n4 2 2) + Xm (pos_n4 0 1)*Xm (pos_n4 1 3)*Xm (pos_n4 2 2) + Xm (pos_n4 0 2)*Xm (pos_n4 1 1)*Xm (pos_n4 2 3) - Xm (pos_n4 0 1)*Xm (pos_n4 1 2)*Xm (pos_n4 2 3) ) / det_val)
  let outm := write outm (pos_n4 1 3) (( Xm (pos_n4 0 2)*Xm (pos_n4 1 3)*Xm (pos_n4 2 0) - Xm (pos_n4 0 3)*Xm (pos_n4 1 2)*Xm (pos_n4 2 0) + Xm (pos_n4 0 3)*Xm (pos_n4 1 0)*Xm (pos_n4 2 2) - Xm (pos_n4 0 0)*Xm (pos_n4 1 3)*Xm (pos_n4 2 2) - Xm (pos_n4 0 2)*Xm (pos_n4 1 0)*Xm (pos_n4 2 3) + Xm (pos_n4 0 0)*Xm (pos_n4 1 2)*Xm (pos_n4 2 3) ) / det_val)
  let outm := write outm (pos_n4 2 3) (( Xm (pos_n4 0 3)*Xm (pos_n4 1 1)*Xm (pos_n4 2 0) - Xm (pos_n4 0 1)*Xm (pos_n4 1 3)*Xm (pos_n4 2 0) - Xm (pos_n4 0 3)*Xm (pos_n4 1 0)*Xm (pos_n4 2 1) + Xm (pos_n4 0 0)*Xm (pos_n4 1 3)*Xm (pos_n4 2 1) + Xm (pos_n4 0 1)*Xm (pos_n4 1 0)*Xm (pos_n4 2 3) - Xm (pos_n4 0 0)*Xm (pos_n4 1 1)*Xm (pos_n4 2 3) ) / det_val)
  let outm := write outm (pos_n4 3 3) (( Xm (pos_n4 0 1)*Xm (pos_n4 1 2)*Xm (pos_n4 2 0) - Xm (pos_n4 0 2)*Xm (pos_n4 1 1)*Xm (pos_n4 2 0) + Xm (pos_n4 0 2)*Xm (pos_n4 1 0)*Xm (pos_n4 2 1) - Xm (pos_n4 0 0)*Xm (pos_n4 1 2)*Xm (pos_n4 2 1) - Xm (pos_n4 0 1)*Xm (pos_n4 1 0)*Xm (pos_n4 2 2) + Xm (pos_n4 0 0)*Xm (pos_n4 1 1)*Xm (pos_n4 2 2) ) / det_val)
  outm

/-- The self-verification value `check_val` of the `N == 4` branch. -/
def tiny_n4_check_val [Field K] (Xm outm : Nat → K) : K :=
  Xm (pos_n4 0 0)*outm (pos_n4 0 0) + Xm (pos_n4 0 1)*outm (pos_n4 1 0) + Xm (pos_n4 0 2)*outm (pos_n4 2 0) + Xm (pos_n4 0 3)*outm (pos_n4 3 0)

/-- The closed-form solver `op_inv_gen::apply_tiny_noalias(out, X)`; the result is the
returned status and the final `out`. -/
def apply_tiny_noalias [LinearOrderedField K] (eps : K) (is_float : Bool)
    (out X : Mat K) : Bool × Mat K :=
  let N := X.n_rows
  let out := out.set_size N N
  let det_min := eps
  let det_max := 1 / eps
  let Xm := X.mem
  let outm := out.mem
  if N = 0 then (true, out)
  else if N = 1 then
    let outm := write outm 0 (1 / Xm 0)
    (true, { out with mem := outm })
  else if N = 2 then
    let a := Xm (pos_n2 0 0)
    let b := Xm (pos_n2 0 1)
    let c := Xm (pos_n2 1 0)
    let d := Xm (pos_n2 1 1)
    let det_val := a * d - b * c
    let abs_det_val := |det_val|
    if abs_det_val < det_min ∨ abs_det_val > det_max then (false, out) else
    let outm := tiny_n2_assign outm a b c d det_val
    (true, { out with mem := outm })
  else if N = 3 then
    let det_val := op_det_apply_tiny X
    let abs_det_val := |det_val|
    if abs_det_val < det_min ∨ abs_det_val > det_max then (false, out) else
    let outm := tiny_n3_assign Xm outm det_val
    let check_val := tiny_n3_check_val Xm outm
    if |1 - check_val| ≥ max_diff is_float then (false, { out with mem := outm }) else
    (true, { out with mem := outm })
  else if N = 4 then
    let det_val := op_det_apply_tiny X
    let abs_det_val := |det_val|
    if abs_det_val < det_min ∨ abs_det_val > det_max then (false, out) else
    let outm := tiny_n4_assign Xm outm det_val
    let check_val := tiny_n4_check_val Xm outm
    if |1 - check_val| ≥ max_diff is_float then (false, { out with mem := outm }) else
    (true, { out with mem := outm })
  else (false, out)

/-- Call `M.zeros(r,c)`: resize, then assign zero to every element. -/
def Mat.zeros [Zero K] (M : Mat K) (r c : Nat) : Mat K :=
  { n_rows := r, n_cols := c, mem := fun i => if i < r * c then 0 else M.mem i }

/-- Assignment `M.at(r,c) = v`. -/
def Mat.set_at (M : Mat K) (r c : Nat) (v : K) : Mat K :=
  { M with mem := write M.mem (r + c * M.n_rows) v }

/-- Call `arrayops::copy(dest, src, n)`: the first `n` cells of `src` go to `dest`. -/
def arrayops_copy (dest src : Nat → K) (n : Nat) : Nat → K :=
  fun i => if i < n then src i else dest i

/-- Modelled from the spec: `Mat::is_diagmat()` (declared outside this file of the
repository), true when every off-diagonal element is zero. -/
def Mat.is_diagmat [Zero K] [DecidableEq K] (M : Mat K) : Bool :=
  decide (∀ c < M.n_cols, ∀ r < M.n_rows, r ≠ c → M.at_rc r c = 0)

/-- Modelled from the spec: `trimat_helper::is_triu` (declared outside this file of the
repository), true when every element below the diagonal is zero. -/
def is_triu [Zero K] [DecidableEq K] (M : Mat K) : Bool :=
  decide (∀ c < M.n_cols, ∀ r < M.n_rows, c < r → M.at_rc r c = 0)

/-- Modelled from the spec: `trimat_helper::is_tril` (declared outside this file of the
repository), true when every element above the diagonal is zero. -/
def is_tril [Zero K] [DecidableEq K] (M : Mat K) : Bool :=
  decide (∀ c < M.n_cols, ∀ r < M.n_rows, r < c → M.at_rc r c = 0)

/-- The fatal configuration errors raised by `arma_debug_check`. -/
inductive Err where
  | flags_exclusive
  | not_square
  deriving DecidableEq

/-- A diagonal operand seen through `diagmat_proxy<T1>` (declared outside this file of
the repository): its dimensions, its diagonal entries `A[i]`, and whether it shares
storage with the destination (`A.is_alias(out)`). -/
structure DiagProxy (K : Type) where
  n_rows : Nat
  n_cols : Nat
  diag : Nat → K
  is_alias : Bool

/-- The loop body shared by both branches of `apply_diagmat`: record a zero entry in
`status`, then store the reciprocal on the diagonal. -/
def diagmat_step [Field K] [DecidableEq K] (A : DiagProxy K) (st : Bool × Mat K) (i : Nat) :
    Bool × Mat K :=
  let val := A.diag i
  let status := if val = 0 then false else st.1
  (status, st.2.set_at i i (1 / val))

/-- The diagonal path `op_inv_gen::apply_diagmat(out, X, caller_sig)`. -/
def apply_diagmat [Field K] [DecidableEq K] (out : Mat K) (A : DiagProxy K) :
    Except Err (Bool × Mat K) :=
  if A.n_rows ≠ A.n_cols then Except.error Err.not_square else
  let N := min A.n_rows A.n_cols
  let status := true
  if A.is_alias = false then
    let out := out.zeros N N
    let (status, out) := (List.range N).foldl (diagmat_step A) (status, out)
    Except.ok (status, out)
  else
    let tmp : Mat K := { n_rows := N, n_cols := N, mem := fun _ => 0 }
    let (status, tmp) := (List.range N).foldl (diagmat_step A) (status, tmp)
    let out := tmp
    Except.ok (status, out)

/-- The proxy `diagmat_proxy<Mat<eT>>` of a matrix that is the destination itself, as in
the call `apply_diagmat(out, out, caller_sig)`. -/
def DiagProxy.ofMat (M : Mat K) : DiagProxy K :=
  { n_rows := M.n_rows, n_cols := M.n_cols, diag := fun i => M.at_rc i i, is_alias := true }

/-- Modelled from the spec: the option bit `inv_opts::flag_fast` (the three option bits
are declared outside this file of the repository; they are independent bits). -/
def flag_fast : Nat := 1

/-- Modelled from the spec: the option bit `inv_opts::flag_likely_sympd`. -/
def flag_likely_sympd : Nat := 2

/-- Modelled from the spec: the option bit `inv_opts::flag_no_sympd`. -/
def flag_no_sympd : Nat := 4

/-- Decoding of one option: `has_user_flags && bool(flags & bit)`. -/
def has_flag (has_user_flags : Bool) (flags bit : Nat) : Bool :=
  has_user_flags && (flags &&& bit != 0)

/-- The input expression `T1` as the dispatcher distinguishes it: carrying the static
diagonal tag (`strip_diagmat<T1>::do_diagmat`, with the stripped operand), carrying the
static triangular tag (`strip_trimat<T1>::do_trimat`, with the stripped operand and
`do_triu`), or any other expression, given by the matrix it evaluates to. -/
inductive Expr (K : Type) where
  | diagmat (A : DiagProxy K)
  | trimat (M : Mat K) (do_triu : Bool)
  | plain (M : Mat K)

/-- The paths and external routines a call of the dispatcher enters, in order. -/
inductive Call where
  | tiny
  | diagmat
  | inv_tr (layout : Nat)
  | guess_sympd
  | inv_sympd
  | inv
  deriving DecidableEq

/-- What is outside this file of the repository and fixed for one instantiation:
machine epsilon, `is_float<T>::value`, `is_cx<eT>::no`, whether `ARMA_OPTIMISE_SYMPD` is
defined, the content of freshly allocated unfilled storage, and the external routines
`auxlib::inv_tr`, `auxlib::inv_sympd`, `auxlib::inv` (each from the matrix it works on
in place to its status and the matrix it leaves) and `sympd_helper::guess_sympd`; for the
`sympd` dispatcher also `arma_config::debug` and `auxlib::rudimentary_sym_check`. -/
structure Env (K : Type) where
  eps : K
  is_float : Bool
  is_cx_no : Bool
  optimise_sympd : Bool
  uninit : Nat → K
  inv_tr : Mat K → Nat → Bool × Mat K
  inv_sympd : Mat K → Bool × Mat K
  inv : Mat K → Bool × Mat K
  guess_sympd : Mat K → Bool
  debug : Bool
  rudimentary_sym_check : Mat K → Bool

/-- The outcome of a dispatcher call: the returned status or the fatal error raised, the
destination matrix at that moment, and the calls made. -/
structure Outcome (K : Type) where
  result : Except Err Bool
  out : Mat K
  calls : List Call

/-- The decision `try_sympd` of lines 146-150 of `op_inv_gen::apply_direct`:
`(no_sympd) ? false : (likely_sympd ? true : sympd_helper::guess_sympd(out))` when
`ARMA_OPTIMISE_SYMPD` is defined, `false` otherwise. -/
def try_sympd (env : Env K) (likely_sympd no_sympd : Bool) (out : Mat K) : Bool :=
  if env.optimise_sympd then
    (if no_sympd then false else (if likely_sympd then true else env.guess_sympd out))
  else false

/-- The decision `try_sympd` in the words of the specification (section 4.4, step 7):
`likely_sympd ? true : (no_sympd ? false : heuristic-guess-sympd(out))`, when the
optimisation is enabled at build time. -/
def try_sympd_spec (env : Env K) (likely_sympd no_sympd : Bool) (out : Mat K) : Bool :=
  if env.optimise_sympd then
    (if likely_sympd then true else (if no_sympd then false else env.guess_sympd out))
  else false

/-- Lines 139-167 of `op_inv_gen::apply_direct`: runtime structure detection, the
`sympd` optimisation and the general backend, on the materialised `out`. -/
def apply_direct_structured [Field K] [DecidableEq K] (env : Env K)
    (likely_sympd no_sympd : Bool) (out : Mat K) (calls : List Call) : Outcome K :=
  if out.is_diagmat then
    match apply_diagmat out (DiagProxy.ofMat out) with
    | Except.error e => { result := Except.error e, out := out, calls := calls ++ [Call.diagmat] }
    | Except.ok r => { result := Except.ok r.1, out := r.2, calls := calls ++ [Call.diagmat] }
  else
  let triu := is_triu out
  let tril := if triu then false else is_tril out
  if triu || tril then
    let layout := if triu then 0 else 1
    let r := env.inv_tr out layout
    { result := Except.ok r.1, out := r.2, calls := calls ++ [Call.inv_tr layout] }
  else
  let calls :=
    if env.optimise_sympd && !no_sympd && !likely_sympd then calls ++ [Call.guess_sympd]
    else calls
  if try_sympd env likely_sympd no_sympd out then
    let tmp := out
    let r := env.inv_sympd tmp
    if r.1 then { result := Except.ok true, out := r.2, calls := calls ++ [Call.inv_sympd] }
    else
      let g := env.inv out
      { result := Except.ok g.1, out := g.2, calls := calls ++ [Call.inv_sympd, Call.inv] }
  else
    let g := env.inv out
    { result := Except.ok g.1, out := g.2, calls := calls ++ [Call.inv] }

/-- The dispatcher `op_inv_gen::apply_direct<T1,has_user_flags>(out, expr, caller_sig, flags)`. -/
def apply_direct [LinearOrderedField K] (env : Env K) (has_user_flags : Bool)
    (out : Mat K) (expr : Expr K) (flags : Nat) : Outcome K :=
  let fast := has_flag has_user_flags flags flag_fast
  let likely_sympd := has_flag has_user_flags flags flag_likely_sympd
  let no_sympd := has_flag has_user_flags flags flag_no_sympd
  if no_sympd && likely_sympd then
    { result := Except.error Err.flags_exclusive, out := out, calls := [] }
  else
  match expr with
  | Expr.diagmat A =>
    match apply_diagmat out A with
    | Except.error e => { result := Except.error e, out := out, calls := [Call.diagmat] }
    | Except.ok r => { result := Except.ok r.1, out := r.2, calls := [Call.diagmat] }
  | Expr.trimat M do_triu =>
    let out := M
    if out.is_square = false then
      { result := Except.error Err.not_square, out := out, calls := [] }
    else
    let layout := if do_triu then 0 else 1
    let r := env.inv_tr out layout
    { result := Except.ok r.1, out := r.2, calls := [Call.inv_tr layout] }
  | Expr.plain M =>
    let out := M
    if out.is_square = false then
      { result := Except.error Err.not_square, out := out, calls := [] }
    else
    if fast && decide (out.n_rows ≤ 4) && env.is_cx_no then
      let tmp : Mat K := { n_rows := out.n_rows, n_cols := out.n_rows, mem := env.uninit }
      let r := apply_tiny_noalias env.eps env.is_float tmp out
      if r.1 then
        { result := Except.ok true,
          out := { out with mem := arrayops_copy out.mem r.2.mem r.2.n_elem },
          calls := [Call.tiny] }
      else apply_direct_structured env likely_sympd no_sympd out [Call.tiny]
    else apply_direct_structured env likely_sympd no_sympd out []

/-- The default entry `op_inv_gen_default::apply_direct(out, expr, caller_sig)`. -/
def apply_direct_default [LinearOrderedField K] (env : Env K) (out : Mat K) (expr : Expr K) :
    Outcome K :=
  apply_direct env false out expr 0

/-- The diagnostics printed through `arma_debug_warn_level` by the `sympd` dispatcher. -/
inductive Warn where
  | likely_sympd_ignored
  | no_sympd_ignored
  | not_symmetric
  | not_hermitian
  deriving DecidableEq

/-- The loop of lines 443-451 of `op_inv_spd::apply_direct`, with `k` iterations left
from index `i`: stop with false at the first diagonal entry that is not positive,
otherwise store its reciprocal in place; the result is the status and `out`. -/
def spd_diag_loop [LinearOrderedField K] : Nat → Nat → Mat K → Bool × Mat K
  | 0, _, out => (true, out)
  | k + 1, i, out =>
    let real_out_ii := out.at_rc i i
    if real_out_ii ≤ 0 then (false, out)
    else spd_diag_loop k (i + 1) (out.set_at i i (1 / real_out_ii))

/-- The first loop of the plausibility gate (lines 471-481), with `k` iterations left
from index `i`, `colmem` the offset of the current column and `max_diag` the running
maximum: `none` when it returns false at a diagonal entry that is not positive,
otherwise the final `max_diag`. -/
def spd_gate_diag [LinearOrderedField K] (mem : Nat → K) (N : Nat) :
    Nat → Nat → Nat → K → Option K
  | 0, _, _, max_diag => some max_diag
  | k + 1, i, colmem, max_diag =>
    let real_out_ii := mem (colmem + i)
    if real_out_ii ≤ 0 then none
    else spd_gate_diag mem N k (i + 1) (colmem + N)
      (if real_out_ii > max_diag then real_out_ii else max_diag)

/-- The inner loop of the second loop of the gate (lines 487-492), with `k` iterations
left from row `r` in the column at offset `colmem`: false when an element exceeds
`max_diag` in absolute value. -/
def spd_gate_col [LinearOrderedField K] (mem : Nat → K) (max_diag : K) (colmem : Nat) :
    Nat → Nat → Bool
  | 0, _ => true
  | k + 1, r =>
    let abs_val := |mem (colmem + r)|
    if abs_val > max_diag then false else spd_gate_col mem max_diag colmem k (r + 1)

/-- The second loop of the gate (lines 485-495), with `k` columns left from column `c`:
false when the gate returns false. -/
def spd_gate_tri [LinearOrderedField K] (mem : Nat → K) (N : Nat) (max_diag : K) :
    Nat → Nat → Nat → Bool
  | 0, _, _ => true
  | k + 1, c, colmem =>
    if spd_gate_col mem max_diag colmem (N - c) c = false then false
    else spd_gate_tri mem N max_diag k (c + 1) (colmem + N)

/-- The plausibility gate of lines 467-495 on the element storage `mem` of an `N` by `N`
matrix: false when one of its two loops executes `return false`, true when both run to
their end. -/
def spd_gate [LinearOrderedField K] (mem : Nat → K) (N : Nat) : Bool :=
  match spd_gate_diag mem N N 0 0 0 with
  | none => false
  | some max_diag => spd_gate_tri mem N max_diag N 0 0

/-- Lines 432-508 of `op_inv_spd::apply_direct`, on the materialised square `out`: the
diagonal path, the tinymatrix optimisation behind its gate (a false gate is the
`return false` of line 476 or 491), and the `sympd` backend. `is_op_diagmat` is
`is_op_diagmat<T1>::value`. -/
def op_inv_spd_dispatch [LinearOrderedField K] (env : Env K) (fast is_op_diagmat : Bool)
    (out : Mat K) : Outcome K :=
  let N := min out.n_rows out.n_cols
  if env.is_cx_no && (is_op_diagmat || out.is_diagmat) then
    let r := spd_diag_loop N 0 out
    { result := Except.ok r.1, out := r.2, calls := [] }
  else
  if env.is_cx_no && decide (N ≤ 4) && fast then
    if spd_gate out.mem N = false then
      { result := Except.ok false, out := out, calls := [] }
    else
    let tmp : Mat K := { n_rows := out.n_rows, n_cols := out.n_rows, mem := env.uninit }
    let r := apply_tiny_noalias env.eps env.is_float tmp out
    if r.1 then
      { result := Except.ok true,
        out := { out with mem := arrayops_copy out.mem r.2.mem r.2.n_elem },
        calls := [Call.tiny] }
    else
      let g := env.inv_sympd out
      { result := Except.ok g.1, out := g.2, calls := [Call.tiny, Call.inv_sympd] }
  else
    let g := env.inv_sympd out
    { result := Except.ok g.1, out := g.2, calls := [Call.inv_sympd] }

/-- The dispatcher `op_inv_spd::apply_direct<T1,has_user_flags>(out, expr, flags)`; the
expression is given by the matrix `M` it evaluates to and by `is_op_diagmat<T1>::value`;
the previous content `_out` of the destination is overwritten by `out = expr.get_ref()`.
The result is the outcome and the diagnostics printed. -/
def op_inv_spd_apply_direct [LinearOrderedField K] (env : Env K)
    (has_user_flags is_op_diagmat : Bool) (_out M : Mat K) (flags : Nat) :
    Outcome K × List Warn :=
  let fast := has_flag has_user_flags flags flag_fast
  let likely_sympd := has_flag has_user_flags flags flag_likely_sympd
  let no_sympd := has_flag has_user_flags flags flag_no_sympd
  let warns := if likely_sympd then [Warn.likely_sympd_ignored] else []
  let warns := if no_sympd then warns ++ [Warn.no_sympd_ignored] else warns
  let out := M
  if out.is_square = false then
    ({ result := Except.error Err.not_square, out := out, calls := [] }, warns)
  else
  let warns :=
    if env.debug && (env.rudimentary_sym_check out == false) then
      warns ++ [if env.is_cx_no then Warn.not_symmetric else Warn.not_hermitian]
    else warns
  (op_inv_spd_dispatch env fast is_op_diagmat out, warns)

/-- The default entry `op_inv_spd_default::apply_direct(out, expr)`. -/
def op_inv_spd_default_apply_direct [LinearOrderedField K] (env : Env K)
    (is_op_diagmat : Bool) (out M : Mat K) : Outcome K × List Warn :=
  op_inv_spd_apply_direct env false is_op_diagmat out M 0

/-- What a top-level wrapper raises: a fatal configuration error coming from
`apply_direct`, or the runtime error of `arma_stop_runtime_error`, `inv(): matrix is
singular` or `inv_sympd(): matrix is singular or not positive definite`. -/
inductive Raised where
  | config (e : Err)
  | singular
  | singular_or_not_posdef
  deriving DecidableEq

/-- The effect of a top-level wrapper: what it raises, if anything, and `out`. -/
structure Applied (K : Type) where
  raised : Option Raised
  out : Mat K

/-- Modelled from the spec: `Mat::soft_reset()` (declared outside this file of the
repository), which resets `out` to an empty state. -/
def Mat.soft_reset (M : Mat K) : Mat K := M.set_size 0 0

/-- The body shared by the four wrappers `apply`: the status of `apply_direct` is
tested, and on false `out` is reset and the runtime error `err` is raised. An error
raised inside `apply_direct` propagates. -/
def wrapper_finish (o : Outcome K) (err : Raised) : Applied K :=
  match o.result with
  | Except.error e => { raised := some (Raised.config e), out := o.out }
  | Except.ok status =>
    if status = false then { raised := some err, out := o.out.soft_reset }
    else { raised := none, out := o.out }

/-- The wrapper `op_inv_gen_default::apply(out, X)`, with `expr` the operand `X.m`. -/
def op_inv_gen_default_apply [LinearOrderedField K] (env : Env K) (out : Mat K)
    (expr : Expr K) : Applied K :=
  wrapper_finish (apply_direct_default env out expr) Raised.singular

/-- The wrapper `op_inv_gen::apply(out, X)`, with `expr` the operand `X.m` and `flags`
the word `X.in_aux_uword_a`; the call of `apply_direct` leaves `has_user_flags` to its
default template argument, `true` (declared outside this file of the repository). -/
def op_inv_gen_apply [LinearOrderedField K] (env : Env K) (out : Mat K) (expr : Expr K)
    (flags : Nat) : Applied K :=
  wrapper_finish (apply_direct env true out expr flags) Raised.singular

/-- The wrapper `op_inv_spd_default::apply(out, X)`. -/
def op_inv_spd_default_apply [LinearOrderedField K] (env : Env K) (is_op_diagmat : Bool)
    (out M : Mat K) : Applied K :=
  wrapper_finish (op_inv_spd_default_apply_direct env is_op_diagmat out M).1
    Raised.singular_or_not_posdef

/-- The wrapper `op_inv_spd::apply(out, X)`, with `flags` the word `X.in_aux_uword_a`. -/
def op_inv_spd_apply [LinearOrderedField K] (env : Env K) (is_op_diagmat : Bool)
    (out M : Mat K) (flags : Nat) : Applied K :=
  wrapper_finish (op_inv_spd_apply_direct env true is_op_diagmat out M flags).1
    Raised.singular_or_not_posdef

/-- The matrix of a `Mat` read as an `n` by `n` matrix: entry `(r,c)` is `M.at(r,c)`. -/
def Mat.toMatrix (n : Nat) (M : Mat K) : Matrix (Fin n) (Fin n) K :=
  Matrix.of fun r c => M.at_rc r.val c.val

/-- A concrete matrix from a list of its cells in column-major order. -/
def Mat.ofList [Zero K] (r c : Nat) (l : List K) : Mat K :=
  { n_rows := r, n_cols := c, mem := fun i => l.getD i 0 }

/-- A diagonal operand from the list of its diagonal entries, not aliasing `out`. -/
def DiagProxy.ofList [Zero K] (l : List K) : DiagProxy K :=
  { n_rows := l.length, n_cols := l.length, diag := fun i => l.getD i 0, is_alias := false }

/-- A sample instantiation over the rationals, used to evaluate the dispatcher on concrete
inputs: double precision (`eps = 2^-52`), real elements, `ARMA_OPTIMISE_SYMPD` defined,
fresh storage holding zeros, and external routines that report failure and leave the
matrix as it is. -/
def Env.sample : Env ℚ :=
  { eps := 1 / 2 ^ 52, is_float := false, is_cx_no := true, optimise_sympd := true,
    uninit := fun _ => 0,
    inv_tr := fun M _ => (false, M), inv_sympd := fun M => (false, M),
    inv := fun M => (false, M), guess_sympd := fun _ => false,
    debug := true, rudimentary_sym_check := fun _ => true }

/-! ## Theorems -/

/-- Reading a cell after an assignment. -/
theorem write_apply (m : Nat → K) (i j : Nat) (v : K) :
    write m i v j = if j = i then v else m j := rfl

section Tiny
variable [LinearOrderedField K]

/-- The modelled tiny determinant of a 3x3 matrix is its determinant. -/
theorem op_det_apply_tiny_three (X : Mat K) (hN : X.n_rows = 3) :
    op_det_apply_tiny X = (X.toMatrix 3).det := by
  simp [op_det_apply_tiny, hN, Matrix.det_fin_three, Mat.toMatrix, Mat.at_rc, pos_n3, det3]
  ring

/-- The nine assignments give a right inverse when `det_val` is the nonzero determinant. -/
theorem tiny_n3_assign_right_inv (X : Mat K) (outm : Nat → K) (hN : X.n_rows = 3)
    (hne : op_det_apply_tiny X ≠ 0) (o : Mat K) (ho : o.n_rows = 3)
    (hm : o.mem = tiny_n3_assign X.mem outm (op_det_apply_tiny X)) :
    X.toMatrix 3 * o.toMatrix 3 = 1 := by
  have hd : op_det_apply_tiny X =
      X.mem 0 * (X.mem 4 * X.mem 8 - X.mem 7 * X.mem 5)
      - X.mem 3 * (X.mem 1 * X.mem 8 - X.mem 7 * X.mem 2)
      + X.mem 6 * (X.mem 1 * X.mem 5 - X.mem 4 * X.mem 2) := by
    simp [op_det_apply_tiny, hN, pos_n3, det3]
  rw [hd] at hne hm
  ext i j
  fin_cases i <;> fin_cases j <;>
    simp [Matrix.mul_apply, Fin.sum_univ_three, Mat.toMatrix, Mat.at_rc, hN, ho, hm,
      tiny_n3_assign, pos_n3, write_apply] <;> field_simp <;> ring

/-- The values of `Fin.succAbove` from `Fin 3` into `Fin 4`. -/
theorem succAbove_fin_four (k : Fin 4) (j : Fin 3) : k.succAbove j = if j.val < k.val then ⟨j.val, by omega⟩ else ⟨j.val + 1, by omega⟩ := by
  revert k j; decide

/-- Expansion of a 4x4 determinant along its first row. -/
theorem det_fin_four_expand {R : Type} [CommRing R] (A : Matrix (Fin 4) (Fin 4) R) :
    A.det =
      A 0 0 * (A 1 1 * (A 2 2 * A 3 3 - A 2 3 * A 3 2) - A 1 2 * (A 2 1 * A 3 3 - A 2 3 * A 3 1)
        + A 1 3 * (A 2 1 * A 3 2 - A 2 2 * A 3 1))
    - A 0 1 * (A 1 0 * (A 2 2 * A 3 3 - A 2 3 * A 3 2) - A 1 2 * (A 2 0 * A 3 3 - A 2 3 * A 3 0)
        + A 1 3 * (A 2 0 * A 3 2 - A 2 2 * A 3 0))
    + A 0 2 * (A 1 0 * (A 2 1 * A 3 3 - A 2 3 * A 3 1) - A 1 1 * (A 2 0 * A 3 3 - A 2 3 * A 3 0)
        + A 1 3 * (A 2 0 * A 3 1 - A 2 1 * A 3 0))
    - A 0 3 * (A 1 0 * (A 2 1 * A 3 2 - A 2 2 * A 3 1) - A 1 1 * (A 2 0 * A 3 2 - A 2 2 * A 3 0)
        + A 1 2 * (A 2 0 * A 3 1 - A 2 1 * A 3 0)) := by
  rw [Matrix.det_succ_row_zero]
  simp only [Fin.sum_univ_four, Matrix.det_fin_three, Matrix.submatrix_apply, succAbove_fin_four]
  simp
  have h1 : (Fin.succ (0 : Fin 3)) = (1 : Fin 4) := rfl
  have h2 : (Fin.succ (1 : Fin 3)) = (2 : Fin 4) := rfl
  have h3 : (Fin.succ (2 : Fin 3)) = (3 : Fin 4) := rfl
  have v3 : ((3 : Fin 4) : ℕ) = 3 := rfl
  simp [h1, h2, h3, v3]
  ring

/-- The modelled tiny determinant of a 4x4 matrix is its determinant. -/
theorem op_det_apply_tiny_four (X : Mat K) (hN : X.n_rows = 4) :
    op_det_apply_tiny X = (X.toMatrix 4).det := by
  have v3 : ((3 : Fin 4) : ℕ) = 3 := rfl
  rw [det_fin_four_expand]
  simp [op_det_apply_tiny, hN, Mat.toMatrix, Mat.at_rc, pos_n4, det3, v3]

set_option maxHeartbeats 1000000 in
/-- The sixteen assignments give a right inverse when `det_val` is the nonzero
determinant. -/
theorem tiny_n4_assign_right_inv (X : Mat K) (outm : Nat → K) (hN : X.n_rows = 4)
    (hne : op_det_apply_tiny X ≠ 0) (o : Mat K) (ho : o.n_rows = 4)
    (hm : o.mem = tiny_n4_assign X.mem outm (op_det_apply_tiny X)) :
    X.toMatrix 4 * o.toMatrix 4 = 1 := by
  have hd : op_det_apply_tiny X =
      X.mem 0 * det3 (X.mem 5) (X.mem 9) (X.mem 13) (X.mem 6) (X.mem 10) (X.mem 14)
        (X.mem 7) (X.mem 11) (X.mem 15)
      - X.mem 4 * det3 (X.mem 1) (X.mem 9) (X.mem 13) (X.mem 2) (X.mem 10) (X.mem 14)
        (X.mem 3) (X.mem 11) (X.mem 15)
      + X.mem 8 * det3 (X.mem 1) (X.mem 5) (X.mem 13) (X.mem 2) (X.mem 6) (X.mem 14)
        (X.mem 3) (X.mem 7) (X.mem 15)
      - X.mem 12 * det3 (X.mem 1) (X.mem 5) (X.mem 9) (X.mem 2) (X.mem 6) (X.mem 10)
        (X.mem 3) (X.mem 7) (X.mem 11) := by
    simp [op_det_apply_tiny, hN, pos_n4]
  generalize op_det_apply_tiny X = d at hd hne hm
  simp only [det3] at hd
  have key : ∀ a b c e n0 n1 n2 n3 : K,
      a * (n0 / d) + b * (n1 / d) + c * (n2 / d) + e * (n3 / d)
        = (a * n0 + b * n1 + c * n2 + e * n3) / d := by
    intros; ring
  have v3 : ((3 : Fin 4) : ℕ) = 3 := rfl
  ext i j
  fin_cases i <;> fin_cases j
  all_goals
    simp only [Matrix.mul_apply, Fin.sum_univ_four, Mat.toMatrix, Matrix.of_apply, Mat.at_rc,
      hN, ho, hm, tiny_n4_assign, pos_n4, write_apply]
    norm_num [v3, Matrix.one_apply, Fin.ext_iff]
    rw [key, div_eq_iff hne, hd]
    ring

/-- A right inverse computed by the solver is the adjugate over the determinant, and a
left inverse as well. -/
theorem right_inv_is_adjugate {n : Nat} (A B : Matrix (Fin n) (Fin n) K) (h : A * B = 1) :
    B = (A.det)⁻¹ • A.adjugate ∧ B * A = 1 := by
  refine ⟨?_, (Matrix.mul_eq_one_comm).mp h⟩
  have h1 : A⁻¹ = B := Matrix.inv_eq_right_inv h
  rw [← h1, Matrix.inv_def, Ring.inverse_eq_inv']

/-- The tolerance of the self-verification is positive. -/
theorem max_diff_pos (is_float : Bool) : (0 : K) < max_diff is_float := by
  cases is_float <;> simp [max_diff]

/-- The determinant gate of the solver rejects exactly outside `eps ≤ |d| ≤ 1/eps`. -/
theorem gate_iff (eps d : K) :
    (|d| < eps ∨ |d| > 1 / eps) ↔ ¬ (eps ≤ |d| ∧ |d| ≤ 1 / eps) := by
  constructor
  · rintro (h | h) ⟨h1, h2⟩
    · exact absurd h (not_lt.mpr h1)
    · exact absurd h (not_lt.mpr h2)
  · intro h
    by_cases h1 : eps ≤ |d|
    · right
      exact not_le.mp (fun h2 => h ⟨h1, h2⟩)
    · left
      exact not_le.mp h1

/-- Inside the gate the determinant is not zero. -/
theorem gate_ne_zero (eps d : K) (heps : 0 < eps) (h : eps ≤ |d|) : d ≠ 0 := by
  intro h0
  rw [h0, abs_zero] at h
  exact absurd heps (not_lt.mpr h)

/-- Size 3, outside the gate: the solver returns false after `set_size` only. -/
theorem tiny_three_reject (eps : K) (is_float : Bool) (out X : Mat K) (hN : X.n_rows = 3)
    (hg : |op_det_apply_tiny X| < eps ∨ |op_det_apply_tiny X| > 1 / eps) :
    apply_tiny_noalias eps is_float out X = (false, out.set_size 3 3) := by
  unfold apply_tiny_noalias
  simp only [hN]
  rw [if_neg (by decide), if_neg (by decide), if_neg (by decide), if_pos trivial, if_pos hg]

/-- Size 3, inside the gate: the solver returns true with the nine assignments made. -/
theorem tiny_three_accept (eps : K) (is_float : Bool) (out X : Mat K) (hN : X.n_rows = 3)
    (hg : ¬ (|op_det_apply_tiny X| < eps ∨ |op_det_apply_tiny X| > 1 / eps))
    (hne : op_det_apply_tiny X ≠ 0) :
    apply_tiny_noalias eps is_float out X =
      (true, { n_rows := 3, n_cols := 3,
               mem := tiny_n3_assign X.mem out.mem (op_det_apply_tiny X) }) ∧
    tiny_n3_check_val X.mem (tiny_n3_assign X.mem out.mem (op_det_apply_tiny X)) = 1 := by
  have hinv := tiny_n3_assign_right_inv X out.mem hN hne
    { n_rows := 3, n_cols := 3, mem := tiny_n3_assign X.mem out.mem (op_det_apply_tiny X) }
    rfl rfl
  have hcheck : tiny_n3_check_val X.mem
      (tiny_n3_assign X.mem out.mem (op_det_apply_tiny X)) = 1 := by
    have h00 := congrFun (congrFun hinv 0) 0
    simpa [Matrix.mul_apply, Fin.sum_univ_three, Mat.toMatrix, Mat.at_rc, hN,
      tiny_n3_check_val, pos_n3] using h00
  refine ⟨?_, hcheck⟩
  have hmd : ¬ (|1 - tiny_n3_check_val X.mem
      (tiny_n3_assign X.mem out.mem (op_det_apply_tiny X))| ≥ max_diff is_float) := by
    rw [hcheck, sub_self, abs_zero]
    exact not_le.mpr (max_diff_pos is_float)
  unfold apply_tiny_noalias
  simp only [hN]
  rw [if_neg (by decide), if_neg (by decide), if_neg (by decide), if_pos trivial, if_neg hg]
  simp only [Mat.set_size]
  rw [if_neg hmd]

/-- Size 4, outside the gate: the solver returns false after `set_size` only. -/
theorem tiny_four_reject (eps : K) (is_float : Bool) (out X : Mat K) (hN : X.n_rows = 4)
    (hg : |op_det_apply_tiny X| < eps ∨ |op_det_apply_tiny X| > 1 / eps) :
    apply_tiny_noalias eps is_float out X = (false, out.set_size 4 4) := by
  unfold apply_tiny_noalias
  simp only [hN]
  rw [if_neg (by decide), if_neg (by decide), if_neg (by decide), if_neg (by decide), if_pos trivial, if_pos hg]

/-- Size 4, inside the gate: the solver returns true with the sixteen assignments made. -/
theorem tiny_four_accept (eps : K) (is_float : Bool) (out X : Mat K) (hN : X.n_rows = 4)
    (hg : ¬ (|op_det_apply_tiny X| < eps ∨ |op_det_apply_tiny X| > 1 / eps))
    (hne : op_det_apply_tiny X ≠ 0) :
    apply_tiny_noalias eps is_float out X =
      (true, { n_rows := 4, n_cols := 4,
               mem := tiny_n4_assign X.mem out.mem (op_det_apply_tiny X) }) ∧
    tiny_n4_check_val X.mem (tiny_n4_assign X.mem out.mem (op_det_apply_tiny X)) = 1 := by
  have hinv := tiny_n4_assign_right_inv X out.mem hN hne
    { n_rows := 4, n_cols := 4, mem := tiny_n4_assign X.mem out.mem (op_det_apply_tiny X) }
    rfl rfl
  have hcheck : tiny_n4_check_val X.mem
      (tiny_n4_assign X.mem out.mem (op_det_apply_tiny X)) = 1 := by
    have v3 : ((3 : Fin 4) : ℕ) = 3 := rfl
    have h00 := congrFun (congrFun hinv 0) 0
    simpa [Matrix.mul_apply, Fin.sum_univ_four, Mat.toMatrix, Mat.at_rc, hN,
      tiny_n4_check_val, pos_n4, v3] using h00
  refine ⟨?_, hcheck⟩
  have hmd : ¬ (|1 - tiny_n4_check_val X.mem
      (tiny_n4_assign X.mem out.mem (op_det_apply_tiny X))| ≥ max_diff is_float) := by
    rw [hcheck, sub_self, abs_zero]
    exact not_le.mpr (max_diff_pos is_float)
  unfold apply_tiny_noalias
  simp only [hN]
  rw [if_neg (by decide), if_neg (by decide), if_neg (by decide), if_neg (by decide), if_pos trivial, if_neg hg]
  simp only [Mat.set_size]
  rw [if_neg hmd]

/-- Size 2, outside the gate: the solver returns false after `set_size` only. -/
theorem tiny_two_reject (eps : K) (is_float : Bool) (out X : Mat K) (hN : X.n_rows = 2)
    (hg : |X.mem 0 * X.mem 3 - X.mem 2 * X.mem 1| < eps ∨
      |X.mem 0 * X.mem 3 - X.mem 2 * X.mem 1| > 1 / eps) :
    apply_tiny_noalias eps is_float out X = (false, out.set_size 2 2) := by
  unfold apply_tiny_noalias
  simp only [hN, pos_n2]
  rw [if_neg (by decide), if_neg (by decide), if_pos trivial, if_pos hg]

/-- Size 2, inside the gate: the solver returns true with the four assignments made. -/
theorem tiny_two_accept (eps : K) (is_float : Bool) (out X : Mat K) (hN : X.n_rows = 2)
    (hg : ¬ (|X.mem 0 * X.mem 3 - X.mem 2 * X.mem 1| < eps ∨
      |X.mem 0 * X.mem 3 - X.mem 2 * X.mem 1| > 1 / eps)) :
    apply_tiny_noalias eps is_float out X =
      (true, { n_rows := 2, n_cols := 2,
               mem := tiny_n2_assign out.mem (X.mem 0) (X.mem 2) (X.mem 1) (X.mem 3)
                 (X.mem 0 * X.mem 3 - X.mem 2 * X.mem 1) }) := by
  unfold apply_tiny_noalias
  simp only [hN, pos_n2]
  rw [if_neg (by decide), if_neg (by decide), if_pos trivial, if_neg hg]
  rfl

/-- The four assignments give a right inverse when the determinant is not zero. -/
theorem tiny_n2_assign_right_inv (X : Mat K) (outm : Nat → K) (hN : X.n_rows = 2)
    (hne : X.mem 0 * X.mem 3 - X.mem 2 * X.mem 1 ≠ 0) (o : Mat K) (ho : o.n_rows = 2)
    (hm : o.mem = tiny_n2_assign outm (X.mem 0) (X.mem 2) (X.mem 1) (X.mem 3)
      (X.mem 0 * X.mem 3 - X.mem 2 * X.mem 1)) :
    X.toMatrix 2 * o.toMatrix 2 = 1 := by
  ext i j
  fin_cases i <;> fin_cases j <;>
    simp [Matrix.mul_apply, Fin.sum_univ_two, Mat.toMatrix, Mat.at_rc, hN, ho, hm,
      tiny_n2_assign, pos_n2, write_apply] <;> field_simp <;> ring

/-- C1. Size 2: the solver returns true exactly when `eps ≤ |a*d - b*c| ≤ 1/eps`; on
true the result is 2x2 and a two-sided inverse of `X`; on false no cell of `out` has
been assigned. -/
theorem tiny_two_contract (eps : K) (is_float : Bool) (out X : Mat K)
    (hN : X.n_rows = 2) (heps : 0 < eps) :
    ((apply_tiny_noalias eps is_float out X).1 = true ↔
        eps ≤ |X.at_rc 0 0 * X.at_rc 1 1 - X.at_rc 0 1 * X.at_rc 1 0| ∧
        |X.at_rc 0 0 * X.at_rc 1 1 - X.at_rc 0 1 * X.at_rc 1 0| ≤ 1 / eps) ∧
    ((apply_tiny_noalias eps is_float out X).1 = true →
        (apply_tiny_noalias eps is_float out X).2.n_rows = 2 ∧
        (apply_tiny_noalias eps is_float out X).2.n_cols = 2 ∧
        X.toMatrix 2 * (apply_tiny_noalias eps is_float out X).2.toMatrix 2 = 1 ∧
        (apply_tiny_noalias eps is_float out X).2.toMatrix 2 * X.toMatrix 2 = 1) ∧
    ((apply_tiny_noalias eps is_float out X).1 = false →
        (apply_tiny_noalias eps is_float out X).2.mem = out.mem) := by
  have hdet : X.at_rc 0 0 * X.at_rc 1 1 - X.at_rc 0 1 * X.at_rc 1 0
      = X.mem 0 * X.mem 3 - X.mem 2 * X.mem 1 := by
    simp [Mat.at_rc, hN]
  rw [hdet]
  by_cases hg : |X.mem 0 * X.mem 3 - X.mem 2 * X.mem 1| < eps ∨
      |X.mem 0 * X.mem 3 - X.mem 2 * X.mem 1| > 1 / eps
  · rw [tiny_two_reject eps is_float out X hN hg]
    refine ⟨?_, ?_, ?_⟩
    · simp only [Bool.false_eq_true, false_iff]
      exact (gate_iff eps _).mp hg
    · intro h; exact absurd h Bool.false_ne_true
    · intro _; rfl
  · rw [tiny_two_accept eps is_float out X hN hg]
    have hin := not_not.mp (fun h => hg ((gate_iff eps _).mpr h))
    have hne := gate_ne_zero eps _ heps hin.1
    have hinv := tiny_n2_assign_right_inv X out.mem hN hne
      { n_rows := 2, n_cols := 2,
        mem := tiny_n2_assign out.mem (X.mem 0) (X.mem 2) (X.mem 1) (X.mem 3)
          (X.mem 0 * X.mem 3 - X.mem 2 * X.mem 1) } rfl rfl
    refine ⟨?_, ?_, ?_⟩
    · simp only [true_iff]; exact hin
    · intro _
      exact ⟨rfl, rfl, hinv, (right_inv_is_adjugate _ _ hinv).2⟩
    · intro h; exact absurd h.symm Bool.false_ne_true

/-- Witness of C1 on the rational matrix with rows `(2,1)` and `(1,1)`, `eps = 1/4`. -/
theorem tiny_two_contract_witness :
    (apply_tiny_noalias (1 / 4 : ℚ) false (Mat.ofList 0 0 []) (Mat.ofList 2 2 [2, 1, 1, 1])).1
      = true :=
  (tiny_two_contract (1 / 4 : ℚ) false (Mat.ofList 0 0 []) (Mat.ofList 2 2 [2, 1, 1, 1])
    rfl (by norm_num)).1.mpr (by norm_num [Mat.at_rc, Mat.ofList])

/-- C2. Size 3, with the tiny determinant equal to the determinant of `X`: when
`eps ≤ |det X| ≤ 1/eps` the solver returns true, the result is 3x3, the self-verification
value is exactly 1, the written entries are the adjugate divided by the determinant, and
the result is a two-sided inverse; when `|det X|` is outside that range it returns
false. -/
theorem tiny_three_contract (eps : K) (is_float : Bool) (out X : Mat K)
    (hN : X.n_rows = 3) (heps : 0 < eps) :
    op_det_apply_tiny X = (X.toMatrix 3).det ∧
    (eps ≤ |(X.toMatrix 3).det| ∧ |(X.toMatrix 3).det| ≤ 1 / eps →
        (apply_tiny_noalias eps is_float out X).1 = true ∧
        (apply_tiny_noalias eps is_float out X).2.n_rows = 3 ∧
        (apply_tiny_noalias eps is_float out X).2.n_cols = 3 ∧
        tiny_n3_check_val X.mem (apply_tiny_noalias eps is_float out X).2.mem = 1 ∧
        (apply_tiny_noalias eps is_float out X).2.toMatrix 3
          = ((X.toMatrix 3).det)⁻¹ • (X.toMatrix 3).adjugate ∧
        X.toMatrix 3 * (apply_tiny_noalias eps is_float out X).2.toMatrix 3 = 1 ∧
        (apply_tiny_noalias eps is_float out X).2.toMatrix 3 * X.toMatrix 3 = 1) ∧
    (¬ (eps ≤ |(X.toMatrix 3).det| ∧ |(X.toMatrix 3).det| ≤ 1 / eps) →
        (apply_tiny_noalias eps is_float out X).1 = false) := by
  have hdet := op_det_apply_tiny_three X hN
  refine ⟨hdet, ?_, ?_⟩
  · intro h
    rw [← hdet] at h
    have hg : ¬ (|op_det_apply_tiny X| < eps ∨ |op_det_apply_tiny X| > 1 / eps) :=
      fun hg => (gate_iff eps _).mp hg h
    have hne := gate_ne_zero eps _ heps h.1
    obtain ⟨hr, hcheck⟩ := tiny_three_accept eps is_float out X hN hg hne
    have hinv := tiny_n3_assign_right_inv X out.mem hN hne
      { n_rows := 3, n_cols := 3, mem := tiny_n3_assign X.mem out.mem (op_det_apply_tiny X) }
      rfl rfl
    rw [hr]
    exact ⟨rfl, rfl, rfl, hcheck, (right_inv_is_adjugate _ _ hinv).1, hinv,
      (right_inv_is_adjugate _ _ hinv).2⟩
  · intro h
    rw [← hdet] at h
    rw [tiny_three_reject eps is_float out X hN ((gate_iff eps _).mpr h)]

/-- Witness of C2 on the rational diagonal matrix `diag(2,1,1)`, `eps = 1/4`. -/
theorem tiny_three_contract_witness :
    (apply_tiny_noalias (1 / 4 : ℚ) false (Mat.ofList 0 0 [])
      (Mat.ofList 3 3 [2, 0, 0, 0, 1, 0, 0, 0, 1])).1 = true :=
  ((tiny_three_contract (1 / 4 : ℚ) false (Mat.ofList 0 0 [])
    (Mat.ofList 3 3 [2, 0, 0, 0, 1, 0, 0, 0, 1]) rfl (by norm_num)).2.1
    (by norm_num [Matrix.det_fin_three, Mat.toMatrix, Mat.at_rc, Mat.ofList])).1

/-- C3. Size 4, with the tiny determinant equal to the determinant of `X`: when
`eps ≤ |det X| ≤ 1/eps` the solver returns true, the result is 4x4, the cell
`pos<r,c>::n4` holds entry `(r,c)` of the adjugate divided by the determinant, and the
result is a two-sided inverse of `X`. -/
theorem tiny_four_contract (eps : K) (is_float : Bool) (out X : Mat K)
    (hN : X.n_rows = 4) (heps : 0 < eps)
    (hlo : eps ≤ |(X.toMatrix 4).det|) (hhi : |(X.toMatrix 4).det| ≤ 1 / eps) :
    op_det_apply_tiny X = (X.toMatrix 4).det ∧
    (apply_tiny_noalias eps is_float out X).1 = true ∧
    (apply_tiny_noalias eps is_float out X).2.n_rows = 4 ∧
    (apply_tiny_noalias eps is_float out X).2.n_cols = 4 ∧
    (∀ r c : Fin 4, (apply_tiny_noalias eps is_float out X).2.mem (pos_n4 r.val c.val)
        = (((X.toMatrix 4).det)⁻¹ • (X.toMatrix 4).adjugate) r c) ∧
    X.toMatrix 4 * (apply_tiny_noalias eps is_float out X).2.toMatrix 4 = 1 ∧
    (apply_tiny_noalias eps is_float out X).2.toMatrix 4 * X.toMatrix 4 = 1 := by
  have hdet := op_det_apply_tiny_four X hN
  rw [← hdet] at hlo hhi
  have hg : ¬ (|op_det_apply_tiny X| < eps ∨ |op_det_apply_tiny X| > 1 / eps) :=
    fun hg => (gate_iff eps _).mp hg ⟨hlo, hhi⟩
  have hne := gate_ne_zero eps _ heps hlo
  obtain ⟨hr, _⟩ := tiny_four_accept eps is_float out X hN hg hne
  have hinv := tiny_n4_assign_right_inv X out.mem hN hne
    { n_rows := 4, n_cols := 4, mem := tiny_n4_assign X.mem out.mem (op_det_apply_tiny X) }
    rfl rfl
  rw [hr]
  refine ⟨hdet, rfl, rfl, rfl, ?_, hinv, (right_inv_is_adjugate _ _ hinv).2⟩
  intro r c
  have hadj := (right_inv_is_adjugate _ _ hinv).1
  rw [← hadj]
  rfl

/-- Witness of C3 on the rational diagonal matrix `diag(2,1,1,1)`, `eps = 1/4`. -/
theorem tiny_four_contract_witness :
    (apply_tiny_noalias (1 / 4 : ℚ) false (Mat.ofList 0 0 [])
      (Mat.ofList 4 4 [2, 0, 0, 0, 0, 1, 0, 0, 0, 0, 1, 0, 0, 0, 0, 1])).1 = true :=
  (tiny_four_contract (1 / 4 : ℚ) false (Mat.ofList 0 0 [])
    (Mat.ofList 4 4 [2, 0, 0, 0, 0, 1, 0, 0, 0, 0, 1, 0, 0, 0, 0, 1]) rfl (by norm_num)
    (by
      rw [← op_det_apply_tiny_four _ rfl]
      norm_num [op_det_apply_tiny, Mat.ofList, pos_n4, det3])
    (by
      rw [← op_det_apply_tiny_four _ rfl]
      norm_num [op_det_apply_tiny, Mat.ofList, pos_n4, det3])).2.1

/-- Sizes 2 to 4: a matrix whose determinant is zero is rejected by the gate. -/
theorem tiny_singular_reject (eps : K) (is_float : Bool) (out X : Mat K) (heps : 0 < eps)
    (hN : X.n_rows = 2 ∨ X.n_rows = 3 ∨ X.n_rows = 4) (hdet : op_det_apply_tiny X = 0) :
    (apply_tiny_noalias eps is_float out X).1 = false := by
  rcases hN with hN | hN | hN
  · have h2 : X.mem 0 * X.mem 3 - X.mem 2 * X.mem 1 = 0 := by
      simpa [op_det_apply_tiny, hN, pos_n2] using hdet
    rw [tiny_two_reject eps is_float out X hN (Or.inl (by rw [h2, abs_zero]; exact heps))]
  · rw [tiny_three_reject eps is_float out X hN (Or.inl (by rw [hdet, abs_zero]; exact heps))]
  · rw [tiny_four_reject eps is_float out X hN (Or.inl (by rw [hdet, abs_zero]; exact heps))]

/-- C4, the code at the failing input: for the 1x1 matrix `[0]`, whose determinant is 0,
the solver returns true, whatever `eps` is. -/
theorem tiny_one_zero_accepted (eps : K) (is_float : Bool) (out : Mat K) :
    op_det_apply_tiny (Mat.ofList 1 1 [(0 : K)]) = 0 ∧
    (apply_tiny_noalias eps is_float out (Mat.ofList 1 1 [(0 : K)])).1 = true := by
  constructor
  · simp [op_det_apply_tiny, Mat.ofList]
  · simp [apply_tiny_noalias, Mat.ofList]

/-- C5, counterexample: with `eps = 2^-52` the 2x2 matrix `diag(eps, 1)` has
`|a*d - b*c| = eps` and the solver returns true. -/
theorem tiny_floor_is_accepted :
    |(Mat.ofList 2 2 [1 / 2 ^ 52, 0, 0, (1 : ℚ)]).at_rc 0 0
        * (Mat.ofList 2 2 [1 / 2 ^ 52, 0, 0, (1 : ℚ)]).at_rc 1 1
      - (Mat.ofList 2 2 [1 / 2 ^ 52, 0, 0, (1 : ℚ)]).at_rc 0 1
        * (Mat.ofList 2 2 [1 / 2 ^ 52, 0, 0, (1 : ℚ)]).at_rc 1 0| = 1 / 2 ^ 52 ∧
    (apply_tiny_noalias (1 / 2 ^ 52 : ℚ) false (Mat.ofList 2 2 [])
      (Mat.ofList 2 2 [1 / 2 ^ 52, 0, 0, (1 : ℚ)])).1 = true := by
  constructor
  · norm_num [Mat.at_rc, Mat.ofList]
  · rw [tiny_two_accept _ _ _ _ rfl (by norm_num [Mat.ofList, abs_of_pos])]

/-- C5, amended: in exact arithmetic (elements of an ordered field) with `0 < eps ≤ 1`, a
2x2 matrix whose value `det_val = a*d - b*c` has `|det_val| = eps` is accepted: the gate
rejects only `abs_det_val < det_min` or `abs_det_val > det_max`, so the floor of the
accepted range is inclusive. -/
theorem tiny_floor_inclusive (eps : K) (is_float : Bool) (out X : Mat K)
    (hN : X.n_rows = 2) (heps : 0 < eps) (hle : eps ≤ 1)
    (hdet : |X.at_rc 0 0 * X.at_rc 1 1 - X.at_rc 0 1 * X.at_rc 1 0| = eps) :
    (apply_tiny_noalias eps is_float out X).1 = true := by
  have hd : X.at_rc 0 0 * X.at_rc 1 1 - X.at_rc 0 1 * X.at_rc 1 0
      = X.mem 0 * X.mem 3 - X.mem 2 * X.mem 1 := by
    simp [Mat.at_rc, hN]
  rw [hd] at hdet
  have hone : eps ≤ 1 / eps := by
    rw [le_div_iff₀ heps]
    calc eps * eps ≤ 1 * 1 := mul_le_mul hle hle heps.le zero_le_one
      _ = 1 := one_mul 1
  have hg : ¬ (|X.mem 0 * X.mem 3 - X.mem 2 * X.mem 1| < eps ∨
      |X.mem 0 * X.mem 3 - X.mem 2 * X.mem 1| > 1 / eps) := by
    rw [hdet]
    rintro (h | h)
    · exact lt_irrefl _ h
    · exact absurd h (not_lt.mpr hone)
  rw [tiny_two_accept eps is_float out X hN hg]

/-- Witness of the amended C5 on `diag(1/4, 1)` with `eps = 1/4`. -/
theorem tiny_floor_inclusive_witness :
    (apply_tiny_noalias (1 / 4 : ℚ) true (Mat.ofList 2 2 [])
      (Mat.ofList 2 2 [1 / 4, 0, 0, 1])).1 = true :=
  tiny_floor_inclusive (1 / 4 : ℚ) true (Mat.ofList 2 2 [])
    (Mat.ofList 2 2 [1 / 4, 0, 0, 1]) rfl (by norm_num) (by norm_num)
    (by norm_num [Mat.at_rc, Mat.ofList])

/-- The gate is closed under taking the reciprocal of the determinant. -/
theorem gate_inv (eps d : K) (heps : 0 < eps) (h : eps ≤ |d| ∧ |d| ≤ 1 / eps) :
    eps ≤ |1 / d| ∧ |1 / d| ≤ 1 / eps := by
  have hd : 0 < |d| := lt_of_lt_of_le heps h.1
  rw [abs_div, abs_one]
  constructor
  · rw [le_div_iff₀ hd]
    have := (le_div_iff₀ heps).mp h.2
    rw [mul_comm]
    exact this
  · exact one_div_le_one_div_of_le heps h.1

/-- C14. Round trip for size 2: when the solver succeeds on a 2x2 matrix `A` with result
`B`, it succeeds on `B` as well, with a 2x2 result whose four elements are those of
`A`. -/
theorem tiny_two_round_trip (eps : K) (is_float : Bool) (out1 out2 A : Mat K)
    (hN : A.n_rows = 2) (heps : 0 < eps)
    (h1 : (apply_tiny_noalias eps is_float out1 A).1 = true) :
    (apply_tiny_noalias eps is_float out2 (apply_tiny_noalias eps is_float out1 A).2).1
      = true ∧
    (apply_tiny_noalias eps is_float out2
      (apply_tiny_noalias eps is_float out1 A).2).2.n_rows = 2 ∧
    (apply_tiny_noalias eps is_float out2
      (apply_tiny_noalias eps is_float out1 A).2).2.n_cols = 2 ∧
    ∀ i < 4, (apply_tiny_noalias eps is_float out2
      (apply_tiny_noalias eps is_float out1 A).2).2.mem i = A.mem i := by
  by_cases hg : |A.mem 0 * A.mem 3 - A.mem 2 * A.mem 1| < eps ∨
      |A.mem 0 * A.mem 3 - A.mem 2 * A.mem 1| > 1 / eps
  · rw [tiny_two_reject eps is_float out1 A hN hg] at h1
    exact absurd h1 Bool.false_ne_true
  · have hin := not_not.mp (fun h => hg ((gate_iff eps _).mpr h))
    have hne := gate_ne_zero eps _ heps hin.1
    rw [tiny_two_accept eps is_float out1 A hN hg]
    have hB0 : (tiny_n2_assign out1.mem (A.mem 0) (A.mem 2) (A.mem 1) (A.mem 3)
        (A.mem 0 * A.mem 3 - A.mem 2 * A.mem 1)) 0
        = A.mem 3 / (A.mem 0 * A.mem 3 - A.mem 2 * A.mem 1) := by
      simp [tiny_n2_assign, write_apply, pos_n2]
    have hB1 : (tiny_n2_assign out1.mem (A.mem 0) (A.mem 2) (A.mem 1) (A.mem 3)
        (A.mem 0 * A.mem 3 - A.mem 2 * A.mem 1)) 1
        = -A.mem 1 / (A.mem 0 * A.mem 3 - A.mem 2 * A.mem 1) := by
      simp [tiny_n2_assign, write_apply, pos_n2]
    have hB2 : (tiny_n2_assign out1.mem (A.mem 0) (A.mem 2) (A.mem 1) (A.mem 3)
        (A.mem 0 * A.mem 3 - A.mem 2 * A.mem 1)) 2
        = -A.mem 2 / (A.mem 0 * A.mem 3 - A.mem 2 * A.mem 1) := by
      simp [tiny_n2_assign, write_apply, pos_n2]
    have hB3 : (tiny_n2_assign out1.mem (A.mem 0) (A.mem 2) (A.mem 1) (A.mem 3)
        (A.mem 0 * A.mem 3 - A.mem 2 * A.mem 1)) 3
        = A.mem 0 / (A.mem 0 * A.mem 3 - A.mem 2 * A.mem 1) := by
      simp [tiny_n2_assign, write_apply, pos_n2]
    generalize hD : A.mem 0 * A.mem 3 - A.mem 2 * A.mem 1 = D at *
    generalize hBm : tiny_n2_assign out1.mem (A.mem 0) (A.mem 2) (A.mem 1) (A.mem 3) D = Bm
      at *
    have hdetB : Bm 0 * Bm 3 - Bm 2 * Bm 1 = 1 / D := by
      calc Bm 0 * Bm 3 - Bm 2 * Bm 1
          = (A.mem 0 * A.mem 3 - A.mem 2 * A.mem 1) / (D * D) := by
            rw [hB0, hB1, hB2, hB3]; field_simp; ring
        _ = D / (D * D) := by rw [hD]
        _ = 1 / D := by field_simp
    have hgB : ¬ (|Bm 0 * Bm 3 - Bm 2 * Bm 1| < eps ∨ |Bm 0 * Bm 3 - Bm 2 * Bm 1| > 1 / eps) := by
      rw [hdetB]
      exact fun h => (gate_iff eps _).mp h (gate_inv eps D heps hin)
    rw [tiny_two_accept eps is_float out2 { n_rows := 2, n_cols := 2, mem := Bm } rfl hgB]
    refine ⟨rfl, rfl, rfl, ?_⟩
    intro i hi
    simp only [hdetB]
    interval_cases i
    · simp only [tiny_n2_assign, write_apply, pos_n2]
      norm_num
      rw [hB3]; field_simp
    · simp only [tiny_n2_assign, write_apply, pos_n2]
      norm_num
      rw [hB1]; field_simp
    · simp only [tiny_n2_assign, write_apply, pos_n2]
      norm_num
      rw [hB2]; field_simp
    · simp only [tiny_n2_assign, write_apply, pos_n2]
      norm_num
      rw [hB0]; field_simp

/-- Witness of C14 on the matrix with rows `(2,1)` and `(1,1)`, `eps = 1/4`. -/
theorem tiny_two_round_trip_witness :
    (apply_tiny_noalias (1 / 4 : ℚ) false (Mat.ofList 0 0 [])
      (apply_tiny_noalias (1 / 4 : ℚ) false (Mat.ofList 0 0 [])
        (Mat.ofList 2 2 [2, 1, 1, 1])).2).1 = true :=
  (tiny_two_round_trip (1 / 4 : ℚ) false (Mat.ofList 0 0 []) (Mat.ofList 0 0 [])
    (Mat.ofList 2 2 [2, 1, 1, 1]) rfl (by norm_num)
    (by rw [tiny_two_accept _ _ _ _ rfl (by norm_num [Mat.ofList])])).1

end Tiny

section Diag
variable [Field K] [DecidableEq K]

/-- Two in-range cells of a column-major square matrix coincide only if their rows and
columns do. -/
theorem cell_index_inj (N r c i j : Nat) (hr : r < N) (hi : i < N)
    (h : r + c * N = i + j * N) : r = i ∧ c = j := by
  have hmod : (r + c * N) % N = (i + j * N) % N := by rw [h]
  rw [Nat.add_mul_mod_self_right, Nat.add_mul_mod_self_right, Nat.mod_eq_of_lt hr,
    Nat.mod_eq_of_lt hi] at hmod
  subst hmod
  have hN : 0 < N := Nat.lt_of_le_of_lt (Nat.zero_le r) hr
  exact ⟨rfl, Nat.eq_of_mul_eq_mul_right hN (Nat.add_left_cancel h)⟩

/-- An in-range cell lies below `N * N`. -/
theorem cell_index_lt (N r c : Nat) (hr : r < N) (hc : c < N) : r + c * N < N * N := by
  calc r + c * N < N + c * N := Nat.add_lt_add_right hr _
    _ = (c + 1) * N := by ring
    _ ≤ N * N := Nat.mul_le_mul_right N hc

/-- The state of the loop of `apply_diagmat` after `k` iterations. -/
theorem diagmat_fold (A : DiagProxy K) (M0 : Mat K) (k : Nat) (hk : k ≤ M0.n_rows) :
    (((List.range k).foldl (diagmat_step A) (true, M0)).1 = true ↔ ∀ i < k, A.diag i ≠ 0) ∧
    ((List.range k).foldl (diagmat_step A) (true, M0)).2.n_rows = M0.n_rows ∧
    ((List.range k).foldl (diagmat_step A) (true, M0)).2.n_cols = M0.n_cols ∧
    ∀ r c, r < M0.n_rows →
      ((List.range k).foldl (diagmat_step A) (true, M0)).2.at_rc r c
        = if r = c ∧ r < k then 1 / A.diag r else M0.at_rc r c := by
  induction k with
  | zero => simp
  | succ k ih =>
    obtain ⟨ih1, ih2, ih3, ih4⟩ := ih (Nat.le_of_succ_le hk)
    rw [List.range_succ, List.foldl_append, List.foldl_cons, List.foldl_nil]
    generalize (List.range k).foldl (diagmat_step A) (true, M0) = st at ih1 ih2 ih3 ih4
    refine ⟨?_, ?_, ?_, ?_⟩
    · simp only [diagmat_step]
      constructor
      · intro h i hi
        by_cases h0 : A.diag k = 0
        · simp [h0] at h
        · rcases Nat.lt_succ_iff_lt_or_eq.mp hi with hlt | heq
          · simp only [h0, if_false] at h
            exact ih1.mp h i hlt
          · rw [heq]; exact h0
      · intro h
        have h0 : A.diag k ≠ 0 := h k (Nat.lt_succ_self k)
        simp only [h0, if_false]
        exact ih1.mpr (fun i hi => h i (Nat.lt_succ_of_lt hi))
    · simpa [diagmat_step, Mat.set_at] using ih2
    · simpa [diagmat_step, Mat.set_at] using ih3
    · intro r c hr
      have hkN : k < M0.n_rows := hk
      simp only [diagmat_step, Mat.set_at, Mat.at_rc, write_apply, ih2]
      by_cases hcell : r + c * M0.n_rows = k + k * M0.n_rows
      · obtain ⟨h1, h2⟩ := cell_index_inj M0.n_rows r c k k hr hkN hcell
        subst h1; subst h2
        simp
      · rw [if_neg hcell]
        have := ih4 r c hr
        simp only [Mat.at_rc, ih2] at this
        rw [this]
        by_cases hrc : r = c
        · subst hrc
          have hne : r ≠ k := fun h => hcell (by rw [h])
          have hiff : (r < k + 1) ↔ (r < k) := by omega
          simp [hiff]
        · simp [hrc]

/-- The diagonal path on a square operand: it returns a status, true exactly when no
diagonal entry is zero, and an `N` by `N` matrix holding the reciprocals on the diagonal
and zero elsewhere. -/
theorem apply_diagmat_spec (out : Mat K) (A : DiagProxy K) (hsq : A.n_rows = A.n_cols) :
    ∃ st o, apply_diagmat out A = Except.ok (st, o) ∧
      (st = true ↔ ∀ i < A.n_rows, A.diag i ≠ 0) ∧
      o.n_rows = A.n_rows ∧ o.n_cols = A.n_rows ∧
      ∀ r c, r < A.n_rows → c < A.n_rows →
        o.at_rc r c = if r = c then 1 / A.diag r else 0 := by
  have hmin : min A.n_rows A.n_cols = A.n_rows := by rw [← hsq, Nat.min_self]
  cases hal : A.is_alias
  · obtain ⟨h1, h2, h3, h4⟩ := diagmat_fold A (out.zeros A.n_rows A.n_rows) A.n_rows
      (Nat.le_refl _)
    refine ⟨_, _, ?_, h1, h2, h3, ?_⟩
    · simp [apply_diagmat, hsq, hal, hmin]
    · intro r c hr hc
      rw [h4 r c hr]
      have hz : (out.zeros A.n_rows A.n_rows).at_rc r c = 0 := by
        simp [Mat.at_rc, Mat.zeros, cell_index_lt A.n_rows r c hr hc]
      simp [hr, hz]
  · obtain ⟨h1, h2, h3, h4⟩ := diagmat_fold A
      ({ n_rows := A.n_rows, n_cols := A.n_rows, mem := fun _ => 0 } : Mat K) A.n_rows
      (Nat.le_refl _)
    refine ⟨_, _, ?_, h1, h2, h3, ?_⟩
    · simp [apply_diagmat, hsq, hal, hmin]
    · intro r c hr hc
      rw [h4 r c hr]
      simp [hr, Mat.at_rc]

/-- C6. Diagonal path: on a square diagonal operand, aliased or not, `apply_diagmat`
returns a status that is true exactly when no diagonal entry is zero, and in every case
`out` is `N` by `N`, zero off the diagonal, with `out(i,i) = 1 / A[i]` for every `i`. -/
theorem apply_diagmat_correct (out : Mat K) (A : DiagProxy K) (hsq : A.n_rows = A.n_cols) :
    ∃ st o, apply_diagmat out A = Except.ok (st, o) ∧
      (st = true ↔ ∀ i < A.n_rows, A.diag i ≠ 0) ∧
      o.n_rows = A.n_rows ∧ o.n_cols = A.n_rows ∧
      (∀ r c, r < A.n_rows → c < A.n_rows → r ≠ c → o.at_rc r c = 0) ∧
      (∀ i, i < A.n_rows → o.at_rc i i = 1 / A.diag i) := by
  obtain ⟨st, o, h1, h2, h3, h4, h5⟩ := apply_diagmat_spec out A hsq
  refine ⟨st, o, h1, h2, h3, h4, ?_, ?_⟩
  · intro r c hr hc hrc
    rw [h5 r c hr hc, if_neg hrc]
  · intro i hi
    rw [h5 i i hi hi, if_pos rfl]

/-- Witness of C6 on the diagonal operand `(2, 0, 4)`: the status is false and the
reciprocal of the last entry is stored all the same. -/
theorem apply_diagmat_correct_witness :
    ∃ st o, apply_diagmat (Mat.ofList 0 0 []) (DiagProxy.ofList [2, 0, (4 : ℚ)])
        = Except.ok (st, o) ∧ st = false ∧ o.n_rows = 3 ∧ o.at_rc 2 2 = 1 / 4 := by
  obtain ⟨st, o, h1, h2, h3, _, _, h6⟩ :=
    apply_diagmat_correct (Mat.ofList 0 0 []) (DiagProxy.ofList [2, 0, (4 : ℚ)]) rfl
  refine ⟨st, o, h1, ?_, h3, ?_⟩
  · cases st
    · rfl
    · exact absurd (by simp [DiagProxy.ofList]) (h2.mp rfl 1 (by decide))
  · rw [h6 2 (by decide)]
    simp [DiagProxy.ofList]

end Diag

section Dispatch
variable [LinearOrderedField K]

/-- The modelled tiny determinant of a 2x2 matrix is its determinant. -/
theorem op_det_apply_tiny_two (X : Mat K) (hN : X.n_rows = 2) :
    op_det_apply_tiny X = (X.toMatrix 2).det := by
  simp [op_det_apply_tiny, hN, Matrix.det_fin_two, Mat.toMatrix, Mat.at_rc, pos_n2]

/-- The modelled tiny determinant is the determinant for the sizes 2, 3 and 4. -/
theorem op_det_apply_tiny_eq_det (X : Mat K) (N : Nat) (hN : X.n_rows = N)
    (h : N = 2 ∨ N = 3 ∨ N = 4) : op_det_apply_tiny X = (X.toMatrix N).det := by
  rcases h with h | h | h <;> subst h
  · exact op_det_apply_tiny_two X hN
  · exact op_det_apply_tiny_three X hN
  · exact op_det_apply_tiny_four X hN

/-- Sizes 2 to 4: a true status comes with an `N` by `N` right inverse. -/
theorem tiny_true_right_inv (eps : K) (is_float : Bool) (out X : Mat K) (N : Nat)
    (hN : X.n_rows = N) (h : N = 2 ∨ N = 3 ∨ N = 4) (hne : op_det_apply_tiny X ≠ 0)
    (ht : (apply_tiny_noalias eps is_float out X).1 = true) :
    (apply_tiny_noalias eps is_float out X).2.n_rows = N ∧
    (apply_tiny_noalias eps is_float out X).2.n_cols = N ∧
    X.toMatrix N * (apply_tiny_noalias eps is_float out X).2.toMatrix N = 1 := by
  rcases h with h | h | h <;> subst h
  · have hd : op_det_apply_tiny X = X.mem 0 * X.mem 3 - X.mem 2 * X.mem 1 := by
      simp [op_det_apply_tiny, hN, pos_n2]
    rw [hd] at hne
    by_cases hg : |X.mem 0 * X.mem 3 - X.mem 2 * X.mem 1| < eps ∨
        |X.mem 0 * X.mem 3 - X.mem 2 * X.mem 1| > 1 / eps
    · rw [tiny_two_reject eps is_float out X hN hg] at ht
      exact absurd ht Bool.false_ne_true
    · rw [tiny_two_accept eps is_float out X hN hg]
      exact ⟨rfl, rfl, tiny_n2_assign_right_inv X out.mem hN hne _ rfl rfl⟩
  · by_cases hg : |op_det_apply_tiny X| < eps ∨ |op_det_apply_tiny X| > 1 / eps
    · rw [tiny_three_reject eps is_float out X hN hg] at ht
      exact absurd ht Bool.false_ne_true
    · rw [(tiny_three_accept eps is_float out X hN hg hne).1]
      exact ⟨rfl, rfl, tiny_n3_assign_right_inv X out.mem hN hne _ rfl rfl⟩
  · by_cases hg : |op_det_apply_tiny X| < eps ∨ |op_det_apply_tiny X| > 1 / eps
    · rw [tiny_four_reject eps is_float out X hN hg] at ht
      exact absurd ht Bool.false_ne_true
    · rw [(tiny_four_accept eps is_float out X hN hg hne).1]
      exact ⟨rfl, rfl, tiny_n4_assign_right_inv X out.mem hN hne _ rfl rfl⟩

/-- What `is_diagmat` decides. -/
theorem is_diagmat_iff (M : Mat K) :
    M.is_diagmat = true ↔ ∀ c < M.n_cols, ∀ r < M.n_rows, r ≠ c → M.at_rc r c = 0 := by
  simp [Mat.is_diagmat]

/-- A square matrix accepted by `is_diagmat` is a diagonal matrix. -/
theorem toMatrix_diagonal (M : Mat K) (N : Nat) (hN : M.n_rows = N) (hsq : M.n_cols = N)
    (hdiag : M.is_diagmat = true) :
    M.toMatrix N = Matrix.diagonal (fun i : Fin N => M.at_rc i.val i.val) := by
  ext i j
  by_cases hij : i = j
  · subst hij; simp [Mat.toMatrix]
  · have hv : i.val ≠ j.val := fun h => hij (Fin.ext h)
    have h0 := (is_diagmat_iff M).mp hdiag j.val (by rw [hsq]; exact j.isLt) i.val
      (by rw [hN]; exact i.isLt) hv
    simp [Mat.toMatrix, Matrix.diagonal_apply_ne _ hij, h0]

/-- The right inverse of a diagonal matrix with nonzero diagonal holds the reciprocals. -/
theorem diagonal_right_inv_entries {n : Nat} (d : Fin n → K) (hd : ∀ i, d i ≠ 0)
    (B : Matrix (Fin n) (Fin n) K) (h : Matrix.diagonal d * B = 1) (i j : Fin n) :
    B i j = if i = j then 1 / d i else 0 := by
  have hij := congrFun (congrFun h i) j
  rw [Matrix.diagonal_mul, Matrix.one_apply] at hij
  by_cases e : i = j
  · rw [if_pos e] at hij ⊢
    rw [eq_div_iff (hd i), mul_comm]
    exact hij
  · rw [if_neg e] at hij ⊢
    rcases mul_eq_zero.mp hij with h0 | h0
    · exact absurd h0 (hd i)
    · exact h0

/-- On a diagonal matrix of size at most 4 with nonzero diagonal, a true status of the
solver comes with the matrix of reciprocals. -/
theorem tiny_true_diag_entries (eps : K) (is_float : Bool) (out M : Mat K)
    (hsq : M.n_rows = M.n_cols) (hle : M.n_rows ≤ 4) (hdiag : M.is_diagmat = true)
    (hnz : ∀ i < M.n_rows, M.at_rc i i ≠ 0)
    (ht : (apply_tiny_noalias eps is_float out M).1 = true) :
    (apply_tiny_noalias eps is_float out M).2.n_rows = M.n_rows ∧
    (apply_tiny_noalias eps is_float out M).2.n_cols = M.n_rows ∧
    ∀ r c, r < M.n_rows → c < M.n_rows →
      (apply_tiny_noalias eps is_float out M).2.at_rc r c
        = if r = c then 1 / M.at_rc r r else 0 := by
  have hcases : M.n_rows = 0 ∨ M.n_rows = 1 ∨ (M.n_rows = 2 ∨ M.n_rows = 3 ∨ M.n_rows = 4) := by
    omega
  rcases hcases with h0 | h1 | h24
  · refine ⟨?_, ?_, ?_⟩
    · simp [apply_tiny_noalias, h0, Mat.set_size]
    · simp [apply_tiny_noalias, h0, Mat.set_size]
    · intro r c hr; rw [h0] at hr; exact absurd hr (Nat.not_lt_zero r)
  · refine ⟨?_, ?_, ?_⟩
    · simp [apply_tiny_noalias, h1, Mat.set_size]
    · simp [apply_tiny_noalias, h1, Mat.set_size]
    · intro r c hr hc
      rw [h1] at hr hc
      have hr0 : r = 0 := by omega
      have hc0 : c = 0 := by omega
      subst hr0; subst hc0
      simp [apply_tiny_noalias, h1, Mat.set_size, Mat.at_rc, write_apply]
  · have hM := toMatrix_diagonal M M.n_rows rfl hsq.symm hdiag
    have hdet : op_det_apply_tiny M ≠ 0 := by
      rw [op_det_apply_tiny_eq_det M M.n_rows rfl h24, hM, Matrix.det_diagonal]
      exact Finset.prod_ne_zero_iff.mpr (fun i _ => hnz i.val i.isLt)
    obtain ⟨hr1, hr2, hinv⟩ := tiny_true_right_inv eps is_float out M M.n_rows rfl h24 hdet ht
    refine ⟨hr1, hr2, ?_⟩
    intro r c hr hc
    rw [hM] at hinv
    have := diagonal_right_inv_entries (fun i : Fin M.n_rows => M.at_rc i.val i.val)
      (fun i => hnz i.val i.isLt) _ hinv ⟨r, hr⟩ ⟨c, hc⟩
    simpa [Mat.toMatrix, Fin.ext_iff] using this

/-- The diagonal path raises nothing but the squareness error. -/
theorem apply_diagmat_error (out : Mat K) (A : DiagProxy K) (e : Err)
    (h : apply_diagmat out A = Except.error e) : e = Err.not_square := by
  unfold apply_diagmat at h
  by_cases hsq : A.n_rows ≠ A.n_cols
  · rw [if_pos hsq] at h
    injection h with h
    exact h.symm
  · rw [if_neg hsq] at h
    split at h <;> simp at h

/-- Runtime detection on a square diagonal matrix: the diagonal path decides, with the
status and result of `apply_diagmat`. -/
theorem structured_diagonal (env : Env K) (likely_sympd no_sympd : Bool) (M : Mat K)
    (calls : List Call) (hsq : M.n_rows = M.n_cols) (hdiag : M.is_diagmat = true) :
    ∃ st o, apply_direct_structured env likely_sympd no_sympd M calls
        = { result := Except.ok st, out := o, calls := calls ++ [Call.diagmat] } ∧
      (st = true ↔ ∀ i < M.n_rows, M.at_rc i i ≠ 0) ∧
      o.n_rows = M.n_rows ∧ o.n_cols = M.n_rows ∧
      ∀ r c, r < M.n_rows → c < M.n_rows →
        o.at_rc r c = if r = c then 1 / M.at_rc r r else 0 := by
  obtain ⟨st, o, h1, h2, h3, h4, h5⟩ := apply_diagmat_spec M (DiagProxy.ofMat M) hsq
  refine ⟨st, o, ?_, h2, h3, h4, h5⟩
  unfold apply_direct_structured
  rw [if_pos hdiag, h1]

/-- The dispatcher on a square plain expression with admissible flags: lines 120-137. -/
theorem apply_direct_plain (env : Env K) (has_user_flags : Bool) (out M : Mat K)
    (flags : Nat)
    (hflags : (has_flag has_user_flags flags flag_no_sympd &&
      has_flag has_user_flags flags flag_likely_sympd) = false)
    (hsq : M.n_rows = M.n_cols) :
    apply_direct env has_user_flags out (Expr.plain M) flags =
      if (has_flag has_user_flags flags flag_fast && decide (M.n_rows ≤ 4) && env.is_cx_no)
          = true then
        if (apply_tiny_noalias env.eps env.is_float
            { n_rows := M.n_rows, n_cols := M.n_rows, mem := env.uninit } M).1 = true then
          { result := Except.ok true,
            out :=
              { n_rows := M.n_rows, n_cols := M.n_cols,
                mem := arrayops_copy M.mem
                  (apply_tiny_noalias env.eps env.is_float
                    { n_rows := M.n_rows, n_cols := M.n_rows, mem := env.uninit } M).2.mem
                  (apply_tiny_noalias env.eps env.is_float
                    { n_rows := M.n_rows, n_cols := M.n_rows, mem := env.uninit } M).2.n_elem },
            calls := [Call.tiny] }
        else apply_direct_structured env (has_flag has_user_flags flags flag_likely_sympd)
          (has_flag has_user_flags flags flag_no_sympd) M [Call.tiny]
      else apply_direct_structured env (has_flag has_user_flags flags flag_likely_sympd)
          (has_flag has_user_flags flags flag_no_sympd) M [] := by
  have hs : M.is_square = true := by simp [Mat.is_square, hsq]
  unfold apply_direct
  simp only [hflags, hs]
  rfl

/-- C7. Diagonal input with nonzero diagonal, admissible flags: the dispatcher returns
true and `out` is the `N` by `N` matrix of the reciprocals `1 / A(i,i)` with zero
off-diagonal entries, for an operand carrying the static diagonal tag and for a plain
square diagonal matrix, also when the fast flag sends it through the solver for small
sizes. -/
theorem apply_direct_diagonal (env : Env K) (has_user_flags : Bool) (out : Mat K)
    (flags : Nat)
    (hflags : (has_flag has_user_flags flags flag_no_sympd &&
      has_flag has_user_flags flags flag_likely_sympd) = false) :
    (∀ A : DiagProxy K, A.n_rows = A.n_cols → (∀ i < A.n_rows, A.diag i ≠ 0) →
      (apply_direct env has_user_flags out (Expr.diagmat A) flags).result = Except.ok true ∧
      (apply_direct env has_user_flags out (Expr.diagmat A) flags).out.n_rows = A.n_rows ∧
      (apply_direct env has_user_flags out (Expr.diagmat A) flags).out.n_cols = A.n_rows ∧
      ∀ r c, r < A.n_rows → c < A.n_rows →
        (apply_direct env has_user_flags out (Expr.diagmat A) flags).out.at_rc r c
          = if r = c then 1 / A.diag r else 0) ∧
    (∀ M : Mat K, M.n_rows = M.n_cols → M.is_diagmat = true →
      (∀ i < M.n_rows, M.at_rc i i ≠ 0) →
      (apply_direct env has_user_flags out (Expr.plain M) flags).result = Except.ok true ∧
      (apply_direct env has_user_flags out (Expr.plain M) flags).out.n_rows = M.n_rows ∧
      (apply_direct env has_user_flags out (Expr.plain M) flags).out.n_cols = M.n_rows ∧
      ∀ r c, r < M.n_rows → c < M.n_rows →
        (apply_direct env has_user_flags out (Expr.plain M) flags).out.at_rc r c
          = if r = c then 1 / M.at_rc r r else 0) := by
  constructor
  · intro A hsq hnz
    obtain ⟨st, o, h1, h2, h3, h4, h5⟩ := apply_diagmat_spec out A hsq
    have hst : st = true := h2.mpr hnz
    have hr : apply_direct env has_user_flags out (Expr.diagmat A) flags
        = { result := Except.ok st, out := o, calls := [Call.diagmat] } := by
      unfold apply_direct
      simp only [hflags, h1]
      rfl
    rw [hr, hst]
    exact ⟨rfl, h3, h4, h5⟩
  · intro M hsq hdiag hnz
    rw [apply_direct_plain env has_user_flags out M flags hflags hsq]
    have hstruct : ∀ calls,
        (apply_direct_structured env (has_flag has_user_flags flags flag_likely_sympd)
          (has_flag has_user_flags flags flag_no_sympd) M calls).result = Except.ok true ∧
        (apply_direct_structured env (has_flag has_user_flags flags flag_likely_sympd)
          (has_flag has_user_flags flags flag_no_sympd) M calls).out.n_rows = M.n_rows ∧
        (apply_direct_structured env (has_flag has_user_flags flags flag_likely_sympd)
          (has_flag has_user_flags flags flag_no_sympd) M calls).out.n_cols = M.n_rows ∧
        ∀ r c, r < M.n_rows → c < M.n_rows →
          (apply_direct_structured env (has_flag has_user_flags flags flag_likely_sympd)
            (has_flag has_user_flags flags flag_no_sympd) M calls).out.at_rc r c
            = if r = c then 1 / M.at_rc r r else 0 := by
      intro calls
      obtain ⟨st, o, h1, h2, h3, h4, h5⟩ := structured_diagonal env
        (has_flag has_user_flags flags flag_likely_sympd)
        (has_flag has_user_flags flags flag_no_sympd) M calls hsq hdiag
      rw [h1, h2.mpr hnz]
      exact ⟨rfl, h3, h4, h5⟩
    by_cases hatt : (has_flag has_user_flags flags flag_fast && decide (M.n_rows ≤ 4)
        && env.is_cx_no) = true
    · rw [if_pos hatt]
      by_cases ht : (apply_tiny_noalias env.eps env.is_float
          { n_rows := M.n_rows, n_cols := M.n_rows, mem := env.uninit } M).1 = true
      · rw [if_pos ht]
        have hle : M.n_rows ≤ 4 := by
          simp only [Bool.and_eq_true, decide_eq_true_eq] at hatt
          exact hatt.1.2
        obtain ⟨e1, e2, e3⟩ := tiny_true_diag_entries env.eps env.is_float
          { n_rows := M.n_rows, n_cols := M.n_rows, mem := env.uninit } M hsq hle hdiag hnz ht
        refine ⟨rfl, rfl, hsq.symm, ?_⟩
        intro r c hr hc
        rw [← e3 r c hr hc]
        simp only [Mat.at_rc, arrayops_copy, Mat.n_elem, e1, e2]
        rw [if_pos (cell_index_lt M.n_rows r c hr hc)]
      · rw [if_neg ht]
        exact hstruct _
    · rw [if_neg hatt]
      exact hstruct _

/-- Witness of C7: `A = [[2,0],[0,4]]` with the fast flag gives status true and
`[[1/2,0],[0,1/4]]`. -/
theorem apply_direct_diagonal_witness :
    (apply_direct Env.sample true (Mat.ofList 0 0 [])
      (Expr.plain (Mat.ofList 2 2 [2, 0, 0, 4])) flag_fast).result = Except.ok true ∧
    (apply_direct Env.sample true (Mat.ofList 0 0 [])
      (Expr.plain (Mat.ofList 2 2 [2, 0, 0, 4])) flag_fast).out.at_rc 0 0 = 1 / 2 ∧
    (apply_direct Env.sample true (Mat.ofList 0 0 [])
      (Expr.plain (Mat.ofList 2 2 [2, 0, 0, 4])) flag_fast).out.at_rc 1 0 = 0 ∧
    (apply_direct Env.sample true (Mat.ofList 0 0 [])
      (Expr.plain (Mat.ofList 2 2 [2, 0, 0, 4])) flag_fast).out.at_rc 0 1 = 0 ∧
    (apply_direct Env.sample true (Mat.ofList 0 0 [])
      (Expr.plain (Mat.ofList 2 2 [2, 0, 0, 4])) flag_fast).out.at_rc 1 1 = 1 / 4 := by
  have h := (apply_direct_diagonal Env.sample true (Mat.ofList 0 0 []) flag_fast
    (by decide)).2 (Mat.ofList 2 2 [2, 0, 0, 4]) rfl (by decide)
    (by intro i hi
        have hi2 : i < 2 := hi
        interval_cases i <;> norm_num [Mat.at_rc, Mat.ofList])
  refine ⟨h.1, ?_, ?_, ?_, ?_⟩
  · rw [h.2.2.2 0 0 (by decide) (by decide)]; norm_num [Mat.at_rc, Mat.ofList]
  · rw [h.2.2.2 1 0 (by decide) (by decide)]; norm_num
  · rw [h.2.2.2 0 1 (by decide) (by decide)]; norm_num
  · rw [h.2.2.2 1 1 (by decide) (by decide)]; norm_num [Mat.at_rc, Mat.ofList]

/-- C8, the code at the failing input: the 1x1 matrix `[0]` is diagonal with a zero
diagonal entry, and with the fast flag (real elements) the dispatcher returns true, from
the closed-form solver alone. -/
theorem dispatch_one_zero_accepted (env : Env K) (out : Mat K) :
    (Mat.ofList 1 1 [(0 : K)]).is_diagmat = true ∧
    (Mat.ofList 1 1 [(0 : K)]).at_rc 0 0 = 0 ∧
    (apply_direct { env with is_cx_no := true } true out
      (Expr.plain (Mat.ofList 1 1 [(0 : K)])) flag_fast).result = Except.ok true ∧
    (apply_direct { env with is_cx_no := true } true out
      (Expr.plain (Mat.ofList 1 1 [(0 : K)])) flag_fast).calls = [Call.tiny] := by
  have hp := apply_direct_plain { env with is_cx_no := true } true out
    (Mat.ofList 1 1 [(0 : K)]) flag_fast (by decide) rfl
  have hatt : (has_flag true flag_fast flag_fast &&
      decide ((Mat.ofList 1 1 [(0 : K)]).n_rows ≤ 4) &&
      ({ env with is_cx_no := true } : Env K).is_cx_no) = true := by
    simp [has_flag, flag_fast, Mat.ofList]
  have ht : (apply_tiny_noalias ({ env with is_cx_no := true } : Env K).eps
      ({ env with is_cx_no := true } : Env K).is_float
      { n_rows := (Mat.ofList 1 1 [(0 : K)]).n_rows, n_cols := (Mat.ofList 1 1 [(0 : K)]).n_rows,
        mem := ({ env with is_cx_no := true } : Env K).uninit }
      (Mat.ofList 1 1 [(0 : K)])).1 = true := by
    simp [apply_tiny_noalias, Mat.ofList]
  rw [if_pos hatt, if_pos ht] at hp
  refine ⟨?_, ?_, ?_, ?_⟩
  · rw [is_diagmat_iff]
    intro c hc r hr hrc
    have hc1 : c < 1 := hc
    have hr1 : r < 1 := hr
    omega
  · simp [Mat.at_rc, Mat.ofList]
  · rw [hp]
  · rw [hp]

/-- Sizes other than 1, or the solver not attempted: a square diagonal matrix with a zero
diagonal entry makes the dispatcher return false. -/
theorem apply_direct_diag_zero_fails (env : Env K) (has_user_flags : Bool) (out M : Mat K)
    (flags : Nat)
    (hflags : (has_flag has_user_flags flags flag_no_sympd &&
      has_flag has_user_flags flags flag_likely_sympd) = false)
    (heps : 0 < env.eps)
    (hsq : M.n_rows = M.n_cols) (hdiag : M.is_diagmat = true)
    (hz : ∃ i < M.n_rows, M.at_rc i i = 0)
    (hsize : M.n_rows ≠ 1 ∨ (has_flag has_user_flags flags flag_fast &&
      decide (M.n_rows ≤ 4) && env.is_cx_no) = false) :
    (apply_direct env has_user_flags out (Expr.plain M) flags).result = Except.ok false := by
  rw [apply_direct_plain env has_user_flags out M flags hflags hsq]
  have hstruct : ∀ calls,
      (apply_direct_structured env (has_flag has_user_flags flags flag_likely_sympd)
        (has_flag has_user_flags flags flag_no_sympd) M calls).result = Except.ok false := by
    intro calls
    obtain ⟨st, o, h1, h2, _⟩ := structured_diagonal env
      (has_flag has_user_flags flags flag_likely_sympd)
      (has_flag has_user_flags flags flag_no_sympd) M calls hsq hdiag
    have hst : st = false := by
      cases st
      · rfl
      · obtain ⟨i, hi, h0⟩ := hz
        exact absurd h0 (h2.mp rfl i hi)
    rw [h1, hst]
  by_cases hatt : (has_flag has_user_flags flags flag_fast && decide (M.n_rows ≤ 4)
      && env.is_cx_no) = true
  · rw [if_pos hatt]
    have hle : M.n_rows ≤ 4 := by
      simp only [Bool.and_eq_true, decide_eq_true_eq] at hatt
      exact hatt.1.2
    have hne1 : M.n_rows ≠ 1 := by
      rcases hsize with h | h
      · exact h
      · rw [hatt] at h; exact absurd h (by decide)
    obtain ⟨i, hi, h0⟩ := hz
    have h24 : M.n_rows = 2 ∨ M.n_rows = 3 ∨ M.n_rows = 4 := by omega
    have hM := toMatrix_diagonal M M.n_rows rfl hsq.symm hdiag
    have hdet : op_det_apply_tiny M = 0 := by
      rw [op_det_apply_tiny_eq_det M M.n_rows rfl h24, hM, Matrix.det_diagonal]
      exact Finset.prod_eq_zero (Finset.mem_univ (⟨i, hi⟩ : Fin M.n_rows)) h0
    have ht := tiny_singular_reject env.eps env.is_float
      { n_rows := M.n_rows, n_cols := M.n_rows, mem := env.uninit } M heps h24 hdet
    rw [if_neg (by rw [ht]; exact Bool.false_ne_true)]
    exact hstruct _
  · rw [if_neg hatt]
    exact hstruct _

/-- C10. Conflicting options: with user flags present and both `likely_sympd` and
`no_sympd` set, the dispatcher raises the configuration error on every kind of
expression, with `out` as it was and nothing called; with at most one of them in effect
it does not raise that error. -/
theorem apply_direct_flag_conflict (env : Env K) (has_user_flags : Bool) (out : Mat K)
    (expr : Expr K) (flags : Nat) :
    (has_user_flags = true ∧ flags &&& flag_likely_sympd ≠ 0 ∧ flags &&& flag_no_sympd ≠ 0 →
      (apply_direct env has_user_flags out expr flags).result
        = Except.error Err.flags_exclusive ∧
      (apply_direct env has_user_flags out expr flags).out = out ∧
      (apply_direct env has_user_flags out expr flags).calls = []) ∧
    (¬ (has_user_flags = true ∧ flags &&& flag_likely_sympd ≠ 0 ∧
        flags &&& flag_no_sympd ≠ 0) →
      (apply_direct env has_user_flags out expr flags).result
        ≠ Except.error Err.flags_exclusive) := by
  constructor
  · rintro ⟨h1, h2, h3⟩
    have hc : (has_flag has_user_flags flags flag_no_sympd &&
        has_flag has_user_flags flags flag_likely_sympd) = true := by
      simp [has_flag, h1, h2, h3]
    unfold apply_direct
    simp [hc]
  · intro hno
    have hc : (has_flag has_user_flags flags flag_no_sympd &&
        has_flag has_user_flags flags flag_likely_sympd) = false := by
      cases hb : (has_flag has_user_flags flags flag_no_sympd &&
        has_flag has_user_flags flags flag_likely_sympd)
      · rfl
      · exfalso
        apply hno
        simp only [has_flag, Bool.and_eq_true, bne_iff_ne, ne_eq] at hb
        exact ⟨hb.1.1, hb.2.2, hb.1.2⟩
    have hstruct : ∀ l n (M : Mat K) calls,
        (apply_direct_structured env l n M calls).result
          ≠ Except.error Err.flags_exclusive := by
      intro l n M calls
      unfold apply_direct_structured
      by_cases hd : M.is_diagmat = true
      · rw [if_pos hd]
        cases he : apply_diagmat M (DiagProxy.ofMat M) with
        | error e =>
          have := apply_diagmat_error _ _ _ he
          subst this
          simp
        | ok r => simp
      · rw [if_neg hd]
        dsimp only
        split_ifs <;> simp
    cases expr with
    | diagmat A =>
      unfold apply_direct
      simp only [hc]
      cases he : apply_diagmat out A with
      | error e =>
        have := apply_diagmat_error _ _ _ he
        subst this
        simp
      | ok r => simp
    | trimat M do_triu =>
      unfold apply_direct
      simp only [hc]
      by_cases hs : M.is_square = false
      · simp [hs]
      · simp [hs]
    | plain M =>
      by_cases hs : M.n_rows = M.n_cols
      · rw [apply_direct_plain env has_user_flags out M flags hc hs]
        split_ifs
        · simp
        · exact hstruct _ _ _ _
        · exact hstruct _ _ _ _
      · have hs2 : M.is_square = false := by simp [Mat.is_square, hs]
        unfold apply_direct
        simp [hc, hs2]

/-- Witness of C10: flags `likely_sympd | no_sympd` on a plain 2x2 identity. -/
theorem apply_direct_flag_conflict_witness :
    (apply_direct Env.sample true (Mat.ofList 0 0 [])
      (Expr.plain (Mat.ofList 2 2 [1, 0, 0, 1])) 6).result
        = Except.error Err.flags_exclusive ∧
    (apply_direct Env.sample true (Mat.ofList 0 0 [])
      (Expr.plain (Mat.ofList 2 2 [1, 0, 0, 1])) 1).result
        ≠ Except.error Err.flags_exclusive :=
  ⟨((apply_direct_flag_conflict Env.sample true (Mat.ofList 0 0 [])
      (Expr.plain (Mat.ofList 2 2 [1, 0, 0, 1])) 6).1 (by decide)).1,
   (apply_direct_flag_conflict Env.sample true (Mat.ofList 0 0 [])
      (Expr.plain (Mat.ofList 2 2 [1, 0, 0, 1])) 1).2 (by decide)⟩

/-- Runtime detection on a triangular matrix that is not diagonal: the triangular
backend decides, with layout 0 for upper and 1 for lower, and nothing else is called. -/
theorem structured_triangular (env : Env K) (likely_sympd no_sympd : Bool) (M : Mat K)
    (calls : List Call) (hd : M.is_diagmat = false)
    (ht : is_triu M = true ∨ is_tril M = true) :
    apply_direct_structured env likely_sympd no_sympd M calls =
      { result := Except.ok (env.inv_tr M (if is_triu M then 0 else 1)).1,
        out := (env.inv_tr M (if is_triu M then 0 else 1)).2,
        calls := calls ++ [Call.inv_tr (if is_triu M then 0 else 1)] } := by
  unfold apply_direct_structured
  rw [if_neg (by rw [hd]; exact Bool.false_ne_true)]
  dsimp only
  cases hu : is_triu M
  · have hl : is_tril M = true := by
      rcases ht with h | h
      · rw [hu] at h; exact absurd h Bool.false_ne_true
      · exact h
    simp [hl]
  · simp

/-- C9, counterexample: the upper-triangular matrix with rows `(1,1)` and `(0,1)`, given
with the fast flag, is inverted by the closed-form solver and the triangular backend is
not called; the diagonal matrix `diag(2,4)`, which is upper-triangular as well, is
handled by the diagonal path. -/
theorem triangular_not_routed :
    (is_triu (Mat.ofList 2 2 [1, 0, 1, (1 : ℚ)]) = true ∧
      (apply_direct Env.sample true (Mat.ofList 0 0 [])
        (Expr.plain (Mat.ofList 2 2 [1, 0, 1, 1])) flag_fast).result = Except.ok true ∧
      (apply_direct Env.sample true (Mat.ofList 0 0 [])
        (Expr.plain (Mat.ofList 2 2 [1, 0, 1, 1])) flag_fast).calls = [Call.tiny]) ∧
    (is_triu (Mat.ofList 2 2 [2, 0, 0, (4 : ℚ)]) = true ∧
      (apply_direct Env.sample false (Mat.ofList 0 0 [])
        (Expr.plain (Mat.ofList 2 2 [2, 0, 0, 4])) 0).calls = [Call.diagmat]) := by
  refine ⟨⟨by decide, ?_, ?_⟩, by decide, ?_⟩
  · rw [apply_direct_plain _ _ _ _ _ (by decide) rfl, if_pos (by decide),
      tiny_two_accept _ _ _ _ rfl (by norm_num [Mat.ofList, Env.sample])]
    rfl
  · rw [apply_direct_plain _ _ _ _ _ (by decide) rfl, if_pos (by decide),
      tiny_two_accept _ _ _ _ rfl (by norm_num [Mat.ofList, Env.sample])]
    rfl
  · rw [apply_direct_plain _ _ _ _ _ (by decide) rfl, if_neg (by decide)]
    obtain ⟨st, o, h1, _⟩ := structured_diagonal Env.sample
      (has_flag false 0 flag_likely_sympd) (has_flag false 0 flag_no_sympd)
      (Mat.ofList 2 2 [2, 0, 0, (4 : ℚ)]) [] rfl (by decide)
    rw [h1]
    rfl

/-- C9, amended: with admissible flags, a square operand carrying the static triangular
tag goes to the triangular backend, whose status and result are returned, and nothing
else is called. A plain square matrix that is triangular and not diagonal goes to the
triangular backend alone (layout 0 if upper, else 1) when the closed-form solver is not
attempted; when it is attempted (fast flag, size at most 4, real elements) its success
is returned without the triangular backend, with status true and `out` holding the
cells of the solver's result copied over the materialised input, and its failure is
followed by the triangular backend on the unchanged input. In no case is `guess_sympd`,
the SPD backend or the general backend called. A plain square diagonal matrix is never
handed to the triangular backend: it goes to the diagonal path alone when the solver is
not attempted, to the solver and then the diagonal path when the solver fails, and to
the solver alone when it succeeds. -/
theorem apply_direct_triangular (env : Env K) (has_user_flags : Bool) (out M : Mat K)
    (flags : Nat)
    (hflags : (has_flag has_user_flags flags flag_no_sympd &&
      has_flag has_user_flags flags flag_likely_sympd) = false)
    (hsq : M.n_rows = M.n_cols) :
    (∀ do_triu : Bool,
      apply_direct env has_user_flags out (Expr.trimat M do_triu) flags =
        { result := Except.ok (env.inv_tr M (if do_triu then 0 else 1)).1,
          out := (env.inv_tr M (if do_triu then 0 else 1)).2,
          calls := [Call.inv_tr (if do_triu then 0 else 1)] }) ∧
    (M.is_diagmat = false → (is_triu M = true ∨ is_tril M = true) →
      ((has_flag has_user_flags flags flag_fast && decide (M.n_rows ≤ 4) && env.is_cx_no)
          = false →
        apply_direct env has_user_flags out (Expr.plain M) flags =
          { result := Except.ok (env.inv_tr M (if is_triu M then 0 else 1)).1,
            out := (env.inv_tr M (if is_triu M then 0 else 1)).2,
            calls := [Call.inv_tr (if is_triu M then 0 else 1)] }) ∧
      ((has_flag has_user_flags flags flag_fast && decide (M.n_rows ≤ 4) && env.is_cx_no)
          = true →
        ((apply_tiny_noalias env.eps env.is_float
            { n_rows := M.n_rows, n_cols := M.n_rows, mem := env.uninit } M).1 = true →
          apply_direct env has_user_flags out (Expr.plain M) flags =
            { result := Except.ok true,
              out :=
                { n_rows := M.n_rows, n_cols := M.n_cols,
                  mem := arrayops_copy M.mem
                    (apply_tiny_noalias env.eps env.is_float
                      { n_rows := M.n_rows, n_cols := M.n_rows, mem := env.uninit } M).2.mem
                    (apply_tiny_noalias env.eps env.is_float
                      { n_rows := M.n_rows, n_cols := M.n_rows, mem := env.uninit } M).2.n_elem },
              calls := [Call.tiny] }) ∧
        ((apply_tiny_noalias env.eps env.is_float
            { n_rows := M.n_rows, n_cols := M.n_rows, mem := env.uninit } M).1 = false →
          apply_direct env has_user_flags out (Expr.plain M) flags =
            { result := Except.ok (env.inv_tr M (if is_triu M then 0 else 1)).1,
              out := (env.inv_tr M (if is_triu M then 0 else 1)).2,
              calls := [Call.tiny, Call.inv_tr (if is_triu M then 0 else 1)] })) ∧
      Call.guess_sympd ∉ (apply_direct env has_user_flags out (Expr.plain M) flags).calls ∧
      Call.inv_sympd ∉ (apply_direct env has_user_flags out (Expr.plain M) flags).calls ∧
      Call.inv ∉ (apply_direct env has_user_flags out (Expr.plain M) flags).calls) ∧
    (M.is_diagmat = true →
      (∀ layout : Nat,
        Call.inv_tr layout ∉ (apply_direct env has_user_flags out (Expr.plain M) flags).calls) ∧
      ((has_flag has_user_flags flags flag_fast && decide (M.n_rows ≤ 4) && env.is_cx_no)
          = false →
        (apply_direct env has_user_flags out (Expr.plain M) flags).calls = [Call.diagmat]) ∧
      ((has_flag has_user_flags flags flag_fast && decide (M.n_rows ≤ 4) && env.is_cx_no)
          = true →
        ((apply_tiny_noalias env.eps env.is_float
            { n_rows := M.n_rows, n_cols := M.n_rows, mem := env.uninit } M).1 = false →
          (apply_direct env has_user_flags out (Expr.plain M) flags).calls
            = [Call.tiny, Call.diagmat]) ∧
        ((apply_tiny_noalias env.eps env.is_float
            { n_rows := M.n_rows, n_cols := M.n_rows, mem := env.uninit } M).1 = true →
          apply_direct env has_user_flags out (Expr.plain M) flags =
            { result := Except.ok true,
              out :=
                { n_rows := M.n_rows, n_cols := M.n_cols,
                  mem := arrayops_copy M.mem
                    (apply_tiny_noalias env.eps env.is_float
                      { n_rows := M.n_rows, n_cols := M.n_rows, mem := env.uninit } M).2.mem
                    (apply_tiny_noalias env.eps env.is_float
                      { n_rows := M.n_rows, n_cols := M.n_rows, mem := env.uninit } M).2.n_elem },
              calls := [Call.tiny] }))) := by
  refine ⟨?_, ?_, ?_⟩
  · intro do_triu
    have hs : M.is_square = true := by simp [Mat.is_square, hsq]
    unfold apply_direct
    simp only [hflags, hs]
    rfl
  · intro hd ht
    have hp := apply_direct_plain env has_user_flags out M flags hflags hsq
    have hst := structured_triangular env (has_flag has_user_flags flags flag_likely_sympd)
      (has_flag has_user_flags flags flag_no_sympd) M
    refine ⟨?_, ?_, ?_⟩
    · intro hatt
      rw [hp, if_neg (by rw [hatt]; exact Bool.false_ne_true), hst [] hd ht]
      rfl
    · intro hatt
      rw [if_pos hatt] at hp
      constructor
      · intro h1
        rw [if_pos h1] at hp
        exact hp
      · intro h0
        rw [if_neg (by rw [h0]; exact Bool.false_ne_true)] at hp
        rw [hp, hst [Call.tiny] hd ht]
        rfl
    · rw [hp]
      split_ifs
      · simp
      · rw [hst [Call.tiny] hd ht]; simp
      · rw [hst [] hd ht]; simp
  · intro hd
    have hp := apply_direct_plain env has_user_flags out M flags hflags hsq
    have hsd : ∀ calls, (apply_direct_structured env
        (has_flag has_user_flags flags flag_likely_sympd)
        (has_flag has_user_flags flags flag_no_sympd) M calls).calls
        = calls ++ [Call.diagmat] := by
      intro calls
      obtain ⟨st, o, h1, _⟩ := structured_diagonal env
        (has_flag has_user_flags flags flag_likely_sympd)
        (has_flag has_user_flags flags flag_no_sympd) M calls hsq hd
      rw [h1]
    refine ⟨?_, ?_, ?_⟩
    · intro layout
      rw [hp]
      split_ifs
      · simp
      · rw [hsd]; simp
      · rw [hsd]; simp
    · intro hatt
      rw [hp, if_neg (by rw [hatt]; exact Bool.false_ne_true), hsd]
      rfl
    · intro hatt
      rw [if_pos hatt] at hp
      constructor
      · intro h0
        rw [if_neg (by rw [h0]; exact Bool.false_ne_true)] at hp
        rw [hp, hsd]
        rfl
      · intro h1
        rw [if_pos h1] at hp
        exact hp

/-- Witness of the amended C9: the lower-triangular 2x2 matrix with rows `(1,0)` and
`(1,1)`, without flags, goes to the triangular backend with layout 1; the upper-triangular
matrix with rows `(1,1)` and `(0,1)`, with the fast flag, is inverted by the closed-form
solver, and `out` holds its inverse, with rows `(1,-1)` and `(0,1)`. -/
theorem apply_direct_triangular_witness :
    (apply_direct Env.sample false (Mat.ofList 0 0 [])
      (Expr.plain (Mat.ofList 2 2 [1, 1, 0, 1])) 0).calls = [Call.inv_tr 1] ∧
    (apply_direct Env.sample true (Mat.ofList 0 0 [])
      (Expr.plain (Mat.ofList 2 2 [1, 0, 1, 1])) flag_fast).result = Except.ok true ∧
    (apply_direct Env.sample true (Mat.ofList 0 0 [])
      (Expr.plain (Mat.ofList 2 2 [1, 0, 1, 1])) flag_fast).out.at_rc 0 0 = 1 ∧
    (apply_direct Env.sample true (Mat.ofList 0 0 [])
      (Expr.plain (Mat.ofList 2 2 [1, 0, 1, 1])) flag_fast).out.at_rc 1 0 = 0 ∧
    (apply_direct Env.sample true (Mat.ofList 0 0 [])
      (Expr.plain (Mat.ofList 2 2 [1, 0, 1, 1])) flag_fast).out.at_rc 0 1 = -1 ∧
    (apply_direct Env.sample true (Mat.ofList 0 0 [])
      (Expr.plain (Mat.ofList 2 2 [1, 0, 1, 1])) flag_fast).out.at_rc 1 1 = 1 := by
  have h1 := ((apply_direct_triangular Env.sample false (Mat.ofList 0 0 [])
    (Mat.ofList 2 2 [1, 1, 0, 1]) 0 (by decide) rfl).2.1 (by decide) (by decide)).1
    (by decide)
  have ht := tiny_two_accept Env.sample.eps Env.sample.is_float
    { n_rows := 2, n_cols := 2, mem := Env.sample.uninit } (Mat.ofList 2 2 [1, 0, 1, 1]) rfl
    (by norm_num [Mat.ofList, Env.sample])
  have h2 := (((apply_direct_triangular Env.sample true (Mat.ofList 0 0 [])
    (Mat.ofList 2 2 [1, 0, 1, 1]) flag_fast (by decide) rfl).2.1 (by decide)
    (by decide)).2.1 (by decide)).1 (congrArg Prod.fst ht)
  have hm : (apply_tiny_noalias Env.sample.eps Env.sample.is_float
      { n_rows := (Mat.ofList 2 2 [1, 0, 1, (1 : ℚ)]).n_rows,
        n_cols := (Mat.ofList 2 2 [1, 0, 1, (1 : ℚ)]).n_rows, mem := Env.sample.uninit }
      (Mat.ofList 2 2 [1, 0, 1, 1])).2
      = { n_rows := 2, n_cols := 2,
          mem := tiny_n2_assign Env.sample.uninit 1 1 0 1 1 } := by
    have := congrArg Prod.snd ht
    simpa [Mat.ofList] using this
  refine ⟨?_, ?_, ?_, ?_, ?_, ?_⟩
  · rw [h1]; decide
  · rw [h2]
  · rw [h2]
    simp only [Mat.at_rc, arrayops_copy, hm, Mat.n_elem]
    norm_num [Mat.ofList, tiny_n2_assign, write_apply, pos_n2]
  · rw [h2]
    simp only [Mat.at_rc, arrayops_copy, hm, Mat.n_elem]
    norm_num [Mat.ofList, tiny_n2_assign, write_apply, pos_n2]
  · rw [h2]
    simp only [Mat.at_rc, arrayops_copy, hm, Mat.n_elem]
    norm_num [Mat.ofList, tiny_n2_assign, write_apply, pos_n2]
  · rw [h2]
    simp only [Mat.at_rc, arrayops_copy, hm, Mat.n_elem]
    norm_num [Mat.ofList, tiny_n2_assign, write_apply, pos_n2]

/-- Runtime detection on a matrix that is neither diagonal nor triangular: the `sympd`
attempt on a copy when `try_sympd` says so, and the general backend on the matrix itself
otherwise or after a failed attempt. -/
theorem structured_general (env : Env K) (likely_sympd no_sympd : Bool) (M : Mat K)
    (calls : List Call) (hd : M.is_diagmat = false) (hu : is_triu M = false)
    (hl : is_tril M = false) :
    apply_direct_structured env likely_sympd no_sympd M calls =
      if try_sympd env likely_sympd no_sympd M = true then
        if (env.inv_sympd M).1 = true then
          { result := Except.ok true, out := (env.inv_sympd M).2,
            calls := (if (env.optimise_sympd && !no_sympd && !likely_sympd) = true
              then calls ++ [Call.guess_sympd] else calls) ++ [Call.inv_sympd] }
        else
          { result := Except.ok (env.inv M).1, out := (env.inv M).2,
            calls := (if (env.optimise_sympd && !no_sympd && !likely_sympd) = true
              then calls ++ [Call.guess_sympd] else calls) ++ [Call.inv_sympd, Call.inv] }
      else
        { result := Except.ok (env.inv M).1, out := (env.inv M).2,
          calls := (if (env.optimise_sympd && !no_sympd && !likely_sympd) = true
            then calls ++ [Call.guess_sympd] else calls) ++ [Call.inv] } := by
  unfold apply_direct_structured
  rw [if_neg (by rw [hd]; exact Bool.false_ne_true)]
  simp only [hu, hl]
  rfl

/-- The status and `out` of runtime detection do not depend on the calls made before. -/
theorem structured_calls_irrelevant (env : Env K) (likely_sympd no_sympd : Bool) (M : Mat K)
    (c1 c2 : List Call) :
    (apply_direct_structured env likely_sympd no_sympd M c1).result
      = (apply_direct_structured env likely_sympd no_sympd M c2).result ∧
    (apply_direct_structured env likely_sympd no_sympd M c1).out
      = (apply_direct_structured env likely_sympd no_sympd M c2).out := by
  unfold apply_direct_structured
  by_cases hd : M.is_diagmat = true
  · rw [if_pos hd, if_pos hd]
    cases apply_diagmat M (DiagProxy.ofMat M) <;> exact ⟨rfl, rfl⟩
  · rw [if_neg hd, if_neg hd]
    dsimp only
    split_ifs <;> exact ⟨rfl, rfl⟩

/-- The dispatcher on a square plain expression when the closed-form solver is not
attempted or returns false: runtime detection runs on the materialised input. -/
theorem apply_direct_not_tiny (env : Env K) (has_user_flags : Bool) (out M : Mat K)
    (flags : Nat)
    (hflags : (has_flag has_user_flags flags flag_no_sympd &&
      has_flag has_user_flags flags flag_likely_sympd) = false)
    (hsq : M.n_rows = M.n_cols)
    (hnt : ¬ ((has_flag has_user_flags flags flag_fast && decide (M.n_rows ≤ 4)
        && env.is_cx_no) = true ∧
      (apply_tiny_noalias env.eps env.is_float
        { n_rows := M.n_rows, n_cols := M.n_rows, mem := env.uninit } M).1 = true)) :
    apply_direct env has_user_flags out (Expr.plain M) flags =
      apply_direct_structured env (has_flag has_user_flags flags flag_likely_sympd)
        (has_flag has_user_flags flags flag_no_sympd) M
        (if (has_flag has_user_flags flags flag_fast && decide (M.n_rows ≤ 4)
          && env.is_cx_no) = true then [Call.tiny] else []) := by
  rw [apply_direct_plain env has_user_flags out M flags hflags hsq]
  by_cases hatt : (has_flag has_user_flags flags flag_fast && decide (M.n_rows ≤ 4)
      && env.is_cx_no) = true
  · rw [if_pos hatt, if_pos hatt, if_neg (fun ht => hnt ⟨hatt, ht⟩)]
  · rw [if_neg hatt, if_neg hatt]

/-- C15. Fast-path fallthrough: when the closed-form solver returns false on the
materialised matrix, the dispatcher with the fast flag continues with runtime detection
on the materialised input itself, and returns the status and `out` of the same call made
with any flag word that agrees on the two `sympd` options, in particular with the flag
word that differs only by the fast flag being unset. -/
theorem fast_fallthrough_unobservable (env : Env K) (has_user_flags : Bool) (out M : Mat K)
    (flags flags0 : Nat)
    (hl : has_flag has_user_flags flags0 flag_likely_sympd
      = has_flag has_user_flags flags flag_likely_sympd)
    (hn : has_flag has_user_flags flags0 flag_no_sympd
      = has_flag has_user_flags flags flag_no_sympd)
    (ht : (apply_tiny_noalias env.eps env.is_float
      { n_rows := M.n_rows, n_cols := M.n_rows, mem := env.uninit } M).1 = false) :
    ((has_flag has_user_flags flags flag_no_sympd &&
        has_flag has_user_flags flags flag_likely_sympd) = false →
      M.n_rows = M.n_cols →
      (has_flag has_user_flags flags flag_fast && decide (M.n_rows ≤ 4) && env.is_cx_no)
        = true →
      apply_direct env has_user_flags out (Expr.plain M) flags =
        apply_direct_structured env (has_flag has_user_flags flags flag_likely_sympd)
          (has_flag has_user_flags flags flag_no_sympd) M [Call.tiny]) ∧
    (apply_direct env has_user_flags out (Expr.plain M) flags).result
      = (apply_direct env has_user_flags out (Expr.plain M) flags0).result ∧
    (apply_direct env has_user_flags out (Expr.plain M) flags).out
      = (apply_direct env has_user_flags out (Expr.plain M) flags0).out := by
  have hnt : ∀ fl, ¬ ((has_flag has_user_flags fl flag_fast && decide (M.n_rows ≤ 4)
        && env.is_cx_no) = true ∧
      (apply_tiny_noalias env.eps env.is_float
        { n_rows := M.n_rows, n_cols := M.n_rows, mem := env.uninit } M).1 = true) := by
    intro fl h
    rw [ht] at h
    exact Bool.false_ne_true h.2
  refine ⟨?_, ?_⟩
  · intro hflags hsq hatt
    rw [apply_direct_not_tiny env has_user_flags out M flags hflags hsq (hnt flags),
      if_pos hatt]
  · by_cases hflags : (has_flag has_user_flags flags flag_no_sympd &&
        has_flag has_user_flags flags flag_likely_sympd) = false
    · by_cases hsq : M.n_rows = M.n_cols
      · have hflags0 : (has_flag has_user_flags flags0 flag_no_sympd &&
            has_flag has_user_flags flags0 flag_likely_sympd) = false := by
          rw [hl, hn]; exact hflags
        rw [apply_direct_not_tiny env has_user_flags out M flags hflags hsq (hnt flags),
          apply_direct_not_tiny env has_user_flags out M flags0 hflags0 hsq (hnt flags0),
          hl, hn]
        exact structured_calls_irrelevant env _ _ M _ _
      · have hs2 : M.is_square = false := by simp [Mat.is_square, hsq]
        unfold apply_direct
        simp [hl, hn, hs2]
    · unfold apply_direct
      simp only [hl, hn]
      simp only [Bool.not_eq_false] at hflags
      simp [hflags]

/-- Witness of C15: the singular matrix with rows `(1,2)` and `(2,4)`, with the flag
word `fast` and with the flag word 0. -/
theorem fast_fallthrough_unobservable_witness :
    (apply_direct Env.sample true (Mat.ofList 0 0 [])
      (Expr.plain (Mat.ofList 2 2 [1, 2, 2, 4])) flag_fast).result
    = (apply_direct Env.sample true (Mat.ofList 0 0 [])
      (Expr.plain (Mat.ofList 2 2 [1, 2, 2, 4])) 0).result :=
  (fast_fallthrough_unobservable Env.sample true (Mat.ofList 0 0 [])
    (Mat.ofList 2 2 [1, 2, 2, 4]) flag_fast 0 (by decide) (by decide)
    (by rw [tiny_two_reject _ _ _ _ rfl
      (Or.inl (by norm_num [Mat.ofList, Env.sample]))])).2.1

/-- C18. A matrix that reaches the `sympd` decision (admissible flags, square, solver not
successful, neither diagonal nor triangular): when the `sympd` backend is tried and
fails, the status and `out` are those of the general backend on the materialised input;
when it is tried and succeeds, the status is true and `out` is the content of the
temporary; and any flag word with `no_sympd` in effect and the same fast flag gives the
status and `out` of the general backend on the materialised input. -/
theorem sympd_attempt_unobservable (env : Env K) (has_user_flags : Bool) (out M : Mat K)
    (flags : Nat)
    (hflags : (has_flag has_user_flags flags flag_no_sympd &&
      has_flag has_user_flags flags flag_likely_sympd) = false)
    (hsq : M.n_rows = M.n_cols)
    (hnt : ¬ ((has_flag has_user_flags flags flag_fast && decide (M.n_rows ≤ 4)
        && env.is_cx_no) = true ∧
      (apply_tiny_noalias env.eps env.is_float
        { n_rows := M.n_rows, n_cols := M.n_rows, mem := env.uninit } M).1 = true))
    (hd : M.is_diagmat = false) (hu : is_triu M = false) (hl : is_tril M = false) :
    (try_sympd env (has_flag has_user_flags flags flag_likely_sympd)
        (has_flag has_user_flags flags flag_no_sympd) M = true →
      (env.inv_sympd M).1 = false →
      (apply_direct env has_user_flags out (Expr.plain M) flags).result
        = Except.ok (env.inv M).1 ∧
      (apply_direct env has_user_flags out (Expr.plain M) flags).out = (env.inv M).2) ∧
    (try_sympd env (has_flag has_user_flags flags flag_likely_sympd)
        (has_flag has_user_flags flags flag_no_sympd) M = true →
      (env.inv_sympd M).1 = true →
      (apply_direct env has_user_flags out (Expr.plain M) flags).result = Except.ok true ∧
      (apply_direct env has_user_flags out (Expr.plain M) flags).out
        = (env.inv_sympd M).2) ∧
    (∀ flags0 : Nat, has_flag has_user_flags flags0 flag_no_sympd = true →
      has_flag has_user_flags flags0 flag_likely_sympd = false →
      has_flag has_user_flags flags0 flag_fast = has_flag has_user_flags flags flag_fast →
      (apply_direct env has_user_flags out (Expr.plain M) flags0).result
        = Except.ok (env.inv M).1 ∧
      (apply_direct env has_user_flags out (Expr.plain M) flags0).out = (env.inv M).2) := by
  refine ⟨?_, ?_, ?_⟩
  · intro htry hfail
    rw [apply_direct_not_tiny env has_user_flags out M flags hflags hsq hnt,
      structured_general env _ _ M _ hd hu hl, if_pos htry,
      if_neg (by rw [hfail]; exact Bool.false_ne_true)]
    exact ⟨rfl, rfl⟩
  · intro htry hok
    rw [apply_direct_not_tiny env has_user_flags out M flags hflags hsq hnt,
      structured_general env _ _ M _ hd hu hl, if_pos htry, if_pos hok]
    exact ⟨rfl, rfl⟩
  · intro flags0 hn0 hl0 hf0
    have hflags0 : (has_flag has_user_flags flags0 flag_no_sympd &&
        has_flag has_user_flags flags0 flag_likely_sympd) = false := by
      rw [hl0]; exact Bool.and_false _
    have hnt0 : ¬ ((has_flag has_user_flags flags0 flag_fast && decide (M.n_rows ≤ 4)
          && env.is_cx_no) = true ∧
        (apply_tiny_noalias env.eps env.is_float
          { n_rows := M.n_rows, n_cols := M.n_rows, mem := env.uninit } M).1 = true) := by
      rw [hf0]; exact hnt
    have htry : ¬ (try_sympd env (has_flag has_user_flags flags0 flag_likely_sympd)
        (has_flag has_user_flags flags0 flag_no_sympd) M = true) := by
      rw [hn0]
      simp [try_sympd]
    rw [apply_direct_not_tiny env has_user_flags out M flags0 hflags0 hsq hnt0,
      structured_general env _ _ M _ hd hu hl, if_neg htry]
    exact ⟨rfl, rfl⟩

/-- Witness of C18: the full matrix with rows `(1,2)` and `(3,4)` with `likely_sympd`:
the sample `sympd` backend fails, and the result is the one of the general backend. -/
theorem sympd_attempt_unobservable_witness :
    (apply_direct Env.sample true (Mat.ofList 0 0 [])
      (Expr.plain (Mat.ofList 2 2 [1, 3, 2, 4])) flag_likely_sympd).result
    = Except.ok (Env.sample.inv (Mat.ofList 2 2 [1, 3, 2, 4])).1 :=
  ((sympd_attempt_unobservable Env.sample true (Mat.ofList 0 0 [])
    (Mat.ofList 2 2 [1, 3, 2, 4]) flag_likely_sympd (by decide) rfl
    (by intro h; exact absurd h.1 (by decide)) (by decide) (by decide) (by decide)).1
    (by decide) rfl).1

/-- C19. Classification order when the closed-form solver is not attempted or has
returned false (admissible flags, square plain matrix): a diagonal matrix is handled by
`apply_diagmat`, whose status and result are returned, and the triangular backend is not
called; a matrix that is not diagonal and upper-triangular goes to `auxlib::inv_tr` with
layout 0, one that is not upper- but lower-triangular goes to it with layout 1, and the
status and result of that call are returned. In the three cases `guess_sympd`, the
`sympd` backend and the general backend are not called. -/
theorem classification_order (env : Env K) (has_user_flags : Bool) (out M : Mat K)
    (flags : Nat)
    (hflags : (has_flag has_user_flags flags flag_no_sympd &&
      has_flag has_user_flags flags flag_likely_sympd) = false)
    (hsq : M.n_rows = M.n_cols)
    (hnt : ¬ ((has_flag has_user_flags flags flag_fast && decide (M.n_rows ≤ 4)
        && env.is_cx_no) = true ∧
      (apply_tiny_noalias env.eps env.is_float
        { n_rows := M.n_rows, n_cols := M.n_rows, mem := env.uninit } M).1 = true)) :
    (M.is_diagmat = true →
      ∃ st o, apply_diagmat M (DiagProxy.ofMat M) = Except.ok (st, o) ∧
        (apply_direct env has_user_flags out (Expr.plain M) flags).result = Except.ok st ∧
        (apply_direct env has_user_flags out (Expr.plain M) flags).out = o ∧
        (apply_direct env has_user_flags out (Expr.plain M) flags).calls
          = (if (has_flag has_user_flags flags flag_fast && decide (M.n_rows ≤ 4)
              && env.is_cx_no) = true then [Call.tiny] else []) ++ [Call.diagmat]) ∧
    (M.is_diagmat = false → is_triu M = true →
      (apply_direct env has_user_flags out (Expr.plain M) flags).result
        = Except.ok (env.inv_tr M 0).1 ∧
      (apply_direct env has_user_flags out (Expr.plain M) flags).out = (env.inv_tr M 0).2 ∧
      (apply_direct env has_user_flags out (Expr.plain M) flags).calls
        = (if (has_flag has_user_flags flags flag_fast && decide (M.n_rows ≤ 4)
            && env.is_cx_no) = true then [Call.tiny] else []) ++ [Call.inv_tr 0]) ∧
    (M.is_diagmat = false → is_triu M = false → is_tril M = true →
      (apply_direct env has_user_flags out (Expr.plain M) flags).result
        = Except.ok (env.inv_tr M 1).1 ∧
      (apply_direct env has_user_flags out (Expr.plain M) flags).out = (env.inv_tr M 1).2 ∧
      (apply_direct env has_user_flags out (Expr.plain M) flags).calls
        = (if (has_flag has_user_flags flags flag_fast && decide (M.n_rows ≤ 4)
            && env.is_cx_no) = true then [Call.tiny] else []) ++ [Call.inv_tr 1]) := by
  rw [apply_direct_not_tiny env has_user_flags out M flags hflags hsq hnt]
  refine ⟨?_, ?_, ?_⟩
  · intro hd
    obtain ⟨st, o, h1, _⟩ := apply_diagmat_spec M (DiagProxy.ofMat M) hsq
    refine ⟨st, o, h1, ?_⟩
    unfold apply_direct_structured
    rw [if_pos hd, h1]
    exact ⟨rfl, rfl, rfl⟩
  · intro hd hu
    rw [structured_triangular env _ _ M _ hd (Or.inl hu), hu]
    exact ⟨rfl, rfl, rfl⟩
  · intro hd hu hl
    rw [structured_triangular env _ _ M _ hd (Or.inr hl), hu]
    exact ⟨rfl, rfl, rfl⟩

/-- Witness of C19: without flags, the diagonal matrix `diag(2,4)` enters the diagonal
path only. -/
theorem classification_order_witness :
    ∃ st o, apply_diagmat (Mat.ofList 2 2 [2, 0, 0, (4 : ℚ)])
        (DiagProxy.ofMat (Mat.ofList 2 2 [2, 0, 0, (4 : ℚ)])) = Except.ok (st, o) ∧
      (apply_direct Env.sample false (Mat.ofList 0 0 [])
        (Expr.plain (Mat.ofList 2 2 [2, 0, 0, 4])) 0).result = Except.ok st ∧
      (apply_direct Env.sample false (Mat.ofList 0 0 [])
        (Expr.plain (Mat.ofList 2 2 [2, 0, 0, 4])) 0).calls = [Call.diagmat] := by
  obtain ⟨st, o, h1, h2, _, h4⟩ := (classification_order Env.sample false (Mat.ofList 0 0 [])
    (Mat.ofList 2 2 [2, 0, 0, 4]) 0 (by decide) rfl
    (by intro h; exact absurd h.1 (by decide))).1 (by decide)
  exact ⟨st, o, h1, h2, h4⟩

end Dispatch

section Policy

/-- C20. For every flag word that passes the mutual-exclusion check, the decision
`try_sympd` of the code equals the decision of the specification; in particular, with
the optimisation enabled, `likely_sympd` forces the attempt, `no_sympd` forbids it, and
without user flags the heuristic `guess_sympd` decides. -/
theorem try_sympd_refines (env : Env K) (has_user_flags : Bool) (out : Mat K) (flags : Nat)
    (hflags : (has_flag has_user_flags flags flag_no_sympd &&
      has_flag has_user_flags flags flag_likely_sympd) = false) :
    try_sympd env (has_flag has_user_flags flags flag_likely_sympd)
        (has_flag has_user_flags flags flag_no_sympd) out
      = try_sympd_spec env (has_flag has_user_flags flags flag_likely_sympd)
        (has_flag has_user_flags flags flag_no_sympd) out ∧
    (env.optimise_sympd = true → has_flag has_user_flags flags flag_likely_sympd = true →
      try_sympd env (has_flag has_user_flags flags flag_likely_sympd)
        (has_flag has_user_flags flags flag_no_sympd) out = true) ∧
    (has_flag has_user_flags flags flag_no_sympd = true →
      try_sympd env (has_flag has_user_flags flags flag_likely_sympd)
        (has_flag has_user_flags flags flag_no_sympd) out = false) ∧
    (env.optimise_sympd = true →
      try_sympd env (has_flag false flags flag_likely_sympd)
        (has_flag false flags flag_no_sympd) out = env.guess_sympd out) := by
  refine ⟨?_, ?_, ?_, ?_⟩
  · unfold try_sympd try_sympd_spec
    cases hl : has_flag has_user_flags flags flag_likely_sympd <;>
      cases hn : has_flag has_user_flags flags flag_no_sympd <;>
      simp_all
  · intro ho hl
    rw [hl] at hflags
    have hn : has_flag has_user_flags flags flag_no_sympd = false := by
      simpa using hflags
    simp [try_sympd, ho, hl, hn]
  · intro hn
    simp [try_sympd, hn]
  · intro ho
    simp [try_sympd, ho, has_flag]

/-- Witness of C20: the flag word `likely_sympd` alone forces the attempt. -/
theorem try_sympd_refines_witness :
    try_sympd Env.sample (has_flag true flag_likely_sympd flag_likely_sympd)
      (has_flag true flag_likely_sympd flag_no_sympd) (Mat.ofList 2 2 [1, 3, 2, 4]) = true :=
  (try_sympd_refines Env.sample true (Mat.ofList 2 2 [1, 3, 2, 4]) flag_likely_sympd
    (by decide)).2.1 rfl (by decide)

/-- With both options in effect the two decisions differ, but such a flag word is
rejected before the decision is reached. -/
theorem try_sympd_conflict (env : Env K) (out : Mat K) (ho : env.optimise_sympd = true) :
    try_sympd env true true out = false ∧ try_sympd_spec env true true out = true := by
  simp [try_sympd, try_sympd_spec, ho]

end Policy

section Sympd
variable [LinearOrderedField K]

/-- The state of the loop of the `sympd` diagonal path: with `p` the index where it
stops (the first diagonal entry that is not positive, or the end), the status tells
whether the end was reached and the diagonal entries before `p` hold their
reciprocals, every other element being unchanged. -/
theorem spd_diag_loop_spec (k : Nat) : ∀ (i : Nat) (out : Mat K) (p : Nat),
    i + k ≤ out.n_rows → i ≤ p →
    (∀ j, i ≤ j → j < p → 0 < out.at_rc j j) →
    (p = i + k ∨ (p < i + k ∧ out.at_rc p p ≤ 0)) →
    (spd_diag_loop k i out).1 = decide (p = i + k) ∧
    (spd_diag_loop k i out).2.n_rows = out.n_rows ∧
    (spd_diag_loop k i out).2.n_cols = out.n_cols ∧
    ∀ r c, r < out.n_rows →
      (spd_diag_loop k i out).2.at_rc r c
        = if r = c ∧ i ≤ r ∧ r < p then 1 / out.at_rc r r else out.at_rc r c := by
  induction k with
  | zero =>
    intro i out p _ hip _ hp
    have hpi : p = i := by omega
    subst hpi
    refine ⟨by simp [spd_diag_loop], rfl, rfl, ?_⟩
    intro r c _
    have : ¬ (r = c ∧ p ≤ r ∧ r < p) := by omega
    rw [if_neg this]
    rfl
  | succ k ih =>
    intro i out p hik hip hpos hp
    have hiN : i < out.n_rows := by omega
    by_cases hbad : out.at_rc i i ≤ 0
    · have hpi : p = i := by
        by_contra hne
        have hlt : i < p := by omega
        exact absurd (hpos i (Nat.le_refl i) hlt) (not_lt.mpr hbad)
      subst hpi
      have hr : spd_diag_loop (k + 1) p out = (false, out) := by
        simp [spd_diag_loop, hbad]
      rw [hr]
      refine ⟨?_, rfl, rfl, ?_⟩
      · have : ¬ (p = p + (k + 1)) := by omega
        simp [this]
      · intro r c _
        have : ¬ (r = c ∧ p ≤ r ∧ r < p) := by omega
        rw [if_neg this]
    · have hr : spd_diag_loop (k + 1) i out
          = spd_diag_loop k (i + 1) (out.set_at i i (1 / out.at_rc i i)) := by
        simp [spd_diag_loop, hbad]
      have hlt : i < p := by
        rcases hp with h | h
        · omega
        · by_contra hge
          have hpi : p = i := by omega
          rw [hpi] at h
          exact hbad h.2
      have hset : ∀ r c, r < out.n_rows →
          (out.set_at i i (1 / out.at_rc i i)).at_rc r c
            = if r = i ∧ c = i then 1 / out.at_rc i i else out.at_rc r c := by
        intro r c hr'
        simp only [Mat.set_at, Mat.at_rc, write_apply]
        by_cases hcell : r + c * out.n_rows = i + i * out.n_rows
        · obtain ⟨e1, e2⟩ := cell_index_inj out.n_rows r c i i hr' hiN hcell
          rw [if_pos hcell, if_pos ⟨e1, e2⟩]
        · rw [if_neg hcell, if_neg]
          rintro ⟨e1, e2⟩
          exact hcell (by rw [e1, e2])
      obtain ⟨h1, h2, h3, h4⟩ := ih (i + 1) (out.set_at i i (1 / out.at_rc i i)) p
        (by simp only [Mat.set_at]; omega) hlt
        (by
          intro j hj1 hj2
          have hjN : j < out.n_rows := by
            rcases hp with h | h <;> omega
          rw [hset j j hjN, if_neg (by omega)]
          exact hpos j (by omega) hj2)
        (by
          rcases hp with h | h
          · left; omega
          · right
            refine ⟨by omega, ?_⟩
            rw [hset p p (by omega), if_neg (by omega)]
            exact h.2)
      rw [hr]
      refine ⟨?_, ?_, ?_, ?_⟩
      · rw [h1]
        have : (p = i + 1 + k) ↔ (p = i + (k + 1)) := by omega
        simp [this]
      · rw [h2]; rfl
      · rw [h3]; rfl
      · intro r c hr'
        rw [h4 r c hr', hset r r hr', hset r c hr']
        by_cases hrc : r = c
        · subst hrc
          by_cases hri : r = i
          · subst hri
            have : ¬ (r = r ∧ r + 1 ≤ r ∧ r < p) := by omega
            rw [if_neg this, if_pos ⟨rfl, rfl⟩, if_pos ⟨rfl, Nat.le_refl r, hlt⟩]
          · have e2 : ¬ (r = i ∧ r = i) := fun h => hri h.1
            rw [if_neg e2]
            by_cases hin : i ≤ r ∧ r < p
            · rw [if_pos ⟨rfl, by omega, hin.2⟩, if_pos ⟨rfl, hin⟩]
            · rw [if_neg (fun h => hin ⟨by omega, h.2.2⟩), if_neg (fun h => hin h.2)]
        · have e1 : ¬ (r = c ∧ i + 1 ≤ r ∧ r < p) := fun h => hrc h.1
          have e2 : ¬ (r = c ∧ i ≤ r ∧ r < p) := fun h => hrc h.1
          have e3 : ¬ (r = i ∧ c = i) := fun h => hrc (by rw [h.1, h.2])
          rw [if_neg e1, if_neg e2, if_neg e3]

/-- The first loop of the gate, started at index `i` in its column: it returns false
exactly when a diagonal entry in its range is not positive; otherwise all are positive,
and the maximum it returns bounds them and is the initial value or one of them. -/
theorem spd_gate_diag_spec (mem : Nat → K) (N k : Nat) : ∀ (i : Nat) (md0 : K),
    match spd_gate_diag mem N k i (i * N) md0 with
    | none => ∃ j, i ≤ j ∧ j < i + k ∧ mem (j * N + j) ≤ 0
    | some md =>
      (∀ j, i ≤ j → j < i + k → 0 < mem (j * N + j) ∧ mem (j * N + j) ≤ md) ∧
      md0 ≤ md ∧ (md = md0 ∨ ∃ j, i ≤ j ∧ j < i + k ∧ md = mem (j * N + j)) := by
  induction k with
  | zero =>
    intro i md0
    show (∀ j, i ≤ j → j < i + 0 → 0 < mem (j * N + j) ∧ mem (j * N + j) ≤ md0) ∧
      md0 ≤ md0 ∧ (md0 = md0 ∨ ∃ j, i ≤ j ∧ j < i + 0 ∧ md0 = mem (j * N + j))
    exact ⟨fun j h1 h2 => by omega, le_refl _, Or.inl rfl⟩
  | succ k ih =>
    intro i md0
    simp only [spd_gate_diag]
    by_cases hbad : mem (i * N + i) ≤ 0
    · rw [if_pos hbad]
      exact ⟨i, Nat.le_refl i, by omega, hbad⟩
    · rw [if_neg hbad]
      have hcol : i * N + N = (i + 1) * N := by ring
      rw [hcol]
      have h := ih (i + 1) (if mem (i * N + i) > md0 then mem (i * N + i) else md0)
      have hmax1 : md0 ≤ (if mem (i * N + i) > md0 then mem (i * N + i) else md0) := by
        split_ifs with hc
        · exact le_of_lt hc
        · exact le_refl _
      have hmax2 : mem (i * N + i) ≤ (if mem (i * N + i) > md0 then mem (i * N + i) else md0) := by
        split_ifs with hc
        · exact le_refl _
        · exact not_lt.mp hc
      cases hres : spd_gate_diag mem N k (i + 1) ((i + 1) * N)
          (if mem (i * N + i) > md0 then mem (i * N + i) else md0) with
      | none =>
        rw [hres] at h
        obtain ⟨j, h1, h2, h3⟩ := h
        exact ⟨j, by omega, by omega, h3⟩
      | some md =>
        rw [hres] at h
        obtain ⟨h1, h2, h3⟩ := h
        refine ⟨?_, le_trans hmax1 h2, ?_⟩
        · intro j hj1 hj2
          by_cases hji : j = i
          · subst hji
            exact ⟨not_le.mp hbad, le_trans hmax2 h2⟩
          · exact h1 j (by omega) (by omega)
        · rcases h3 with h3 | ⟨j, hj1, hj2, hj3⟩
          · by_cases hc : mem (i * N + i) > md0
            · right
              refine ⟨i, Nat.le_refl i, by omega, ?_⟩
              rw [h3, if_pos hc]
            · left
              rw [h3, if_neg hc]
          · exact Or.inr ⟨j, by omega, by omega, hj3⟩

/-- The inner loop of the second loop of the gate: true exactly when no element in its
range exceeds `max_diag` in absolute value. -/
theorem spd_gate_col_spec (mem : Nat → K) (md : K) (colmem k : Nat) : ∀ r : Nat,
    spd_gate_col mem md colmem k r = true ↔
      ∀ j, r ≤ j → j < r + k → |mem (colmem + j)| ≤ md := by
  induction k with
  | zero =>
    intro r
    simp only [spd_gate_col, true_iff]
    intro j h1 h2
    omega
  | succ k ih =>
    intro r
    simp only [spd_gate_col]
    by_cases hbad : |mem (colmem + r)| > md
    · rw [if_pos hbad]
      constructor
      · intro h; exact absurd h Bool.false_ne_true
      · intro h
        exact absurd (h r (Nat.le_refl r) (by omega)) (not_le.mpr hbad)
    · rw [if_neg hbad, ih (r + 1)]
      constructor
      · intro h j hj1 hj2
        by_cases hjr : j = r
        · subst hjr; exact not_lt.mp hbad
        · exact h j (by omega) (by omega)
      · intro h j hj1 hj2
        exact h j (by omega) (by omega)

/-- The second loop of the gate, started at column `c`: true exactly when no element on
or below the diagonal of its columns exceeds `max_diag` in absolute value. -/
theorem spd_gate_tri_spec (mem : Nat → K) (N : Nat) (md : K) (k : Nat) : ∀ c : Nat,
    spd_gate_tri mem N md k c (c * N) = true ↔
      ∀ c', c ≤ c' → c' < c + k → ∀ r, c' ≤ r → r < N → |mem (c' * N + r)| ≤ md := by
  induction k with
  | zero =>
    intro c
    simp only [spd_gate_tri, true_iff]
    intro c' h1 h2
    omega
  | succ k ih =>
    intro c
    simp only [spd_gate_tri]
    have hcol : c * N + N = (c + 1) * N := by ring
    by_cases hc : spd_gate_col mem md (c * N) (N - c) c = true
    · rw [if_neg (by rw [hc]; exact Bool.noConfusion), hcol, ih (c + 1)]
      have hc' := (spd_gate_col_spec mem md (c * N) (N - c) c).mp hc
      constructor
      · intro h c' h1 h2 r hr1 hr2
        by_cases hcc : c' = c
        · subst hcc
          exact hc' r hr1 (by omega)
        · exact h c' (by omega) (by omega) r hr1 hr2
      · intro h c' h1 h2 r hr1 hr2
        exact h c' (by omega) (by omega) r hr1 hr2
    · have hcf : spd_gate_col mem md (c * N) (N - c) c = false := by
        cases hv : spd_gate_col mem md (c * N) (N - c) c
        · rfl
        · exact absurd hv hc
      rw [if_pos hcf]
      constructor
      · intro h; exact absurd h Bool.false_ne_true
      · intro h
        exfalso
        apply hc
        rw [spd_gate_col_spec]
        intro j hj1 hj2
        exact h c (Nat.le_refl c) (by omega) j hj1 (by omega)

/-- What the plausibility gate decides on an `N` by `N` matrix: every diagonal entry is
positive, and every element on or below the diagonal is at most some diagonal entry in
absolute value (that is, at most the maximum diagonal entry). -/
theorem spd_gate_iff (M : Mat K) :
    spd_gate M.mem M.n_rows = true ↔
      (∀ i < M.n_rows, 0 < M.at_rc i i) ∧
      (∀ c r, c ≤ r → r < M.n_rows → ∃ i < M.n_rows, |M.at_rc r c| ≤ M.at_rc i i) := by
  have hidx : ∀ r c : Nat, M.at_rc r c = M.mem (c * M.n_rows + r) := by
    intro r c
    simp only [Mat.at_rc]
    rw [Nat.add_comm]
  have hd := spd_gate_diag_spec M.mem M.n_rows M.n_rows 0 0
  have ht := fun md => spd_gate_tri_spec M.mem M.n_rows md M.n_rows 0
  simp only [Nat.zero_mul, Nat.zero_add] at hd ht
  unfold spd_gate
  cases hres : spd_gate_diag M.mem M.n_rows M.n_rows 0 0 0 with
  | none =>
    rw [hres] at hd
    obtain ⟨j, _, hj2, hj3⟩ := hd
    simp only
    constructor
    · intro h; exact absurd h Bool.false_ne_true
    · intro h
      have := h.1 j hj2
      rw [hidx] at this
      exact absurd this (not_lt.mpr hj3)
  | some md =>
    rw [hres] at hd
    obtain ⟨h1, h2, h3⟩ := hd
    simp only
    rw [ht md]
    constructor
    · intro h
      refine ⟨fun i hi => by rw [hidx]; exact (h1 i (Nat.zero_le i) hi).1, ?_⟩
      intro c r hcr hr
      rcases h3 with h3 | ⟨j, _, hj2, hj3⟩
      · exfalso
        have hpos := h1 r (Nat.zero_le r) hr
        rw [h3] at hpos
        exact absurd hpos.1 (not_lt.mpr hpos.2)
      · refine ⟨j, hj2, ?_⟩
        rw [hidx r c, hidx j j, ← hj3]
        exact h c (Nat.zero_le c) (by omega) r hcr hr
    · intro h c' _ hc' r hr1 hr2
      obtain ⟨i, hi, hle⟩ := h.2 c' r hr1 hr2
      rw [hidx r c', hidx i i] at hle
      exact le_trans hle (h1 i (Nat.zero_le i) hi).2

/-- The `sympd` dispatcher on a square input: lines 432-508 run on the materialised
input, with the fast flag as only option. -/
theorem spd_apply_direct_square (env : Env K) (has_user_flags is_op_diagmat : Bool)
    (out M : Mat K) (flags : Nat) (hsq : M.n_rows = M.n_cols) :
    (op_inv_spd_apply_direct env has_user_flags is_op_diagmat out M flags).1
      = op_inv_spd_dispatch env (has_flag has_user_flags flags flag_fast) is_op_diagmat M := by
  have hs : M.is_square = true := by simp [Mat.is_square, hsq]
  unfold op_inv_spd_apply_direct
  simp [hs]

/-- The `sympd` dispatcher on an input that is not square raises the squareness error. -/
theorem spd_apply_direct_not_square (env : Env K) (has_user_flags is_op_diagmat : Bool)
    (out M : Mat K) (flags : Nat) (hsq : M.n_rows ≠ M.n_cols) :
    (op_inv_spd_apply_direct env has_user_flags is_op_diagmat out M flags).1
      = { result := Except.error Err.not_square, out := M, calls := [] } := by
  have hs : M.is_square = false := by simp [Mat.is_square, hsq]
  unfold op_inv_spd_apply_direct
  simp [hs]

/-- Lines 432-508 always end with a status. -/
theorem spd_dispatch_status (env : Env K) (fast is_op_diagmat : Bool) (M : Mat K) :
    ∃ b, (op_inv_spd_dispatch env fast is_op_diagmat M).result = Except.ok b := by
  unfold op_inv_spd_dispatch
  dsimp only
  split_ifs <;> exact ⟨_, rfl⟩

/-- The diagonal path of the `sympd` dispatcher (real elements, diagonal operand). -/
theorem spd_dispatch_diagonal (env : Env K) (fast is_op_diagmat : Bool) (M : Mat K)
    (hreal : env.is_cx_no = true) (hsq : M.n_rows = M.n_cols)
    (hdiag : (is_op_diagmat || M.is_diagmat) = true) :
    op_inv_spd_dispatch env fast is_op_diagmat M =
      { result := Except.ok (spd_diag_loop M.n_rows 0 M).1,
        out := (spd_diag_loop M.n_rows 0 M).2, calls := [] } := by
  have hmin : min M.n_rows M.n_cols = M.n_rows := by rw [← hsq, Nat.min_self]
  unfold op_inv_spd_dispatch
  simp only [hmin, hreal, hdiag, Bool.and_self, if_true]

/-- The tinymatrix optimisation of the `sympd` dispatcher (real elements, fast flag, size
at most 4, operand not diagonal). -/
theorem spd_dispatch_tiny (env : Env K) (M : Mat K)
    (hreal : env.is_cx_no = true) (hsq : M.n_rows = M.n_cols) (hN : M.n_rows ≤ 4)
    (hdiag : M.is_diagmat = false) :
    op_inv_spd_dispatch env true false M =
      if spd_gate M.mem M.n_rows = false then
        { result := Except.ok false, out := M, calls := [] }
      else if (apply_tiny_noalias env.eps env.is_float
          { n_rows := M.n_rows, n_cols := M.n_rows, mem := env.uninit } M).1 = true then
        { result := Except.ok true,
          out :=
            { n_rows := M.n_rows, n_cols := M.n_cols,
              mem := arrayops_copy M.mem
                (apply_tiny_noalias env.eps env.is_float
                  { n_rows := M.n_rows, n_cols := M.n_rows, mem := env.uninit } M).2.mem
                (apply_tiny_noalias env.eps env.is_float
                  { n_rows := M.n_rows, n_cols := M.n_rows, mem := env.uninit } M).2.n_elem },
          calls := [Call.tiny] }
      else
        { result := Except.ok (env.inv_sympd M).1, out := (env.inv_sympd M).2,
          calls := [Call.tiny, Call.inv_sympd] } := by
  have hmin : min M.n_rows M.n_cols = M.n_rows := by rw [← hsq, Nat.min_self]
  unfold op_inv_spd_dispatch
  simp only [hmin, hreal, hdiag, hN, Bool.or_self, Bool.and_false, Bool.false_eq_true,
    if_false, decide_True, Bool.and_self, if_true]

/-- The `sympd` diagonal path on a square diagonal matrix, with `p` the index where the
scan stops: the status tells whether `p` is the end, nothing is called, and the diagonal
entries before `p` hold their reciprocals while every other element is unchanged. -/
theorem spd_diagonal_stop (env : Env K) (has_user_flags is_op_diagmat : Bool)
    (out M : Mat K) (flags : Nat) (hreal : env.is_cx_no = true)
    (hsq : M.n_rows = M.n_cols) (hdiag : M.is_diagmat = true) (p : Nat)
    (hpos : ∀ j, j < p → 0 < M.at_rc j j)
    (hp : p = M.n_rows ∨ (p < M.n_rows ∧ M.at_rc p p ≤ 0)) :
    (op_inv_spd_apply_direct env has_user_flags is_op_diagmat out M flags).1.result
      = Except.ok (decide (p = M.n_rows)) ∧
    (op_inv_spd_apply_direct env has_user_flags is_op_diagmat out M flags).1.calls = [] ∧
    (op_inv_spd_apply_direct env has_user_flags is_op_diagmat out M flags).1.out.n_rows
      = M.n_rows ∧
    (op_inv_spd_apply_direct env has_user_flags is_op_diagmat out M flags).1.out.n_cols
      = M.n_rows ∧
    ∀ r c, r < M.n_rows → c < M.n_rows →
      (op_inv_spd_apply_direct env has_user_flags is_op_diagmat out M flags).1.out.at_rc r c
        = if r = c then (if r < p then 1 / M.at_rc r r else M.at_rc r r) else 0 := by
  rw [spd_apply_direct_square env has_user_flags is_op_diagmat out M flags hsq,
    spd_dispatch_diagonal env _ is_op_diagmat M hreal hsq (by rw [hdiag, Bool.or_true])]
  obtain ⟨h1, h2, h3, h4⟩ := spd_diag_loop_spec M.n_rows 0 M p (by omega) (Nat.zero_le p)
    (fun j _ hj => hpos j hj) (by rw [Nat.zero_add]; exact hp)
  rw [Nat.zero_add] at h1
  refine ⟨by rw [h1], rfl, h2, by rw [h3, hsq], ?_⟩
  intro r c hr hc
  show (spd_diag_loop M.n_rows 0 M).2.at_rc r c = _
  rw [h4 r c hr]
  by_cases hrc : r = c
  · subst hrc
    by_cases hrp : r < p
    · rw [if_pos ⟨rfl, Nat.zero_le r, hrp⟩, if_pos rfl, if_pos hrp]
    · rw [if_neg (fun h => hrp h.2.2), if_pos rfl, if_neg hrp]
  · rw [if_neg (fun h => hrc h.1), if_neg hrc]
    exact (is_diagmat_iff M).mp hdiag c (by rw [← hsq]; exact hc) r hr hrc

/-- The scan of a diagonal stops somewhere: at the first entry that is not positive, or
at the end. -/
theorem exists_stop (M : Mat K) :
    ∃ p, (∀ j, j < p → 0 < M.at_rc j j) ∧
      (p = M.n_rows ∨ (p < M.n_rows ∧ M.at_rc p p ≤ 0)) := by
  by_cases hall : ∀ j, j < M.n_rows → 0 < M.at_rc j j
  · exact ⟨M.n_rows, hall, Or.inl rfl⟩
  · have hex : ∃ j, j < M.n_rows ∧ M.at_rc j j ≤ 0 := by
      by_contra hne
      apply hall
      intro j hj
      by_contra hle
      exact hne ⟨j, hj, not_lt.mp hle⟩
    classical
    refine ⟨Nat.find hex, ?_, Or.inr (Nat.find_spec hex)⟩
    intro j hj
    by_contra hle
    exact Nat.find_min hex hj ⟨Nat.lt_trans hj (Nat.find_spec hex).1, not_lt.mp hle⟩

/-- C17. `sympd` diagonal path on a real square diagonal matrix: the status is true
exactly when every diagonal entry is positive, and the `sympd` backend is not called; on
success `out(i,i) = 1 / A(i,i)` with the off-diagonal elements zero; on failure, with
`k` the smallest index where `A(k,k)` is not positive, the entries before `k` hold
`1 / A(i,i)` and the entries from `k` on still hold `A(i,i)`. -/
theorem spd_diagonal_path (env : Env K) (has_user_flags is_op_diagmat : Bool)
    (out M : Mat K) (flags : Nat) (hreal : env.is_cx_no = true)
    (hsq : M.n_rows = M.n_cols) (hdiag : M.is_diagmat = true) :
    ((op_inv_spd_apply_direct env has_user_flags is_op_diagmat out M flags).1.result
        = Except.ok true ↔ ∀ i < M.n_rows, 0 < M.at_rc i i) ∧
    ((op_inv_spd_apply_direct env has_user_flags is_op_diagmat out M flags).1.result
        ≠ Except.ok true →
      (op_inv_spd_apply_direct env has_user_flags is_op_diagmat out M flags).1.result
        = Except.ok false) ∧
    (op_inv_spd_apply_direct env has_user_flags is_op_diagmat out M flags).1.calls = [] ∧
    ((∀ i < M.n_rows, 0 < M.at_rc i i) →
      ∀ r c, r < M.n_rows → c < M.n_rows →
        (op_inv_spd_apply_direct env has_user_flags is_op_diagmat out M flags).1.out.at_rc r c
          = if r = c then 1 / M.at_rc r r else 0) ∧
    (∀ k, k < M.n_rows → M.at_rc k k ≤ 0 → (∀ i, i < k → 0 < M.at_rc i i) →
      (op_inv_spd_apply_direct env has_user_flags is_op_diagmat out M flags).1.result
        = Except.ok false ∧
      ∀ r c, r < M.n_rows → c < M.n_rows →
        (op_inv_spd_apply_direct env has_user_flags is_op_diagmat out M flags).1.out.at_rc r c
          = if r = c then (if r < k then 1 / M.at_rc r r else M.at_rc r r) else 0) := by
  have hfail : ∀ k, k < M.n_rows → M.at_rc k k ≤ 0 → (∀ i, i < k → 0 < M.at_rc i i) →
      (op_inv_spd_apply_direct env has_user_flags is_op_diagmat out M flags).1.result
        = Except.ok false ∧
      ∀ r c, r < M.n_rows → c < M.n_rows →
        (op_inv_spd_apply_direct env has_user_flags is_op_diagmat out M flags).1.out.at_rc r c
          = if r = c then (if r < k then 1 / M.at_rc r r else M.at_rc r r) else 0 := by
    intro k hk hbad hpos
    obtain ⟨h1, _, _, _, h5⟩ := spd_diagonal_stop env has_user_flags is_op_diagmat out M
      flags hreal hsq hdiag k hpos (Or.inr ⟨hk, hbad⟩)
    refine ⟨?_, h5⟩
    rw [h1]
    have : ¬ (k = M.n_rows) := by omega
    simp [this]
  have hok : (∀ i < M.n_rows, 0 < M.at_rc i i) →
      (op_inv_spd_apply_direct env has_user_flags is_op_diagmat out M flags).1.result
        = Except.ok true ∧
      ∀ r c, r < M.n_rows → c < M.n_rows →
        (op_inv_spd_apply_direct env has_user_flags is_op_diagmat out M flags).1.out.at_rc r c
          = if r = c then 1 / M.at_rc r r else 0 := by
    intro hall
    obtain ⟨h1, _, _, _, h5⟩ := spd_diagonal_stop env has_user_flags is_op_diagmat out M
      flags hreal hsq hdiag M.n_rows hall (Or.inl rfl)
    refine ⟨by rw [h1]; simp, ?_⟩
    intro r c hr hc
    rw [h5 r c hr hc, if_pos hr]
  obtain ⟨p, hp1, hp2⟩ := exists_stop M
  obtain ⟨g1, g2, _⟩ := spd_diagonal_stop env has_user_flags is_op_diagmat out M
    flags hreal hsq hdiag p hp1 hp2
  refine ⟨⟨?_, fun h => (hok h).1⟩, ?_, g2, fun h => (hok h).2, hfail⟩
  · intro htrue i hi
    rcases hp2 with hp2 | hp2
    · exact hp1 i (by omega)
    · have := (hfail p hp2.1 hp2.2 hp1).1
      rw [htrue] at this
      exact absurd this (by simp)
  · intro hne
    rw [g1] at hne ⊢
    cases hdec : decide (p = M.n_rows)
    · rfl
    · rw [hdec] at hne
      exact absurd rfl hne

/-- Witness of C17: `diag(2,4)` succeeds and `out(1,1) = 1/4`. -/
theorem spd_diagonal_path_witness :
    (op_inv_spd_apply_direct Env.sample false false (Mat.ofList 0 0 [])
      (Mat.ofList 2 2 [2, 0, 0, 4]) 0).1.result = Except.ok true ∧
    (op_inv_spd_apply_direct Env.sample false false (Mat.ofList 0 0 [])
      (Mat.ofList 2 2 [2, 0, 0, 4]) 0).1.out.at_rc 1 1 = 1 / 4 := by
  have h := spd_diagonal_path Env.sample false false (Mat.ofList 0 0 [])
    (Mat.ofList 2 2 [2, 0, 0, 4]) 0 rfl rfl (by decide)
  have hall : ∀ i < (Mat.ofList 2 2 [2, 0, 0, (4 : ℚ)]).n_rows,
      0 < (Mat.ofList 2 2 [2, 0, 0, (4 : ℚ)]).at_rc i i := by
    intro i hi
    have hi2 : i < 2 := hi
    interval_cases i <;> norm_num [Mat.at_rc, Mat.ofList]
  refine ⟨h.1.mpr hall, ?_⟩
  rw [h.2.2.2.1 hall 1 1 (by decide) (by decide)]
  norm_num [Mat.at_rc, Mat.ofList]

/-- C13, counterexample: on `diag(2,-1)`, whose only entry that is not positive is the
last one, the `sympd` dispatcher returns false and the first diagonal entry of `out`
holds the reciprocal `1/2`, not the input value 2. -/
theorem spd_diagonal_partial_write :
    (Mat.ofList 2 2 [2, 0, 0, (-1 : ℚ)]).is_diagmat = true ∧
    (Mat.ofList 2 2 [2, 0, 0, (-1 : ℚ)]).at_rc 0 0 = 2 ∧
    (op_inv_spd_apply_direct Env.sample false false (Mat.ofList 0 0 [])
      (Mat.ofList 2 2 [2, 0, 0, -1]) 0).1.result = Except.ok false ∧
    (op_inv_spd_apply_direct Env.sample false false (Mat.ofList 0 0 [])
      (Mat.ofList 2 2 [2, 0, 0, -1]) 0).1.out.at_rc 0 0 = 1 / 2 := by
  have h := spd_diagonal_stop Env.sample false false (Mat.ofList 0 0 [])
    (Mat.ofList 2 2 [2, 0, 0, -1]) 0 rfl rfl (by decide) 1
    (by intro j hj
        interval_cases j
        norm_num [Mat.at_rc, Mat.ofList])
    (Or.inr ⟨by decide, by norm_num [Mat.at_rc, Mat.ofList]⟩)
  refine ⟨by decide, by norm_num [Mat.at_rc, Mat.ofList], ?_, ?_⟩
  · rw [h.1]; rfl
  · rw [h.2.2.2.2 0 0 (by decide) (by decide)]
    norm_num [Mat.at_rc, Mat.ofList]

/-- C13, amended: on a real square diagonal matrix whose only diagonal entry that is not
positive is at index `k`, the `sympd` dispatcher returns false without calling the
backend; the diagonal entries from `k` on still hold their input values and the entries
before `k` hold their reciprocals, so that nothing has been written when `k = 0`. -/
theorem spd_diagonal_one_bad (env : Env K) (has_user_flags is_op_diagmat : Bool)
    (out M : Mat K) (flags : Nat) (hreal : env.is_cx_no = true)
    (hsq : M.n_rows = M.n_cols) (hdiag : M.is_diagmat = true) (k : Nat)
    (hk : k < M.n_rows) (hbad : M.at_rc k k ≤ 0)
    (hothers : ∀ i, i < M.n_rows → i ≠ k → 0 < M.at_rc i i) :
    (op_inv_spd_apply_direct env has_user_flags is_op_diagmat out M flags).1.result
      = Except.ok false ∧
    (op_inv_spd_apply_direct env has_user_flags is_op_diagmat out M flags).1.calls = [] ∧
    (∀ i, i < M.n_rows →
      (op_inv_spd_apply_direct env has_user_flags is_op_diagmat out M flags).1.out.at_rc i i
        = if i < k then 1 / M.at_rc i i else M.at_rc i i) ∧
    (k = 0 → ∀ r c, r < M.n_rows → c < M.n_rows →
      (op_inv_spd_apply_direct env has_user_flags is_op_diagmat out M flags).1.out.at_rc r c
        = M.at_rc r c) := by
  obtain ⟨h1, h2, _, _, h5⟩ := spd_diagonal_stop env has_user_flags is_op_diagmat out M
    flags hreal hsq hdiag k (fun j hj => hothers j (by omega) (by omega))
    (Or.inr ⟨hk, hbad⟩)
  refine ⟨?_, h2, ?_, ?_⟩
  · rw [h1]
    have : ¬ (k = M.n_rows) := by omega
    simp [this]
  · intro i hi
    rw [h5 i i hi hi, if_pos rfl]
  · intro hk0 r c hr hc
    rw [h5 r c hr hc]
    by_cases hrc : r = c
    · subst hrc
      rw [if_pos rfl, if_neg (by omega)]
    · rw [if_neg hrc]
      exact ((is_diagmat_iff M).mp hdiag c (by rw [← hsq]; exact hc) r hr hrc).symm

/-- Witness of the amended C13: on `diag(-1,2)` the status is false and the last entry
still holds 2. -/
theorem spd_diagonal_one_bad_witness :
    (op_inv_spd_apply_direct Env.sample false false (Mat.ofList 0 0 [])
      (Mat.ofList 2 2 [-1, 0, 0, 2]) 0).1.result = Except.ok false ∧
    (op_inv_spd_apply_direct Env.sample false false (Mat.ofList 0 0 [])
      (Mat.ofList 2 2 [-1, 0, 0, 2]) 0).1.out.at_rc 1 1 = 2 := by
  have h := spd_diagonal_one_bad Env.sample false false (Mat.ofList 0 0 [])
    (Mat.ofList 2 2 [-1, 0, 0, 2]) 0 rfl rfl (by decide) 0 (by decide)
    (by norm_num [Mat.at_rc, Mat.ofList])
    (by intro i hi hne
        have hi2 : i < 2 := hi
        interval_cases i
        · exact absurd rfl hne
        · norm_num [Mat.at_rc, Mat.ofList])
  refine ⟨h.1, ?_⟩
  rw [h.2.2.1 1 (by decide)]
  norm_num [Mat.at_rc, Mat.ofList]

/-- C12. Flag non-interference of the `sympd` dispatcher: two flag words that agree on
the fast bit give the same status (or the same squareness error), the same `out` and the
same calls; no flag word raises the flag-conflict error, and on a square input the call
always returns a status. -/
theorem spd_flags_noninterference (env : Env K) (has_user_flags is_op_diagmat : Bool)
    (out M : Mat K) (flags1 flags2 : Nat)
    (hfast : flags1 &&& flag_fast = flags2 &&& flag_fast) :
    (op_inv_spd_apply_direct env has_user_flags is_op_diagmat out M flags1).1.result
      = (op_inv_spd_apply_direct env has_user_flags is_op_diagmat out M flags2).1.result ∧
    (op_inv_spd_apply_direct env has_user_flags is_op_diagmat out M flags1).1.out
      = (op_inv_spd_apply_direct env has_user_flags is_op_diagmat out M flags2).1.out ∧
    (op_inv_spd_apply_direct env has_user_flags is_op_diagmat out M flags1).1.calls
      = (op_inv_spd_apply_direct env has_user_flags is_op_diagmat out M flags2).1.calls ∧
    (op_inv_spd_apply_direct env has_user_flags is_op_diagmat out M flags1).1.result
      ≠ Except.error Err.flags_exclusive ∧
    (M.n_rows = M.n_cols → ∃ b,
      (op_inv_spd_apply_direct env has_user_flags is_op_diagmat out M flags1).1.result
        = Except.ok b) := by
  have hf : has_flag has_user_flags flags1 flag_fast
      = has_flag has_user_flags flags2 flag_fast := by
    simp only [has_flag, hfast]
  by_cases hsq : M.n_rows = M.n_cols
  · rw [spd_apply_direct_square env has_user_flags is_op_diagmat out M flags1 hsq,
      spd_apply_direct_square env has_user_flags is_op_diagmat out M flags2 hsq, hf]
    obtain ⟨b, hb⟩ := spd_dispatch_status env (has_flag has_user_flags flags2 flag_fast)
      is_op_diagmat M
    refine ⟨rfl, rfl, rfl, ?_, fun _ => ⟨b, hb⟩⟩
    rw [hb]
    simp
  · rw [spd_apply_direct_not_square env has_user_flags is_op_diagmat out M flags1 hsq,
      spd_apply_direct_not_square env has_user_flags is_op_diagmat out M flags2 hsq]
    refine ⟨rfl, rfl, rfl, ?_, fun h => absurd h hsq⟩
    simp

/-- Witness of C12: the flag words 0 and `likely_sympd | no_sympd` on `diag(2,4)`. -/
theorem spd_flags_noninterference_witness :
    (op_inv_spd_apply_direct Env.sample true false (Mat.ofList 0 0 [])
      (Mat.ofList 2 2 [2, 0, 0, 4]) 0).1.result
    = (op_inv_spd_apply_direct Env.sample true false (Mat.ofList 0 0 [])
      (Mat.ofList 2 2 [2, 0, 0, 4]) 6).1.result :=
  (spd_flags_noninterference Env.sample true false (Mat.ofList 0 0 [])
    (Mat.ofList 2 2 [2, 0, 0, 4]) 0 6 (by decide)).1

/-- C16, counterexample: with the fast flag, on the matrix with rows `(1,2)` and `(2,-1)`
(not diagonal, last diagonal entry negative) the gate fails and the dispatcher returns
false with `out` the materialised input and no call made, while the `sympd` backend of
this instantiation overwrites the matrix it is given. -/
theorem spd_gate_failure_returns :
    (op_inv_spd_apply_direct
      { Env.sample with inv_sympd := fun M => (false, M.zeros M.n_rows M.n_cols) }
      true false (Mat.ofList 0 0 []) (Mat.ofList 2 2 [1, 2, 2, -1]) flag_fast).1.result
        = Except.ok false ∧
    (op_inv_spd_apply_direct
      { Env.sample with inv_sympd := fun M => (false, M.zeros M.n_rows M.n_cols) }
      true false (Mat.ofList 0 0 []) (Mat.ofList 2 2 [1, 2, 2, -1]) flag_fast).1.calls
        = [] ∧
    (op_inv_spd_apply_direct
      { Env.sample with inv_sympd := fun M => (false, M.zeros M.n_rows M.n_cols) }
      true false (Mat.ofList 0 0 []) (Mat.ofList 2 2 [1, 2, 2, -1]) flag_fast).1.out.at_rc 0 0
        = 1 ∧
    (({ Env.sample with inv_sympd := fun M => (false, M.zeros M.n_rows M.n_cols) } :
      Env ℚ).inv_sympd (Mat.ofList 2 2 [1, 2, 2, -1])).2.at_rc 0 0 = 0 := by
  have hgate : spd_gate (Mat.ofList 2 2 [1, 2, 2, (-1 : ℚ)]).mem
      (Mat.ofList 2 2 [1, 2, 2, (-1 : ℚ)]).n_rows = false := by
    cases hv : spd_gate (Mat.ofList 2 2 [1, 2, 2, (-1 : ℚ)]).mem
      (Mat.ofList 2 2 [1, 2, 2, (-1 : ℚ)]).n_rows
    · rfl
    · have := ((spd_gate_iff _).mp hv).1 1 (by decide)
      norm_num [Mat.at_rc, Mat.ofList] at this
  have h := spd_dispatch_tiny
    { Env.sample with inv_sympd := fun M => (false, M.zeros M.n_rows M.n_cols) }
    (Mat.ofList 2 2 [1, 2, 2, -1]) rfl rfl (by decide) (by decide)
  rw [if_pos hgate] at h
  rw [spd_apply_direct_square _ _ _ _ _ _ rfl]
  have hf : has_flag true flag_fast flag_fast = true := by decide
  rw [hf, h]
  refine ⟨rfl, rfl, by norm_num [Mat.at_rc, Mat.ofList], ?_⟩
  norm_num [Mat.at_rc, Mat.zeros, Mat.ofList]

/-- C16, amended: in the `sympd` dispatcher with the fast flag, real elements, a square
matrix of size at most 4 that is not diagonal (and no static diagonal tag): the gate
passes exactly when every diagonal entry is positive and no element on or below the
diagonal exceeds the maximum diagonal entry in absolute value; when the gate passes and
the closed-form solver fails, the status and `out` are those of `auxlib::inv_sympd` on
the materialised matrix; when the gate fails, the call returns false at once, with
`out` the materialised matrix and the backend not called. -/
theorem spd_tiny_fallthrough (env : Env K) (has_user_flags : Bool) (out M : Mat K)
    (flags : Nat) (hreal : env.is_cx_no = true)
    (hfast : has_flag has_user_flags flags flag_fast = true)
    (hsq : M.n_rows = M.n_cols) (hN : M.n_rows ≤ 4) (hdiag : M.is_diagmat = false) :
    (spd_gate M.mem M.n_rows = true ↔
      (∀ i < M.n_rows, 0 < M.at_rc i i) ∧
      (∀ c r, c ≤ r → r < M.n_rows → ∃ i < M.n_rows, |M.at_rc r c| ≤ M.at_rc i i)) ∧
    (spd_gate M.mem M.n_rows = true →
      (apply_tiny_noalias env.eps env.is_float
        { n_rows := M.n_rows, n_cols := M.n_rows, mem := env.uninit } M).1 = false →
      (op_inv_spd_apply_direct env has_user_flags false out M flags).1
        = { result := Except.ok (env.inv_sympd M).1, out := (env.inv_sympd M).2,
            calls := [Call.tiny, Call.inv_sympd] }) ∧
    (spd_gate M.mem M.n_rows = false →
      (op_inv_spd_apply_direct env has_user_flags false out M flags).1
        = { result := Except.ok false, out := M, calls := [] }) := by
  have h := spd_dispatch_tiny env M hreal hsq hN hdiag
  rw [spd_apply_direct_square env has_user_flags false out M flags hsq, hfast]
  refine ⟨spd_gate_iff M, ?_, ?_⟩
  · intro hg ht
    rw [h, if_neg (by rw [hg]; exact Bool.noConfusion),
      if_neg (by rw [ht]; exact Bool.false_ne_true)]
  · intro hg
    rw [h, if_pos hg]

/-- Witness of the amended C16: the matrix with rows `(1,2)` and `(2,-1)` with the fast
flag and the sample instantiation. -/
theorem spd_tiny_fallthrough_witness :
    (op_inv_spd_apply_direct Env.sample true false (Mat.ofList 0 0 [])
      (Mat.ofList 2 2 [1, 2, 2, -1]) flag_fast).1.calls = [] := by
  have h := spd_tiny_fallthrough Env.sample true (Mat.ofList 0 0 [])
    (Mat.ofList 2 2 [1, 2, 2, -1]) flag_fast rfl (by decide) rfl (by decide) (by decide)
  have hgate : spd_gate (Mat.ofList 2 2 [1, 2, 2, (-1 : ℚ)]).mem
      (Mat.ofList 2 2 [1, 2, 2, (-1 : ℚ)]).n_rows = false := by
    cases hv : spd_gate (Mat.ofList 2 2 [1, 2, 2, (-1 : ℚ)]).mem
      (Mat.ofList 2 2 [1, 2, 2, (-1 : ℚ)]).n_rows
    · rfl
    · have := (h.1.mp hv).1 1 (by decide)
      norm_num [Mat.at_rc, Mat.ofList] at this
  rw [h.2.2 hgate]

/-- The quadratic form at a unit vector is the diagonal entry. -/
theorem quad_single {n : Nat} (A : Matrix (Fin n) (Fin n) K) (i : Fin n) :
    Matrix.dotProduct (Pi.single i 1) (A.mulVec (Pi.single i 1)) = A i i := by
  simp [Matrix.single_dotProduct, Matrix.mulVec_single]

/-- The quadratic form at `e_r + s e_c`. -/
theorem quad_pair {n : Nat} (A : Matrix (Fin n) (Fin n) K) (r c : Fin n) (s : K) :
    Matrix.dotProduct (Pi.single r 1 + Pi.single c s)
        (A.mulVec (Pi.single r 1 + Pi.single c s))
      = A r r + s * A r c + s * A c r + s * s * A c c := by
  simp [Matrix.add_dotProduct, Matrix.mulVec_add, Matrix.single_dotProduct,
    Matrix.mulVec_single]
  ring

/-- A positive-definite quadratic form has positive diagonal entries. -/
theorem posdef_diag_pos {n : Nat} (A : Matrix (Fin n) (Fin n) K)
    (hpd : ∀ x : Fin n → K, x ≠ 0 → 0 < Matrix.dotProduct x (A.mulVec x)) (i : Fin n) :
    0 < A i i := by
  have hx : (Pi.single i 1 : Fin n → K) ≠ 0 := by
    intro h
    have := congrFun h i
    simp at this
  have := hpd _ hx
  rwa [quad_single] at this

/-- For a symmetric positive-definite matrix, twice an off-diagonal entry is below the sum
of the two diagonal entries of its row and column, in absolute value. -/
theorem posdef_offdiag {n : Nat} (A : Matrix (Fin n) (Fin n) K) (hsym : A.IsSymm)
    (hpd : ∀ x : Fin n → K, x ≠ 0 → 0 < Matrix.dotProduct x (A.mulVec x)) (r c : Fin n)
    (hrc : r ≠ c) : 2 * |A r c| < A r r + A c c := by
  have hx : ∀ s : K, (Pi.single r 1 + Pi.single c s : Fin n → K) ≠ 0 := by
    intro s h
    have := congrFun h r
    simp [Pi.single_eq_of_ne hrc] at this
  have hcr : A c r = A r c := hsym.apply r c
  have h1 := hpd _ (hx 1)
  have h2 := hpd _ (hx (-1))
  rw [quad_pair, hcr] at h1 h2
  rcases abs_cases (A r c) with ⟨e, _⟩ | ⟨e, _⟩ <;> rw [e] <;> linarith

/-- Over the reals, the hypotheses used for the gate are those of `Matrix.PosDef`. -/
theorem posDef_real_iff {n : Nat} (A : Matrix (Fin n) (Fin n) ℝ) :
    A.PosDef ↔ A.IsSymm ∧ ∀ x : Fin n → ℝ, x ≠ 0 → 0 < Matrix.dotProduct x (A.mulVec x) := by
  constructor
  · intro h
    refine ⟨?_, ?_⟩
    · have h1 := h.1
      unfold Matrix.IsHermitian at h1
      rw [Matrix.conjTranspose_eq_transpose_of_trivial] at h1
      exact h1
    · intro x hx
      have := h.2 x hx
      simpa using this
  · intro h
    refine ⟨?_, ?_⟩
    · unfold Matrix.IsHermitian
      rw [Matrix.conjTranspose_eq_transpose_of_trivial]
      exact h.1
    · intro x hx
      have := h.2 x hx
      simpa using this

/-- Among the first `N ≥ 1` values of a sequence one is the largest. -/
theorem exists_max_index (d : Nat → K) (N : Nat) (hN : 1 ≤ N) :
    ∃ m < N, ∀ j < N, d j ≤ d m := by
  induction N with
  | zero => omega
  | succ n ih =>
    by_cases hn : n = 0
    · subst hn
      refine ⟨0, by omega, ?_⟩
      intro j hj
      have : j = 0 := by omega
      rw [this]
    · obtain ⟨m, hm, hmax⟩ := ih (by omega)
      by_cases hle : d n ≤ d m
      · refine ⟨m, by omega, ?_⟩
        intro j hj
        by_cases hjn : j = n
        · rw [hjn]; exact hle
        · exact hmax j (by omega)
      · refine ⟨n, by omega, ?_⟩
        intro j hj
        by_cases hjn : j = n
        · rw [hjn]
        · exact le_trans (hmax j (by omega)) (le_of_lt (not_le.mp hle))

/-- C21. The plausibility gate has no false negatives: for a square matrix of size
`1 ≤ N ≤ 4` that is symmetric and positive definite, every diagonal entry is positive and
every element on or below the diagonal is at most the maximum diagonal entry in absolute
value, so the gate passes; with the fast flag and real elements the `sympd` dispatcher
then returns the result of the closed-form solver or, when that fails, of the `sympd`
backend (and on a diagonal matrix the diagonal path returns true): it does not return
false at the gate. -/
theorem spd_gate_no_false_negative (env : Env K) (has_user_flags is_op_diagmat : Bool)
    (out M : Mat K) (flags : Nat) (hsq : M.n_rows = M.n_cols) (hN1 : 1 ≤ M.n_rows)
    (hN4 : M.n_rows ≤ 4) (hsym : (M.toMatrix M.n_rows).IsSymm)
    (hpd : ∀ x : Fin M.n_rows → K, x ≠ 0 →
      0 < Matrix.dotProduct x ((M.toMatrix M.n_rows).mulVec x)) :
    (∀ i < M.n_rows, 0 < M.at_rc i i) ∧
    (∃ m < M.n_rows, (∀ j < M.n_rows, M.at_rc j j ≤ M.at_rc m m) ∧
      ∀ c r, c ≤ r → r < M.n_rows → |M.at_rc r c| ≤ M.at_rc m m) ∧
    spd_gate M.mem M.n_rows = true ∧
    (env.is_cx_no = true → has_flag has_user_flags flags flag_fast = true →
      M.is_diagmat = false →
      ((apply_tiny_noalias env.eps env.is_float
          { n_rows := M.n_rows, n_cols := M.n_rows, mem := env.uninit } M).1 = true →
        (op_inv_spd_apply_direct env has_user_flags false out M flags).1.result
          = Except.ok true ∧
        (op_inv_spd_apply_direct env has_user_flags false out M flags).1.calls
          = [Call.tiny]) ∧
      ((apply_tiny_noalias env.eps env.is_float
          { n_rows := M.n_rows, n_cols := M.n_rows, mem := env.uninit } M).1 = false →
        (op_inv_spd_apply_direct env has_user_flags false out M flags).1
          = { result := Except.ok (env.inv_sympd M).1, out := (env.inv_sympd M).2,
              calls := [Call.tiny, Call.inv_sympd] })) ∧
    (env.is_cx_no = true → M.is_diagmat = true →
      (op_inv_spd_apply_direct env has_user_flags is_op_diagmat out M flags).1.result
        = Except.ok true) := by
  have hdiagpos : ∀ i < M.n_rows, 0 < M.at_rc i i := by
    intro i hi
    exact posdef_diag_pos (M.toMatrix M.n_rows) hpd ⟨i, hi⟩
  have hoff : ∀ c r, c < M.n_rows → r < M.n_rows →
      |M.at_rc r c| ≤ max (M.at_rc r r) (M.at_rc c c) := by
    intro c r hc hr
    by_cases hrc : r = c
    · subst hrc
      rw [abs_of_pos (hdiagpos r hr), max_self]
    · have h := posdef_offdiag (M.toMatrix M.n_rows) hsym hpd ⟨r, hr⟩ ⟨c, hc⟩
        (fun h => hrc (Fin.mk.inj_iff.mp h))
      have h' : 2 * |M.at_rc r c| < M.at_rc r r + M.at_rc c c := h
      rcases le_total (M.at_rc r r) (M.at_rc c c) with hle | hle
      · rw [max_eq_right hle]; linarith
      · rw [max_eq_left hle]; linarith
  obtain ⟨m, hm, hmax⟩ := exists_max_index (fun j => M.at_rc j j) M.n_rows hN1
  have hbound : ∀ c r, c ≤ r → r < M.n_rows → |M.at_rc r c| ≤ M.at_rc m m := by
    intro c r hcr hr
    exact le_trans (hoff c r (by omega) hr) (max_le (hmax r hr) (hmax c (by omega)))
  have hgate : spd_gate M.mem M.n_rows = true :=
    (spd_gate_iff M).mpr ⟨hdiagpos, fun c r hcr hr => ⟨m, hm, hbound c r hcr hr⟩⟩
  refine ⟨hdiagpos, ⟨m, hm, hmax, hbound⟩, hgate, ?_, ?_⟩
  · intro hreal hfast hnd
    have h := spd_dispatch_tiny env M hreal hsq hN4 hnd
    rw [if_neg (by rw [hgate]; exact Bool.noConfusion)] at h
    rw [spd_apply_direct_square env has_user_flags false out M flags hsq, hfast, h]
    constructor
    · intro ht
      rw [if_pos ht]
      exact ⟨rfl, rfl⟩
    · intro ht
      rw [if_neg (by rw [ht]; exact Bool.false_ne_true)]
  · intro hreal hd
    have h := (spd_diagonal_stop env has_user_flags is_op_diagmat out M flags hreal hsq hd
      M.n_rows (fun j hj => hdiagpos j hj) (Or.inl rfl)).1
    rw [h]
    simp

/-- Witness of C21: the symmetric positive-definite matrix with rows `(2,1)` and `(1,2)`
passes the gate. -/
theorem spd_gate_no_false_negative_witness :
    spd_gate (Mat.ofList 2 2 [2, 1, 1, (2 : ℚ)]).mem 2 = true := by
  have hsym : (Mat.toMatrix 2 (Mat.ofList 2 2 [2, 1, 1, (2 : ℚ)])).IsSymm := by
    ext i j
    fin_cases i <;> fin_cases j <;> rfl
  have hpd : ∀ x : Fin 2 → ℚ, x ≠ 0 →
      0 < Matrix.dotProduct x ((Mat.toMatrix 2 (Mat.ofList 2 2 [2, 1, 1, (2 : ℚ)])).mulVec x) := by
    intro x hx
    have hne : x 0 ≠ 0 ∨ x 1 ≠ 0 := by
      by_contra h
      push_neg at h
      apply hx
      ext i
      fin_cases i
      · exact h.1
      · exact h.2
    have hq : Matrix.dotProduct x
        ((Mat.toMatrix 2 (Mat.ofList 2 2 [2, 1, 1, (2 : ℚ)])).mulVec x)
        = x 0 * x 0 + x 1 * x 1 + (x 0 + x 1) * (x 0 + x 1) := by
      simp [Matrix.dotProduct, Matrix.mulVec, Fin.sum_univ_two, Mat.toMatrix, Mat.at_rc,
        Mat.ofList]
      ring
    rw [hq]
    rcases hne with h | h
    · have := mul_self_pos.mpr h
      nlinarith [mul_self_nonneg (x 1), mul_self_nonneg (x 0 + x 1)]
    · have := mul_self_pos.mpr h
      nlinarith [mul_self_nonneg (x 0), mul_self_nonneg (x 0 + x 1)]
  exact (spd_gate_no_false_negative Env.sample true false (Mat.ofList 0 0 [])
    (Mat.ofList 2 2 [2, 1, 1, 2]) flag_fast rfl (by decide) (by decide) hsym hpd).2.2.1

end Sympd

/-- The shared body of the wrappers: the runtime error is raised exactly when the status
is false, after `out` has been reset to the empty matrix; on a true status nothing is
raised and `out` is left as it is. -/
theorem wrapper_finish_spec (o : Outcome K) (err : Raised) (herr : ∀ e, err ≠ Raised.config e) :
    ((wrapper_finish o err).raised = some err ↔ o.result = Except.ok false) ∧
    (o.result = Except.ok false →
      (wrapper_finish o err).out.n_rows = 0 ∧ (wrapper_finish o err).out.n_cols = 0 ∧
      (wrapper_finish o err).out.n_elem = 0) ∧
    (o.result = Except.ok true →
      (wrapper_finish o err).raised = none ∧ (wrapper_finish o err).out = o.out) := by
  unfold wrapper_finish
  cases hres : o.result with
  | error e =>
    refine ⟨⟨?_, ?_⟩, ?_, ?_⟩
    · intro h
      simp only [Option.some.injEq] at h
      exact absurd h.symm (herr e)
    · intro h; exact absurd h (by simp)
    · intro h; exact absurd h (by simp)
    · intro h; exact absurd h (by simp)
  | ok b =>
    cases b
    · refine ⟨⟨fun _ => rfl, fun _ => by simp⟩, fun _ => ?_, fun h => absurd h (by simp)⟩
      simp [Mat.soft_reset, Mat.set_size, Mat.n_elem]
    · refine ⟨⟨?_, fun h => absurd h (by simp)⟩, fun h => absurd h (by simp), fun _ => ?_⟩
      · intro h
        simp at h
      · simp

section Wrappers
variable [LinearOrderedField K]

/-- C11. The four top-level wrappers: each raises its runtime error exactly when the
corresponding `apply_direct` returns false, with `out` reset to the empty matrix; when
`apply_direct` returns true, nothing is raised and `out` is the one `apply_direct`
produced. -/
theorem wrappers_reset_and_raise (env : Env K) (is_op_diagmat : Bool) (out M : Mat K)
    (expr : Expr K) (flags : Nat) :
    (((op_inv_gen_apply env out expr flags).raised = some Raised.singular ↔
        (apply_direct env true out expr flags).result = Except.ok false) ∧
      ((apply_direct env true out expr flags).result = Except.ok false →
        (op_inv_gen_apply env out expr flags).out.n_rows = 0 ∧
        (op_inv_gen_apply env out expr flags).out.n_cols = 0) ∧
      ((apply_direct env true out expr flags).result = Except.ok true →
        (op_inv_gen_apply env out expr flags).raised = none ∧
        (op_inv_gen_apply env out expr flags).out
          = (apply_direct env true out expr flags).out)) ∧
    (((op_inv_gen_default_apply env out expr).raised = some Raised.singular ↔
        (apply_direct_default env out expr).result = Except.ok false) ∧
      ((apply_direct_default env out expr).result = Except.ok false →
        (op_inv_gen_default_apply env out expr).out.n_rows = 0 ∧
        (op_inv_gen_default_apply env out expr).out.n_cols = 0) ∧
      ((apply_direct_default env out expr).result = Except.ok true →
        (op_inv_gen_default_apply env out expr).raised = none ∧
        (op_inv_gen_default_apply env out expr).out
          = (apply_direct_default env out expr).out)) ∧
    (((op_inv_spd_apply env is_op_diagmat out M flags).raised
          = some Raised.singular_or_not_posdef ↔
        (op_inv_spd_apply_direct env true is_op_diagmat out M flags).1.result
          = Except.ok false) ∧
      ((op_inv_spd_apply_direct env true is_op_diagmat out M flags).1.result
          = Except.ok false →
        (op_inv_spd_apply env is_op_diagmat out M flags).out.n_rows = 0 ∧
        (op_inv_spd_apply env is_op_diagmat out M flags).out.n_cols = 0) ∧
      ((op_inv_spd_apply_direct env true is_op_diagmat out M flags).1.result
          = Except.ok true →
        (op_inv_spd_apply env is_op_diagmat out M flags).raised = none ∧
        (op_inv_spd_apply env is_op_diagmat out M flags).out
          = (op_inv_spd_apply_direct env true is_op_diagmat out M flags).1.out)) ∧
    (((op_inv_spd_default_apply env is_op_diagmat out M).raised
          = some Raised.singular_or_not_posdef ↔
        (op_inv_spd_default_apply_direct env is_op_diagmat out M).1.result
          = Except.ok false) ∧
      ((op_inv_spd_default_apply_direct env is_op_diagmat out M).1.result
          = Except.ok false →
        (op_inv_spd_default_apply env is_op_diagmat out M).out.n_rows = 0 ∧
        (op_inv_spd_default_apply env is_op_diagmat out M).out.n_cols = 0) ∧
      ((op_inv_spd_default_apply_direct env is_op_diagmat out M).1.result
          = Except.ok true →
        (op_inv_spd_default_apply env is_op_diagmat out M).raised = none ∧
        (op_inv_spd_default_apply env is_op_diagmat out M).out
          = (op_inv_spd_default_apply_direct env is_op_diagmat out M).1.out)) := by
  have hs : ∀ e, Raised.singular ≠ Raised.config e := fun e h => Raised.noConfusion h
  have hp : ∀ e, Raised.singular_or_not_posdef ≠ Raised.config e :=
    fun e h => Raised.noConfusion h
  refine ⟨?_, ?_, ?_, ?_⟩
  · obtain ⟨h1, h2, h3⟩ := wrapper_finish_spec (apply_direct env true out expr flags)
      Raised.singular hs
    exact ⟨h1, fun h => ⟨(h2 h).1, (h2 h).2.1⟩, h3⟩
  · obtain ⟨h1, h2, h3⟩ := wrapper_finish_spec (apply_direct_default env out expr)
      Raised.singular hs
    exact ⟨h1, fun h => ⟨(h2 h).1, (h2 h).2.1⟩, h3⟩
  · obtain ⟨h1, h2, h3⟩ := wrapper_finish_spec
      (op_inv_spd_apply_direct env true is_op_diagmat out M flags).1
      Raised.singular_or_not_posdef hp
    exact ⟨h1, fun h => ⟨(h2 h).1, (h2 h).2.1⟩, h3⟩
  · obtain ⟨h1, h2, h3⟩ := wrapper_finish_spec
      (op_inv_spd_default_apply_direct env is_op_diagmat out M).1
      Raised.singular_or_not_posdef hp
    exact ⟨h1, fun h => ⟨(h2 h).1, (h2 h).2.1⟩, h3⟩

/-- Witness of C11: `inv()` of the singular matrix with rows `(1,2)` and `(2,4)` raises
the runtime error with `out` empty. -/
theorem wrappers_reset_and_raise_witness :
    (op_inv_gen_default_apply Env.sample (Mat.ofList 0 0 [])
      (Expr.plain (Mat.ofList 2 2 [1, 2, 2, 4]))).raised = some Raised.singular ∧
    (op_inv_gen_default_apply Env.sample (Mat.ofList 0 0 [])
      (Expr.plain (Mat.ofList 2 2 [1, 2, 2, 4]))).out.n_rows = 0 := by
  have h := (wrappers_reset_and_raise Env.sample false (Mat.ofList 0 0 [])
    (Mat.ofList 0 0 []) (Expr.plain (Mat.ofList 2 2 [1, 2, 2, 4])) 0).2.1
  have hres : (apply_direct_default Env.sample (Mat.ofList 0 0 [])
      (Expr.plain (Mat.ofList 2 2 [1, 2, 2, 4]))).result = Except.ok false := by
    unfold apply_direct_default
    rw [apply_direct_not_tiny _ _ _ _ _ (by decide) rfl
      (by intro h; exact absurd h.1 (by decide)),
      structured_general _ _ _ _ _ (by decide) (by decide) (by decide)]
    rw [if_neg (by decide)]
    rfl
  exact ⟨h.1.mpr hres, (h.2.1 hres).1⟩

end Wrappers



end Arma
